import Mathlib

/-!
# dosemu.h: a shallow embedding of the 16-bit real-mode emulator core

The definitions follow `src/incremental_decompilation/dosemu.h` function by
function and keep its names.  C types are embedded as follows.

* `uint8_t`, `uint16_t`, `uint32_t` are `Fin 2^w`; a conversion to one of them is
  the explicit reduction `% 2^w` (`u8`, `u16`, `u32`).
* `int` (the flags, promoted arithmetic) is `Int`; `int8_t` and `int16_t` values are
  `Int`s produced by the two's-complement conversions `i8`, `i16`.
* Arithmetic is done on the promoted values, where C promotes; `>>` on a signed value is
  the arithmetic shift `Int.shiftRight`, `& 1` on a signed value is `Int.land _ 1`.
* The anonymous unions `ax / (al, ah)` are one 16-bit cell per register pair;
  `al` is its low byte and `ah` its high byte (little-endian layout).
* The three 64KB arrays are functions `uint16_t → uint8_t`; a store is `Function.update`.
* `double` is `Float`.
* Shift counts (`int cnt`) are `Nat`: C leaves a shift by a negative amount, or by at
  least the width of the promoted operand, undefined.
* The palette cursors are `int`s indexing a 768-entry array: an access outside the array
  is undefined in C and is `none` here, so `asm_out` and `asm_in` return an `Option`.
* `while (s->cx)` in `asm_rep_movsw` is a recursion whose termination measure is CX.
* A function that both returns a value and updates the state returns the pair.
* `& 7` on the signed `fpu_top` arithmetic of the macro `ST` is `Int.land _ 7`.
* The C library functions `sin`, `cos`, `sqrt`, `atan2` and `lrint` are the fields of a
  parameter of type `libm_t`; the conversion `(double)` of an integer is `Float.ofInt`.
  `mem_rf32` and `asm_fadd_m32`, which reinterpret four bytes as a `float`, are not embedded.
  `Float` carries no value the kernel can compute with: where a claim speaks of the number a
  `double` denotes, a reading `Float → ℚ` is a parameter and the contract of the library
  function with respect to it is a hypothesis.
* An output stream is the list of the bytes written to it so far, and the result of `fopen`
  is an `Option`.  The two `for` loops of `save_bmp` are folds over the successive values of
  the loop variable.

The file is organised as: the embedding of the source, the vocabulary used to state
the specification, supporting lemmas, and then one theorem per specification claim.
-/

namespace Dosemu

/-! ## Machine integers -/

abbrev uint8_t := Fin 256
abbrev uint16_t := Fin 65536
abbrev uint32_t := Fin 4294967296

/-- Conversion to `uint8_t`: reduction modulo 2^8. -/
def u8 (x : Int) : uint8_t := ⟨(x % 256).toNat, by omega⟩

/-- Conversion to `uint16_t`: reduction modulo 2^16. -/
def u16 (x : Int) : uint16_t := ⟨(x % 65536).toNat, by omega⟩

/-- Conversion to `uint32_t`: reduction modulo 2^32. -/
def u32 (x : Int) : uint32_t := ⟨(x % 4294967296).toNat, by omega⟩

/-- Conversion to `int8_t` (two's complement). -/
def i8 (x : Int) : Int := (x + 128) % 256 - 128

/-- Conversion to `int16_t` (two's complement). -/
def i16 (x : Int) : Int := (x + 32768) % 65536 - 32768

/-- The `int` value of a C comparison: 1 when it holds, 0 otherwise. -/
def b2i (b : Bool) : Int := if b then 1 else 0

/-! ## Register and segment identifiers -/

inductive reg_t where
  | AL | AH | BL | BH | CL | CH | DL | DH
  | AX | BX | CX | DX | SI | DI | BP | SP
  deriving DecidableEq, Repr

inductive seg_t where
  | SEG_DS | SEG_ES | SEG_FS
  deriving DecidableEq, Repr

open reg_t seg_t

/-! ## Machine state -/

structure dos_t where
  ax : uint16_t
  bx : uint16_t
  cx : uint16_t
  dx : uint16_t
  si : uint16_t
  di : uint16_t
  bp : uint16_t
  sp : uint16_t
  cf : Int
  zf : Int
  sf : Int
  of : Int
  mem : uint16_t → uint8_t
  vga : uint16_t → uint8_t
  fsmem : uint16_t → uint8_t
  pal : Fin 768 → uint8_t
  pal_widx : Int
  pal_ridx : Int
  fpu : Fin 8 → Float
  fpu_top : Int

/-- Low byte of a 16-bit cell (the `al` member of the union). -/
def lo (x : uint16_t) : uint8_t := ⟨x.val % 256, by omega⟩

/-- High byte of a 16-bit cell (the `ah` member of the union). -/
def hi (x : uint16_t) : uint8_t := ⟨x.val / 256, by omega⟩

/-- Store to the low byte of a 16-bit cell; the high byte keeps its storage. -/
def set_lo (x : uint16_t) (v : uint8_t) : uint16_t := ⟨x.val / 256 * 256 + v.val, by omega⟩

/-- Store to the high byte of a 16-bit cell; the low byte keeps its storage. -/
def set_hi (x : uint16_t) (v : uint8_t) : uint16_t := ⟨v.val * 256 + x.val % 256, by omega⟩

/-- Zero-extension `uint8_t → uint16_t`. -/
def zx (v : uint8_t) : uint16_t := ⟨v.val, by omega⟩

/-! ## Register access helpers -/

def reg_is8 (r : reg_t) : Bool := decide (r.toCtorIdx ≤ DH.toCtorIdx)

def reg_get (s : dos_t) (r : reg_t) : uint16_t :=
  match r with
  | AL => zx (lo s.ax) | AH => zx (hi s.ax)
  | BL => zx (lo s.bx) | BH => zx (hi s.bx)
  | CL => zx (lo s.cx) | CH => zx (hi s.cx)
  | DL => zx (lo s.dx) | DH => zx (hi s.dx)
  | AX => s.ax | BX => s.bx
  | CX => s.cx | DX => s.dx
  | SI => s.si | DI => s.di
  | BP => s.bp | SP => s.sp

def reg_set (s : dos_t) (r : reg_t) (v : uint16_t) : dos_t :=
  match r with
  | AL => { s with ax := set_lo s.ax (u8 v.val) }
  | AH => { s with ax := set_hi s.ax (u8 v.val) }
  | BL => { s with bx := set_lo s.bx (u8 v.val) }
  | BH => { s with bx := set_hi s.bx (u8 v.val) }
  | CL => { s with cx := set_lo s.cx (u8 v.val) }
  | CH => { s with cx := set_hi s.cx (u8 v.val) }
  | DL => { s with dx := set_lo s.dx (u8 v.val) }
  | DH => { s with dx := set_hi s.dx (u8 v.val) }
  | AX => { s with ax := v } | BX => { s with bx := v }
  | CX => { s with cx := v } | DX => { s with dx := v }
  | SI => { s with si := v } | DI => { s with di := v }
  | BP => { s with bp := v } | SP => { s with sp := v }

/-! ## Flag helpers -/

def flags8 (s : dos_t) (r : uint8_t) (cf : Int) : dos_t :=
  { s with cf := cf, zf := b2i (r.val == 0), sf := ((r.val >>> 7) &&& 1 : Nat) }

def flags16 (s : dos_t) (r : uint16_t) (cf : Int) : dos_t :=
  { s with cf := cf, zf := b2i (r.val == 0), sf := ((r.val >>> 15) &&& 1 : Nat) }

/-! ## Memory access -/

/-- The region a segment tag selects (the array `seg_ptr` points to). -/
def seg_ptr (s : dos_t) (seg : seg_t) : uint16_t → uint8_t :=
  match seg with
  | SEG_DS => s.mem
  | SEG_ES => s.vga
  | SEG_FS => s.fsmem

/-- Store through the pointer `seg_ptr` returns: `seg_ptr(s,seg)[a] = v`. -/
def seg_store (s : dos_t) (seg : seg_t) (a : uint16_t) (v : uint8_t) : dos_t :=
  match seg with
  | SEG_DS => { s with mem := Function.update s.mem a v }
  | SEG_ES => { s with vga := Function.update s.vga a v }
  | SEG_FS => { s with fsmem := Function.update s.fsmem a v }

def mem_r8 (s : dos_t) (g : seg_t) (a : uint16_t) : uint8_t :=
  seg_ptr s g a

def mem_r16 (s : dos_t) (g : seg_t) (a : uint16_t) : uint16_t :=
  let p := seg_ptr s g
  u16 (((p a).val ||| ((zx (p (u16 (a.val + 1)))).val <<< 8) : Nat))

def mem_w8 (s : dos_t) (g : seg_t) (a : uint16_t) (v : uint8_t) : dos_t :=
  seg_store s g a v

def mem_w16 (s : dos_t) (g : seg_t) (a : uint16_t) (v : uint16_t) : dos_t :=
  let s := seg_store s g a (u8 ((v.val &&& 0xFF : Nat)))
  seg_store s g (u16 (a.val + 1)) (u8 ((v.val >>> 8 : Nat)))

/-! ## Integer instructions -/

/-- Embedding of `add reg, reg`. -/
def asm_add (s : dos_t) (d src : reg_t) : dos_t :=
  let a := reg_get s d
  let b := reg_get s src
  if reg_is8 d then
    let r : uint16_t := u16 ((u8 a.val).val + (u8 b.val).val)
    let s := reg_set s d (zx (u8 r.val))
    flags8 s (u8 r.val) (b2i (r.val > 0xFF))
  else
    let r : uint32_t := u32 ((u32 a.val).val + b.val)
    let s := reg_set s d (u16 r.val)
    flags16 s (u16 r.val) (b2i (r.val > 0xFFFF))

/-- Embedding of `sub reg, reg`. -/
def asm_sub (s : dos_t) (d src : reg_t) : dos_t :=
  let a := reg_get s d
  let b := reg_get s src
  if reg_is8 d then
    let r : uint16_t := u16 ((u8 a.val).val - (u8 b.val).val)
    let s := reg_set s d (zx (u8 r.val))
    flags8 s (u8 r.val) (b2i ((u8 a.val).val < (u8 b.val).val))
  else
    let r : uint32_t := u32 ((u32 a.val).val - b.val)
    let s := reg_set s d (u16 r.val)
    flags16 s (u16 r.val) (b2i (a.val < b.val))

/-- Embedding of `cmp reg, reg`. -/
def asm_cmp (s : dos_t) (a b : reg_t) : dos_t :=
  let av := reg_get s a
  let bv := reg_get s b
  if reg_is8 a then
    let r : uint8_t := u8 ((u8 av.val).val - (u8 bv.val).val)
    flags8 s r (b2i ((u8 av.val).val < (u8 bv.val).val))
  else
    let r : uint16_t := u16 (av.val - bv.val)
    flags16 s r (b2i (av.val < bv.val))

/-- Embedding of `cmp reg, imm`. -/
def asm_cmp_i (s : dos_t) (a : reg_t) (v : uint16_t) : dos_t :=
  let av := reg_get s a
  if reg_is8 a then
    let r : uint8_t := u8 ((u8 av.val).val - (u8 v.val).val)
    flags8 s r (b2i ((u8 av.val).val < (u8 v.val).val))
  else
    let r : uint16_t := u16 (av.val - v.val)
    flags16 s r (b2i (av.val < v.val))

/-- Embedding of `adc reg, reg`. -/
def asm_adc (s : dos_t) (d src : reg_t) : dos_t :=
  let a := reg_get s d
  let b := reg_get s src
  if reg_is8 d then
    let r : uint16_t := u16 ((u8 a.val).val + (u8 b.val).val + s.cf)
    let s := reg_set s d (zx (u8 r.val))
    flags8 s (u8 r.val) (b2i (r.val > 0xFF))
  else
    let r : uint32_t := u32 ((u32 a.val).val + b.val + s.cf)
    let s := reg_set s d (u16 r.val)
    flags16 s (u16 r.val) (b2i (r.val > 0xFFFF))

/-- Embedding of `shr reg, count`. -/
def asm_shr (s : dos_t) (d : reg_t) (cnt : Nat) : dos_t :=
  let v := reg_get s d
  if reg_is8 d then
    let x : uint8_t := u8 v.val
    let cf : Int := if cnt ≠ 0 then (((x.val >>> (cnt - 1)) &&& 1 : Nat) : Int) else s.cf
    let x : uint8_t := u8 ((x.val >>> cnt : Nat))
    let s := reg_set s d (zx x)
    flags8 s x cf
  else
    let cf : Int := if cnt ≠ 0 then (((v.val >>> (cnt - 1)) &&& 1 : Nat) : Int) else s.cf
    let v : uint16_t := u16 ((v.val >>> cnt : Nat))
    let s := reg_set s d v
    flags16 s v cf

/-- Embedding of `shl reg, count`. -/
def asm_shl (s : dos_t) (d : reg_t) (cnt : Nat) : dos_t :=
  let v := reg_get s d
  if reg_is8 d then
    let x : uint16_t := zx (u8 v.val)
    let cf : Int := if cnt ≠ 0 then (((x.val >>> (8 - cnt)) &&& 1 : Nat) : Int) else s.cf
    let x : uint16_t := u16 ((x.val <<< cnt : Nat))
    let s := reg_set s d (zx (u8 x.val))
    flags8 s (u8 x.val) cf
  else
    let x : uint32_t := u32 v.val
    let cf : Int := if cnt ≠ 0 then (((x.val >>> (16 - cnt)) &&& 1 : Nat) : Int) else s.cf
    let x : uint32_t := u32 ((x.val <<< cnt : Nat))
    let s := reg_set s d (u16 x.val)
    flags16 s (u16 x.val) cf

/-- Embedding of `sar reg, count`; `>>` on a signed value is the arithmetic shift. -/
def asm_sar (s : dos_t) (d : reg_t) (cnt : Nat) : dos_t :=
  let v := reg_get s d
  if reg_is8 d then
    let x : Int := i8 (u8 v.val).val
    let cf : Int := if cnt ≠ 0 then Int.land (x >>> (cnt - 1)) 1 else s.cf
    let x : Int := i8 (x >>> cnt)
    let s := reg_set s d (zx (u8 x))
    flags8 s (u8 x) cf
  else
    let x : Int := i16 v.val
    let cf : Int := if cnt ≠ 0 then Int.land (x >>> (cnt - 1)) 1 else s.cf
    let x : Int := i16 (x >>> cnt)
    let s := reg_set s d (u16 x)
    flags16 s (u16 x) cf

/-- Embedding of `sar byte [seg:addr], count`. -/
def asm_sar_m8 (s : dos_t) (g : seg_t) (a : uint16_t) (cnt : Nat) : dos_t :=
  let x : Int := i8 (mem_r8 s g a).val
  let cf : Int := if cnt ≠ 0 then Int.land (x >>> (cnt - 1)) 1 else s.cf
  let x : Int := i8 (x >>> cnt)
  let s := mem_w8 s g a (u8 x)
  flags8 s (u8 x) cf

/-- Embedding of `rol reg, count`. -/
def asm_rol (s : dos_t) (d : reg_t) (cnt : Nat) : dos_t :=
  let v := reg_get s d
  if reg_is8 d then
    let x : uint8_t := u8 v.val
    let cnt := cnt &&& 7
    let x : uint8_t := u8 (((x.val <<< cnt) ||| (x.val >>> (8 - cnt)) : Nat))
    let s := reg_set s d (zx x)
    { s with cf := ((x.val &&& 1 : Nat) : Int) }
  else
    let cnt := cnt &&& 15
    let v : uint16_t := u16 (((v.val <<< cnt) ||| (v.val >>> (16 - cnt)) : Nat))
    let s := reg_set s d v
    { s with cf := ((v.val &&& 1 : Nat) : Int) }

/-- Embedding of `inc reg`; the carry flag is not written. -/
def asm_inc (s : dos_t) (d : reg_t) : dos_t :=
  let v : uint16_t := u16 ((reg_get s d).val + 1)
  let s := reg_set s d v
  if reg_is8 d then
    { s with zf := b2i ((u8 v.val).val == 0), sf := ((((u8 v.val).val >>> 7) &&& 1 : Nat) : Int) }
  else
    { s with zf := b2i (v.val == 0), sf := (((v.val >>> 15) &&& 1 : Nat) : Int) }

/-- Embedding of `dec reg`; the carry flag is not written. -/
def asm_dec (s : dos_t) (d : reg_t) : dos_t :=
  let v : uint16_t := u16 ((reg_get s d).val - 1)
  let s := reg_set s d v
  if reg_is8 d then
    { s with zf := b2i ((u8 v.val).val == 0), sf := ((((u8 v.val).val >>> 7) &&& 1 : Nat) : Int) }
  else
    { s with zf := b2i (v.val == 0), sf := (((v.val >>> 15) &&& 1 : Nat) : Int) }

/-- Embedding of `mov reg, reg`. -/
def asm_mov (s : dos_t) (d src : reg_t) : dos_t :=
  reg_set s d (reg_get s src)

/-- Embedding of `mov reg, imm`. -/
def asm_mov_i (s : dos_t) (d : reg_t) (v : uint16_t) : dos_t :=
  reg_set s d v

/-- Embedding of `mov reg, [seg:addr]`. -/
def asm_mov_r_m (s : dos_t) (d : reg_t) (g : seg_t) (a : uint16_t) : dos_t :=
  if reg_is8 d then reg_set s d (zx (mem_r8 s g a))
  else reg_set s d (mem_r16 s g a)

/-- Embedding of `mov [seg:addr], reg` (size taken from the register). -/
def asm_mov_m_r (s : dos_t) (g : seg_t) (a : uint16_t) (src : reg_t) : dos_t :=
  if reg_is8 src then mem_w8 s g a (u8 (reg_get s src).val)
  else mem_w16 s g a (reg_get s src)

/-- Embedding of `xor reg, reg`. -/
def asm_xor (s : dos_t) (d src : reg_t) : dos_t :=
  let r : uint16_t := u16 (((reg_get s d).val ^^^ (reg_get s src).val : Nat))
  let s := reg_set s d r
  let s := if reg_is8 d then flags8 s (u8 r.val) 0 else flags16 s r 0
  { s with of := 0 }

/-- Embedding of `add reg, imm`. -/
def asm_add_i (s : dos_t) (d : reg_t) (v : uint16_t) : dos_t :=
  let a := reg_get s d
  if reg_is8 d then
    let r : uint16_t := u16 ((u8 a.val).val + (u8 v.val).val)
    let s := reg_set s d (zx (u8 r.val))
    flags8 s (u8 r.val) (b2i (r.val > 0xFF))
  else
    let r : uint32_t := u32 ((u32 a.val).val + v.val)
    let s := reg_set s d (u16 r.val)
    flags16 s (u16 r.val) (b2i (r.val > 0xFFFF))

/-- Embedding of `add reg, [seg:addr]`. -/
def asm_add_r_m (s : dos_t) (d : reg_t) (g : seg_t) (a : uint16_t) : dos_t :=
  let dv := reg_get s d
  if reg_is8 d then
    let r : uint16_t := u16 ((u8 dv.val).val + (mem_r8 s g a).val)
    let s := reg_set s d (zx (u8 r.val))
    flags8 s (u8 r.val) (b2i (r.val > 0xFF))
  else
    let r : uint32_t := u32 ((u32 dv.val).val + (mem_r16 s g a).val)
    let s := reg_set s d (u16 r.val)
    flags16 s (u16 r.val) (b2i (r.val > 0xFFFF))

/-- Embedding of `add [seg:addr], reg`. -/
def asm_add_m_r (s : dos_t) (g : seg_t) (a : uint16_t) (src : reg_t) : dos_t :=
  if reg_is8 src then
    let r : uint16_t := u16 ((mem_r8 s g a).val + (u8 (reg_get s src).val).val)
    let s := mem_w8 s g a (u8 r.val)
    flags8 s (u8 r.val) (b2i (r.val > 0xFF))
  else
    let r : uint32_t := u32 ((u32 (mem_r16 s g a).val).val + (reg_get s src).val)
    let s := mem_w16 s g a (u16 r.val)
    flags16 s (u16 r.val) (b2i (r.val > 0xFFFF))

/-- Embedding of `and reg, imm`. -/
def asm_and_i (s : dos_t) (d : reg_t) (v : uint16_t) : dos_t :=
  let r : uint16_t := u16 (((reg_get s d).val &&& v.val : Nat))
  let s := reg_set s d r
  let s := if reg_is8 d then flags8 s (u8 r.val) 0 else flags16 s r 0
  { s with of := 0 }

/-- Embedding of `adc reg, [seg:addr]`. -/
def asm_adc_r_m (s : dos_t) (d : reg_t) (g : seg_t) (a : uint16_t) : dos_t :=
  let dv := reg_get s d
  if reg_is8 d then
    let r : uint16_t := u16 ((u8 dv.val).val + (mem_r8 s g a).val + s.cf)
    let s := reg_set s d (zx (u8 r.val))
    flags8 s (u8 r.val) (b2i (r.val > 0xFF))
  else
    let r : uint32_t := u32 ((u32 dv.val).val + (mem_r16 s g a).val + s.cf)
    let s := reg_set s d (u16 r.val)
    flags16 s (u16 r.val) (b2i (r.val > 0xFFFF))

/-- Embedding of `not reg`; `~` on the promoted `int` is `-x - 1`. -/
def asm_not (s : dos_t) (d : reg_t) : dos_t :=
  reg_set s d (u16 (-((reg_get s d).val : Int) - 1))

/-- Embedding of `mul src`: `AX = AL * src8`, or `DX:AX = AX * src16`. -/
def asm_mul (s : dos_t) (src : reg_t) : dos_t :=
  if reg_is8 src then
    let r : uint16_t := u16 ((zx (lo s.ax)).val * (u8 (reg_get s src).val).val)
    let s := { s with ax := r }
    let s := { s with of := b2i ((hi s.ax).val != 0) }
    { s with cf := s.of }
  else
    let r : uint32_t := u32 ((u32 s.ax.val).val * (reg_get s src).val)
    let s := { s with ax := u16 r.val }
    let s := { s with dx := u16 ((r.val >>> 16 : Nat)) }
    let s := { s with of := b2i (s.dx.val != 0) }
    { s with cf := s.of }

/-- Embedding of `lea dst, value`. -/
def asm_lea (s : dos_t) (d : reg_t) (v : uint16_t) : dos_t :=
  reg_set s d v

/-- Embedding of `cbw`: sign-extend AL into AX. -/
def asm_cbw (s : dos_t) : dos_t :=
  { s with ax := u16 (i16 (i8 (lo s.ax).val)) }

/-! ## Stack -/

def asm_push (s : dos_t) (r : reg_t) : dos_t :=
  let s := { s with sp := u16 (s.sp.val - 2) }
  mem_w16 s SEG_DS s.sp (reg_get s r)

def asm_push_i (s : dos_t) (v : uint16_t) : dos_t :=
  let s := { s with sp := u16 (s.sp.val - 2) }
  mem_w16 s SEG_DS s.sp v

def asm_pop (s : dos_t) (r : reg_t) : dos_t :=
  let s := reg_set s r (mem_r16 s SEG_DS s.sp)
  { s with sp := u16 (s.sp.val + 2) }

/-- Embedding of `asm_pop_val`: the returned word and the state left behind. -/
def asm_pop_val (s : dos_t) : uint16_t × dos_t :=
  let v := mem_r16 s SEG_DS s.sp
  let s := { s with sp := u16 (s.sp.val + 2) }
  (v, s)

/-! ## String ops -/

/-- One iteration of the `rep movsw` loop body. -/
def rep_movsw_body (s : dos_t) : dos_t :=
  let s := mem_w16 s SEG_ES s.di (mem_r16 s SEG_DS s.si)
  let s := { s with si := u16 (s.si.val + 2) }
  let s := { s with di := u16 (s.di.val + 2) }
  { s with cx := u16 (s.cx.val - 1) }

/-- Embedding of `rep movsw`: `while (s->cx) { body }`.  Each iteration decrements the
16-bit count, which is the termination measure. -/
def asm_rep_movsw (s : dos_t) : dos_t :=
  if s.cx.val ≠ 0 then asm_rep_movsw (rep_movsw_body s) else s
termination_by s.cx.val
decreasing_by
  have h : (rep_movsw_body s).cx = u16 (s.cx.val - 1) := by
    cases s
    rfl
  rw [h]
  simp only [u16, Fin.val_mk]
  omega

/-! ## I/O ports (VGA palette) -/

/-- Read of `s->pal[i]` for an `int` index; `none` is the undefined behaviour of an
index outside the 768-entry array. -/
def pal_read (s : dos_t) (i : Int) : Option uint8_t :=
  if h : 0 ≤ i ∧ i < 768 then some (s.pal ⟨i.toNat, by omega⟩) else none

/-- Store `s->pal[i] = v` for an `int` index; `none` is the undefined behaviour of an
index outside the 768-entry array. -/
def pal_write (s : dos_t) (i : Int) (v : uint8_t) : Option dos_t :=
  if h : 0 ≤ i ∧ i < 768 then
    some { s with pal := Function.update s.pal ⟨i.toNat, by omega⟩ v }
  else none

def asm_out (s : dos_t) (port : uint16_t) (val : uint8_t) : Option dos_t :=
  if port.val == 0x3C8 then
    some { s with pal_widx := (val.val : Int) * 3 }
  else if port.val == 0x3C9 then
    (pal_write s s.pal_widx (u8 ((val.val &&& 0x3F : Nat)))).map fun s =>
      let s := { s with pal_widx := s.pal_widx + 1 }
      if s.pal_widx ≥ 768 then { s with pal_widx := 0 } else s
  else some s

def asm_in (s : dos_t) (port : uint16_t) : Option (uint8_t × dos_t) :=
  if port.val == 0x3C7 then
    some (0, s)
  else if port.val == 0x3C9 then
    (pal_read s s.pal_ridx).map fun v =>
      let s := { s with pal_ridx := s.pal_ridx + 1 }
      let s := if s.pal_ridx ≥ 768 then { s with pal_ridx := 0 } else s
      (v, s)
  else some (0, s)

def asm_out_3c7 (s : dos_t) (val : uint8_t) : dos_t :=
  { s with pal_ridx := (val.val : Int) * 3 }


/-! ## x87 FPU -/

/-- The `<math.h>` functions the emulator calls.  They belong to the C library, not to the
repository, and are a parameter of the operations that call them. -/
structure libm_t where
  sin : Float → Float
  cos : Float → Float
  sqrt : Float → Float
  atan2 : Float → Float → Float
  lrint : Float → Int

/-- The index that the macro `ST(i)` computes, `(s->fpu_top + (i)) & 7`; the mask keeps it
inside the eight-entry register file. -/
def ST_slot (s : dos_t) (i : Int) : Fin 8 :=
  ⟨(Int.land (s.fpu_top + i) 7).toNat, by
    cases s.fpu_top + i with
    | ofNat n => exact Nat.lt_succ_of_le (Nat.and_le_right (n := n) (m := 7))
    | negSucc n =>
      exact Nat.lt_pow_two_of_testBit (n := 3) (Nat.ldiff 7 n) fun k hk => by
        rw [Nat.testBit_ldiff,
          Nat.testBit_lt_two_pow (Nat.lt_of_lt_of_le (by decide : 7 < 2 ^ 3)
            (Nat.pow_le_pow_right (by decide) hk))]
        rfl⟩

/-- The macro `ST(i)` read as a value: `s->fpu[(s->fpu_top + (i)) & 7]`. -/
def ST (s : dos_t) (i : Int) : Float := s.fpu (ST_slot s i)

/-- The macro `ST(i)` as the target of an assignment. -/
def ST_set (s : dos_t) (i : Int) (v : Float) : dos_t :=
  { s with fpu := Function.update s.fpu (ST_slot s i) v }

def fpu_push (s : dos_t) (v : Float) : dos_t :=
  let s := { s with fpu_top := Int.land (s.fpu_top - 1) 7 }
  ST_set s 0 v

def fpu_pop (s : dos_t) : Float × dos_t :=
  let v := ST s 0
  let s := { s with fpu_top := Int.land (s.fpu_top + 1) 7 }
  (v, s)

def asm_fninit (s : dos_t) : dos_t :=
  let s := { s with fpu_top := 0 }
  { s with fpu := fun _ => 0 }

def asm_fldz (s : dos_t) : dos_t := fpu_push s 0.0

def asm_fld_st (s : dos_t) (i : Int) : dos_t :=
  let v := ST s i
  fpu_push s v

def asm_fmul_st (s : dos_t) (d src : Int) : dos_t :=
  ST_set s d (ST s d * ST s src)

def asm_fmulp_st (s : dos_t) (d src : Int) : dos_t :=
  let s := ST_set s d (ST s d * ST s src)
  (fpu_pop s).2

def asm_fsubp_st (s : dos_t) (d src : Int) : dos_t :=
  let s := ST_set s d (ST s d - ST s src)
  (fpu_pop s).2

def asm_faddp_st (s : dos_t) (d src : Int) : dos_t :=
  let s := ST_set s d (ST s d + ST s src)
  (fpu_pop s).2

def asm_fdivp_st (s : dos_t) (d src : Int) : dos_t :=
  let s := ST_set s d (ST s d / ST s src)
  (fpu_pop s).2

def asm_fxch (s : dos_t) (i : Int) : dos_t :=
  let t := ST s 0
  let s := ST_set s 0 (ST s i)
  ST_set s i t

def asm_fsincos (m : libm_t) (s : dos_t) : dos_t :=
  let theta := ST s 0
  let s := ST_set s 0 (m.sin theta)
  fpu_push s (m.cos theta)

def asm_fsqrt (m : libm_t) (s : dos_t) : dos_t := ST_set s 0 (m.sqrt (ST s 0))

def asm_fpatan (m : libm_t) (s : dos_t) : dos_t :=
  let x := ST s 0
  let y := ST s 1
  let s := (fpu_pop s).2
  ST_set s 0 (m.atan2 y x)

def asm_fimul_m16 (s : dos_t) (g : seg_t) (a : uint16_t) : dos_t :=
  ST_set s 0 (ST s 0 * Float.ofInt (i16 (mem_r16 s g a).val))

/-- An output stream (`FILE *`) is the sequence of bytes written to it so far. -/
abbrev FILE := List uint8_t

/-- `fputc(c, f)` appends `(unsigned char)c` to the stream. -/
def fputc (c : Int) (f : FILE) : FILE := f ++ [u8 c]

/-- `fwrite(p, 1, n, f)` appends the `n` bytes found at `p` to the stream. -/
def fwrite (p : List uint8_t) (f : FILE) : FILE := f ++ p

def write_le16 (f : FILE) (v : uint16_t) : FILE :=
  let f := fputc ((v.val &&& 0xFF : Nat)) f
  fputc ((v.val >>> 8 : Nat)) f

def write_le32 (f : FILE) (v : uint32_t) : FILE :=
  let f := fputc ((v.val &&& 0xFF : Nat)) f
  let f := fputc (((v.val >>> 8) &&& 0xFF : Nat)) f
  let f := fputc (((v.val >>> 16) &&& 0xFF : Nat)) f
  fputc (((v.val >>> 24) &&& 0xFF : Nat)) f

/-- The BMP writer.  The argument `fopen` is the result of `fopen(path, "wb")`: `none` when
the file could not be opened, otherwise the (empty) stream.  The result is the stream at
`fclose`, or `none` when nothing was written. -/
def save_bmp (s : dos_t) (fopen : Option FILE) : Option FILE :=
  match fopen with
  | none => none
  | some f =>
    let f := fputc ('B'.toNat) f
    let f := fputc ('M'.toNat) f
    let f := write_le32 f (u32 (14 + 40 + 1024 + 64000))
    let f := write_le32 f 0
    let f := write_le32 f (u32 (14 + 40 + 1024))
    let f := write_le32 f 40
    let f := write_le32 f 320
    let f := write_le32 f 200
    let f := write_le16 f 1
    let f := write_le16 f 8
    let f := write_le32 f 0
    let f := write_le32 f 64000
    let f := write_le32 f 0
    let f := write_le32 f 0
    let f := write_le32 f 256
    let f := write_le32 f 0
    let f := (List.finRange 256).foldl (fun f i =>
      let r := u8 (((s.pal ⟨i.val * 3 + 0, by omega⟩).val <<< 2 : Nat))
      let g := u8 (((s.pal ⟨i.val * 3 + 1, by omega⟩).val <<< 2 : Nat))
      let b := u8 (((s.pal ⟨i.val * 3 + 2, by omega⟩).val <<< 2 : Nat))
      let f := fputc b.val f
      let f := fputc g.val f
      let f := fputc r.val f
      fputc 0 f) f
    let f := (List.range 200).reverse.foldl (fun f y =>
      fwrite ((List.range 320).map fun x => s.vga (u16 ((y * 320 + x : Nat)))) f) f
    some f


/-! ## tube_rewrite.c and texgen.c: the BMP writers -/

/-- `save_bmp` of `tube_rewrite.c`, with the macros `W = 320` and `H = 200` expanded.  The
file-scope arrays `palette[768]` and `vga[W * H]` are parameters; `write_le16` and
`write_le32` of that file are, word for word, those of `dosemu.h`. -/
def tube_rewrite.save_bmp (palette : Fin 768 → uint8_t) (vga : Fin 64000 → uint8_t)
    (fopen : Option FILE) : Option FILE :=
  match fopen with
  | none => none
  | some f =>
    let f := fputc ('B'.toNat) f
    let f := fputc ('M'.toNat) f
    let f := write_le32 f (u32 (14 + 40 + 1024 + 320 * 200))
    let f := write_le32 f 0
    let f := write_le32 f (u32 (14 + 40 + 1024))
    let f := write_le32 f 40
    let f := write_le32 f 320
    let f := write_le32 f 200
    let f := write_le16 f 1
    let f := write_le16 f 8
    let f := write_le32 f 0
    let f := write_le32 f (u32 (320 * 200))
    let f := write_le32 f 0
    let f := write_le32 f 0
    let f := write_le32 f 256
    let f := write_le32 f 0
    let f := (List.finRange 256).foldl (fun f i =>
      let f := fputc (((palette ⟨i.val * 3 + 2, by omega⟩).val <<< 2 : Nat)) f
      let f := fputc (((palette ⟨i.val * 3 + 1, by omega⟩).val <<< 2 : Nat)) f
      let f := fputc (((palette ⟨i.val * 3 + 0, by omega⟩).val <<< 2 : Nat)) f
      fputc 0 f) f
    let f := (List.finRange 200).reverse.foldl (fun f y =>
      fwrite ((List.finRange 320).map fun x => vga ⟨y.val * 320 + x.val, by omega⟩) f) f
    some f

/-- `save_bmp` of `texgen.c` (256x256).  The file-scope arrays `palette[768]` and
`texture[65536]` are parameters; `write_le16` and `write_le32` of that file are, word for
word, those of `dosemu.h`. -/
def texgen.save_bmp (palette : Fin 768 → uint8_t) (texture : uint16_t → uint8_t)
    (fopen : Option FILE) : Option FILE :=
  match fopen with
  | none => none
  | some f =>
    let f := fputc ('B'.toNat) f
    let f := fputc ('M'.toNat) f
    let f := write_le32 f (u32 (14 + 40 + 1024 + 256 * 256))
    let f := write_le32 f 0
    let f := write_le32 f (u32 (14 + 40 + 1024))
    let f := write_le32 f 40
    let f := write_le32 f 256
    let f := write_le32 f 256
    let f := write_le16 f 1
    let f := write_le16 f 8
    let f := write_le32 f 0
    let f := write_le32 f (u32 (256 * 256))
    let f := write_le32 f 0
    let f := write_le32 f 0
    let f := write_le32 f 256
    let f := write_le32 f 0
    let f := (List.finRange 256).foldl (fun f i =>
      let f := fputc (((palette ⟨i.val * 3 + 2, by omega⟩).val <<< 2 : Nat)) f
      let f := fputc (((palette ⟨i.val * 3 + 1, by omega⟩).val <<< 2 : Nat)) f
      let f := fputc (((palette ⟨i.val * 3 + 0, by omega⟩).val <<< 2 : Nat)) f
      fputc 0 f) f
    let f := (List.range 256).reverse.foldl (fun f y =>
      fwrite ((List.range 256).map fun x => texture (u16 ((y * 256 + x : Nat)))) f) f
    some f


/-! ## tube_rewrite.c and texgen.c: palette and texture -/

/-- `generate_palette`, the same function in `tube_rewrite.c` and in `texgen.c`.  The
file-scope array `palette[768]` is passed in and returned; the first loop runs `i` over
0..127 and the second over 128..255. -/
def generate_palette (palette : Fin 768 → uint8_t) : Fin 768 → uint8_t :=
  let palette := List.foldl (fun (palette : Fin 768 → uint8_t) (i : Fin 256) =>
    let r : uint8_t := u8 ((i.val / 2 : Nat))
    let palette := Function.update palette ⟨i.val * 3 + 0, by omega⟩ r
    let palette := Function.update palette ⟨i.val * 3 + 1, by omega⟩
      (u8 (((r.val * r.val) >>> 6 : Nat)))
    Function.update palette ⟨i.val * 3 + 2, by omega⟩ 0) palette ((List.finRange 256).take 128)
  List.foldl (fun (palette : Fin 768 → uint8_t) (i : Fin 256) =>
    let d : uint8_t := u8 (256 - (i.val : Int))
    let palette := Function.update palette ⟨i.val * 3 + 0, by omega⟩ 0
    let palette := Function.update palette ⟨i.val * 3 + 1, by omega⟩
      (u8 (((d.val >>> 1) &&& 0x3F : Nat)))
    Function.update palette ⟨i.val * 3 + 2, by omega⟩
      (u8 (((d.val >>> 2) &&& 0x3F : Nat)))) palette ((List.finRange 256).drop 128)

/-- The body of the `do ... while (--idx)` loop of `generate_texture` (the same function in
`tube_rewrite.c` and in `texgen.c`), from the update of `hash` to the two stores.  It
returns the new `hash`, `accum` and `texture`. -/
def generate_texture_body (hash : uint16_t) (accum : uint8_t) (idx : uint16_t)
    (texture : uint16_t → uint8_t) : uint16_t × uint8_t × (uint16_t → uint8_t) :=
  let hash : uint16_t := u16 (u32 ((u32 hash.val).val + idx.val)).val
  let rot : Nat := (u8 idx.val).val &&& 15
  let hash : uint16_t :=
    if rot ≠ 0 then u16 (((hash.val <<< rot) ||| (hash.val >>> (16 - rot)) : Nat)) else hash
  let tmp : Int := i8 (u8 hash.val).val
  let carry : Int := Int.land (tmp >>> (4 : Nat)) 1
  let tmp : Int := i8 (tmp >>> (5 : Nat))
  let r : uint16_t := u16 ((zx accum).val + (zx (u8 tmp)).val + carry)
  let accum : uint8_t := u8 r.val
  let carry : Int := b2i (r.val > 0xFF)
  let r : uint16_t := u16 ((zx accum).val + (texture (u16 (idx.val + 255))).val + carry)
  let accum : uint8_t := u8 (((u8 r.val).val >>> 1 : Nat))
  let texture := Function.update texture idx accum
  let texture := Function.update texture (u16 ((idx.val ^^^ 0xFF00 : Nat))) accum
  (hash, accum, texture)

/-- The `do ... while (--idx)` loop of `generate_texture`.  After the body `idx` is
decremented modulo 65536 and the loop repeats while it is not 0, so the number of passes
still to come, `((idx - 1) mod 65536) + 1`, goes down by one each time. -/
def generate_texture_loop (hash : uint16_t) (accum : uint8_t) (idx : uint16_t)
    (texture : uint16_t → uint8_t) : uint16_t → uint8_t :=
  if (u16 (idx.val - 1)).val ≠ 0 then
    generate_texture_loop (generate_texture_body hash accum idx texture).1
      (generate_texture_body hash accum idx texture).2.1 (u16 (idx.val - 1))
      (generate_texture_body hash accum idx texture).2.2
  else (generate_texture_body hash accum idx texture).2.2
termination_by (idx.val + 65535) % 65536
decreasing_by
  simp only [u16, Fin.val_mk] at *
  omega

/-- `generate_texture`: the identity fill of `texture[65536]`, then the loop started with
`hash = 0`, `accum = 0xC9`, `idx = 0`.  The array is passed in and returned. -/
def generate_texture (texture : uint16_t → uint8_t) : uint16_t → uint8_t :=
  let texture := (List.range 65536).foldl (fun texture i =>
    Function.update texture (u16 (i : Nat)) (u8 ((i &&& 0xFF : Nat)))) texture
  generate_texture_loop 0 0xC9 0 texture

/-! ## tube.c: the palette and texture loops of `main` -/

/-- Lines 46 to 88 of `tube.c`: one pass from the label `PAL1` to the instruction before
`loop PAL1`.  `js PAL2` and `jns PAL3` are the two tests of SF. -/
def PAL1_body (s : dos_t) : Option dos_t :=
  let s := asm_mov_i s DX 0x3C8
  let s := asm_mov s AX CX
  (asm_out s s.dx (lo s.ax)).bind fun s =>
  let s := asm_inc s DX
  let s := asm_sar s AL 1
  (if s.sf ≠ 0 then some s
    else
      (asm_out s s.dx (lo s.ax)).bind fun s =>
      let s := asm_mul s AL
      let s := asm_shr s AX 6
      asm_out s s.dx (lo s.ax)).bind fun s =>
  let s := asm_mov_i s AL 0
  (asm_out s s.dx (lo s.ax)).bind fun s =>
  (if s.sf = 0 then some s
    else
      let s := asm_sub s AL CL
      let s := asm_shr s AL 1
      (asm_out s s.dx (lo s.ax)).bind fun s =>
      let s := asm_shr s AL 1
      asm_out s s.dx (lo s.ax)).bind fun s =>
  let s := asm_mov s BX CX
  some (asm_mov_m_r s SEG_FS s.bx BL)

/-- Lines 46 to 90 of `tube.c`: `PAL1: ...; if (--s->cx) goto PAL1;`.  The first argument
bounds the number of passes; the result is `none` when the bound is reached before CX
returns to 0, or when a pass makes an undefined palette access. -/
def PAL1_loop : Nat → dos_t → Option dos_t
  | 0, _ => none
  | fuel + 1, s =>
    (PAL1_body s).bind fun s =>
      let s := { s with cx := u16 (s.cx.val - 1) }
      if s.cx.val ≠ 0 then PAL1_loop fuel s else some s

/-- Lines 92 to 114 of `tube.c`: one pass from the label `TEX` to the instruction before
`loop TEX`. -/
def TEX_body (s : dos_t) : dos_t :=
  let s := asm_mov s BX CX
  let s := asm_add s AX CX
  let s := asm_rol s AX (lo s.cx).val
  let s := asm_mov s DH AL
  let s := asm_sar s DH 5
  let s := asm_adc s DL DH
  let s := asm_adc_r_m s DL SEG_FS (u16 (s.bx.val + 255))
  let s := asm_shr s DL 1
  let s := asm_mov_m_r s SEG_FS s.bx DL
  let s := asm_not s BH
  asm_mov_m_r s SEG_FS s.bx DL

/-- Lines 92 to 116 of `tube.c`: `TEX: ...; if (--s->cx) goto TEX;`.  The first argument
bounds the number of passes; the result is `none` when the bound is reached before CX
returns to 0. -/
def TEX_loop : Nat → dos_t → Option dos_t
  | 0, _ => none
  | fuel + 1, s =>
    let s := TEX_body s
    let s := { s with cx := u16 (s.cx.val - 1) }
    if s.cx.val ≠ 0 then TEX_loop fuel s else some s


/-! ## Specification vocabulary -/

/-- Width in bits of a register: 8 for the byte views, 16 otherwise. -/
def width (r : reg_t) : Nat := if reg_is8 r then 8 else 16

/-- The state `memset(&state, 0, sizeof(state))` leaves, as set up in `tube.c`. -/
def dos_zero : dos_t :=
  { ax := 0, bx := 0, cx := 0, dx := 0, si := 0, di := 0, bp := 0, sp := 0,
    cf := 0, zf := 0, sf := 0, of := 0,
    mem := fun _ => 0, vga := fun _ => 0, fsmem := fun _ => 0,
    pal := fun _ => 0, pal_widx := 0, pal_ridx := 0,
    fpu := fun _ => 0, fpu_top := 0 }

/-- Zero and sign flags of `t` are those of the `w`-bit result `r`: each is 0 or 1,
ZF is 1 exactly when `r = 0`, SF is the top bit of `r`. -/
def zs_post (w : Nat) (r : Int) (t : dos_t) : Prop :=
  (t.zf = 0 ∨ t.zf = 1) ∧ (t.zf = 1 ↔ r = 0) ∧ t.sf = r / 2 ^ (w - 1)

instance (w : Nat) (r : Int) (t : dos_t) : Decidable (zs_post w r t) := by
  unfold zs_post; infer_instance

/-- Postcondition of a `w`-bit addition `a + b + c` with result `r` in final state `t`:
result and carry together are the exact sum. -/
def add_post (w : Nat) (a b c : Int) (r : Int) (t : dos_t) : Prop :=
  0 ≤ r ∧ r < 2 ^ w ∧ r + 2 ^ w * t.cf = a + b + c
    ∧ (t.cf = 0 ∨ t.cf = 1) ∧ (t.cf = 1 ↔ a + b + c > 2 ^ w - 1)
    ∧ zs_post w r t

instance (w : Nat) (a b c r : Int) (t : dos_t) : Decidable (add_post w a b c r t) := by
  unfold add_post; infer_instance

/-- Postcondition of a `w`-bit subtraction `a - b` with result `r` in final state `t`:
the result is the difference mod `2^w` and CF is the unsigned borrow. -/
def sub_post (w : Nat) (a b : Int) (r : Int) (t : dos_t) : Prop :=
  0 ≤ r ∧ r < 2 ^ w ∧ r = (a - b) % 2 ^ w
    ∧ (t.cf = 0 ∨ t.cf = 1) ∧ (t.cf = 1 ↔ a < b)
    ∧ zs_post w r t

instance (w : Nat) (a b r : Int) (t : dos_t) : Decidable (sub_post w a b r t) := by
  unfold sub_post; infer_instance

/-- State `s` with CF, ZF and SF taken from `t`; every other component is that of `s`. -/
def with_czs (s t : dos_t) : dos_t := { s with cf := t.cf, zf := t.zf, sf := t.sf }

/-- The 16-bit storage cell a register name refers to (or is a byte of). -/
def cell (r : reg_t) : reg_t :=
  match r with
  | AL | AH | AX => AX
  | BL | BH | BX => BX
  | CL | CH | CX => CX
  | DL | DH | DX => DX
  | SI => SI | DI => DI | BP => BP | SP => SP

/-- Two register names share at least one byte of storage: they name the same cell and are
not the two distinct byte halves of it. -/
def overlaps (r x : reg_t) : Bool :=
  cell r == cell x && !(reg_is8 r && reg_is8 x && r != x)

/-- The four register pairs that expose byte views. -/
inductive pair_t where
  | A | B | C | D
  deriving DecidableEq, Repr

/-- The 16-bit register of a pair (AX, BX, CX, DX). -/
def pair_t.XX : pair_t → reg_t
  | .A => AX | .B => BX | .C => CX | .D => DX

/-- The low byte view of a pair (AL, BL, CL, DL). -/
def pair_t.XL : pair_t → reg_t
  | .A => AL | .B => BL | .C => CL | .D => DL

/-- The high byte view of a pair (AH, BH, CH, DH). -/
def pair_t.XH : pair_t → reg_t
  | .A => AH | .B => BH | .C => CH | .D => DH

/-- Two's-complement reading of a `w`-bit value `v`. -/
def signed (w : Nat) (v : Nat) : Int :=
  if v < 2 ^ (w - 1) then (v : Int) else (v : Int) - 2 ^ w

/-- State `s` with only ZF and SF rewritten, from the `w`-bit value `v`. -/
def with_zs (s : dos_t) (w : Nat) (v : Nat) : dos_t :=
  { s with zf := if v = 0 then 1 else 0, sf := ((v / 2 ^ (w - 1) % 2 : Nat) : Int) }


/-- Everything `rep movsw` never writes: the components of `t` other than CX, SI, DI and
the ES region are those of `s`. -/
def rep_movsw_frame (s t : dos_t) : Prop :=
  t.ax = s.ax ∧ t.bx = s.bx ∧ t.dx = s.dx ∧ t.bp = s.bp ∧ t.sp = s.sp
    ∧ t.cf = s.cf ∧ t.zf = s.zf ∧ t.sf = s.sf ∧ t.of = s.of
    ∧ t.mem = s.mem ∧ t.fsmem = s.fsmem
    ∧ t.pal = s.pal ∧ t.pal_widx = s.pal_widx ∧ t.pal_ridx = s.pal_ridx
    ∧ t.fpu = s.fpu ∧ t.fpu_top = s.fpu_top


/-- The four flags of `t` are those of `s`. -/
def same_flags (s t : dos_t) : Prop :=
  t.cf = s.cf ∧ t.zf = s.zf ∧ t.sf = s.sf ∧ t.of = s.of

/-- Postcondition of pushing the word `w` from state `s`: SP is decremented by 2 mod 65536,
the word lies little-endian at the new SP in the DS region, every other byte of memory,
every register other than SP and every flag is unchanged. -/
def push_post (s : dos_t) (w : uint16_t) (t : dos_t) : Prop :=
  t.sp.val = (s.sp.val + 65534) % 65536
    ∧ (∀ g x, (seg_ptr t g x).val =
        if g = SEG_DS ∧ x.val = (t.sp.val + 1) % 65536 then w.val / 256
        else if g = SEG_DS ∧ x.val = t.sp.val then w.val % 256
        else (seg_ptr s g x).val)
    ∧ (∀ x, x ≠ SP → reg_get t x = reg_get s x)
    ∧ same_flags s t

/-- Postcondition of a pop from state `s`, apart from the destination register: SP is
incremented by 2 mod 65536, memory and flags are unchanged. -/
def pop_post (s t : dos_t) : Prop :=
  t.sp.val = (s.sp.val + 2) % 65536
    ∧ (∀ g x, seg_ptr t g x = seg_ptr s g x)
    ∧ same_flags s t

/-- The driver sequence "select write index `i`, then write the data bytes `r`, `g`, `b`". -/
def pal_write3 (s : dos_t) (i r g b : uint8_t) : Option dos_t :=
  (asm_out s 0x3C8 i).bind fun s =>
    (asm_out s 0x3C9 r).bind fun s =>
      (asm_out s 0x3C9 g).bind fun s =>
        asm_out s 0x3C9 b

/-- The driver sequence "select read index `i`, then read three data bytes". -/
def pal_read3 (s : dos_t) (i : uint8_t) : Option ((uint8_t × uint8_t × uint8_t) × dos_t) :=
  (asm_in (asm_out_3c7 s i) 0x3C9).bind fun p1 =>
    (asm_in p1.2 0x3C9).bind fun p2 =>
      (asm_in p2.2 0x3C9).map fun p3 =>
        ((p1.1, p2.1, p3.1), p3.2)

/-- The palette invariant: every entry is a 6-bit value and both cursors index the table. -/
def pal_inv (s : dos_t) : Prop :=
  (∀ k, (s.pal k).val ≤ 63)
    ∧ (0 ≤ s.pal_widx ∧ s.pal_widx < 768)
    ∧ (0 ≤ s.pal_ridx ∧ s.pal_ridx < 768)


/-- Everything outside the FPU (integer registers, flags, the three memory regions, the
palette and its cursors) is the same in `s` and `t`. -/
def fpu_frame (s t : dos_t) : Prop :=
  t.ax = s.ax ∧ t.bx = s.bx ∧ t.cx = s.cx ∧ t.dx = s.dx
  ∧ t.si = s.si ∧ t.di = s.di ∧ t.bp = s.bp ∧ t.sp = s.sp
  ∧ t.cf = s.cf ∧ t.zf = s.zf ∧ t.sf = s.sf ∧ t.of = s.of
  ∧ t.mem = s.mem ∧ t.vga = s.vga ∧ t.fsmem = s.fsmem
  ∧ t.pal = s.pal ∧ t.pal_widx = s.pal_widx ∧ t.pal_ridx = s.pal_ridx

/-- Consecutive `fpu_push` calls, the head of the list first. -/
def push_all (s : dos_t) (vs : List Float) : dos_t := vs.foldl fpu_push s

/-- The values returned by `n` consecutive `fpu_pop` calls, in call order, and the state
after the last of them. -/
def pop_n : Nat → dos_t → List Float × dos_t
  | 0, s => ([], s)
  | n + 1, s => ((fpu_pop s).1 :: (pop_n n (fpu_pop s).2).1, (pop_n n (fpu_pop s).2).2)

/-- The bytes `save_bmp` has emitted at `fclose` when the output opens. -/
def bmp_bytes (s : dos_t) : List uint8_t := (save_bmp s (some [])).getD []

/-- The little-endian 16-bit field at offset `k` of a byte sequence. -/
def le16_at (out : List uint8_t) (k : Nat) : Nat :=
  (out.getD k 0).val + 256 * (out.getD (k + 1) 0).val

/-- The little-endian 32-bit field at offset `k` of a byte sequence. -/
def le32_at (out : List uint8_t) (k : Nat) : Nat :=
  (out.getD k 0).val + 256 * (out.getD (k + 1) 0).val
    + 65536 * (out.getD (k + 2) 0).val + 16777216 * (out.getD (k + 3) 0).val


/-- The effect of an "...and pop" arithmetic form with combination `op`: `ST(d)` is replaced
by `op ST(d) ST(src)`, the left operand being `ST(d)`, and the stack is popped once, so the
register that was `ST(k + 1)` is `ST(k)` afterwards. -/
def arith_pop_post (op : Float → Float → Float) (s : dos_t) (d src : Int) (t : dos_t) : Prop :=
  t.fpu_top = (s.fpu_top + 1) % 8
  ∧ t.fpu = Function.update s.fpu (ST_slot s d) (op (ST s d) (ST s src))
  ∧ (∀ k : Int, (k + 1) % 8 = d % 8 → ST t k = op (ST s d) (ST s src))
  ∧ (∀ k : Int, (k + 1) % 8 ≠ d % 8 → ST t k = ST s (k + 1))
  ∧ fpu_frame s t


/-- The value `v` of a `w`-bit register rotated left by `k` positions (`k ≤ w`): the low
`w - k` bits move up by `k` places and the high `k` bits come back in at the bottom. -/
def rotl (w v k : Nat) : Nat := v % 2 ^ (w - k) * 2 ^ k + v / 2 ^ (w - k)

/-- Each of CF, ZF, SF and OF holds 0 or 1. -/
def flags_inv (s : dos_t) : Prop :=
  (s.cf = 0 ∨ s.cf = 1) ∧ (s.zf = 0 ∨ s.zf = 1) ∧ (s.sf = 0 ∨ s.sf = 1) ∧ (s.of = 0 ∨ s.of = 1)


/-- A 16-bit field of the snapshot format: two bytes, least significant first. -/
def bmp_le16 (n : Nat) : List uint8_t := [u8 ((n % 256 : Nat)), u8 ((n / 256 % 256 : Nat))]

/-- A 32-bit field of the snapshot format: four bytes, least significant first. -/
def bmp_le32 (n : Nat) : List uint8_t :=
  [u8 ((n % 256 : Nat)), u8 ((n / 256 % 256 : Nat)), u8 ((n / 65536 % 256 : Nat)),
    u8 ((n / 16777216 % 256 : Nat))]

/-- The 54 header bytes of the snapshot format for a `W` by `H` image: the 14-byte file
header and the 40-byte info header. -/
def bmp_header (W H : Nat) : List uint8_t :=
  [u8 'B'.toNat, u8 'M'.toNat] ++ bmp_le32 (14 + 40 + 1024 + W * H) ++ bmp_le32 0
    ++ bmp_le32 (14 + 40 + 1024)
    ++ bmp_le32 40 ++ bmp_le32 W ++ bmp_le32 H ++ bmp_le16 1 ++ bmp_le16 8
    ++ bmp_le32 0 ++ bmp_le32 (W * H) ++ bmp_le32 0 ++ bmp_le32 0 ++ bmp_le32 256 ++ bmp_le32 0

/-- The snapshot format rule of the specification, with the width `W` and the height `H` as
its only parameters: the header, 256 colour entries blue, green, red, zero (each 6-bit
component times 4, as a byte), then the rows `H - 1` down to 0, each of `W` pixel bytes. -/
def bmp_template (W H : Nat) (palette : Fin 768 → uint8_t) (pixels : Nat → uint8_t) :
    List uint8_t :=
  bmp_header W H
    ++ ((List.finRange 256).flatMap (fun i =>
          [u8 (((palette ⟨3 * i.val + 2, by omega⟩).val * 4 : Nat)),
           u8 (((palette ⟨3 * i.val + 1, by omega⟩).val * 4 : Nat)),
           u8 (((palette ⟨3 * i.val, by omega⟩).val * 4 : Nat)), 0])
      ++ (List.range H).reverse.flatMap (fun y => (List.range W).map fun x => pixels (y * W + x)))


/-- The index of the same column in the mirrored row: `k XOR 0xFF00`, which is row
`255 - v` for `k` in row `v`. -/
def mirror (k : uint16_t) : uint16_t := u16 ((k.val ^^^ 0xFF00 : Nat))

/-- A texture has vertical symmetry: every byte equals the byte at the mirrored index. -/
def tex_sym (t : uint16_t → uint8_t) : Prop := ∀ k, t k = t (mirror k)

/-- One full pass of the `do ... while (--idx)` loop of `generate_texture` on the tuple
`(hash, accum, idx, texture)`: the body, then the decrement of `idx`. -/
def generate_texture_pass (p : uint16_t × uint8_t × uint16_t × (uint16_t → uint8_t)) :
    uint16_t × uint8_t × uint16_t × (uint16_t → uint8_t) :=
  ((generate_texture_body p.1 p.2.1 p.2.2.1 p.2.2.2).1,
    (generate_texture_body p.1 p.2.1 p.2.2.1 p.2.2.2).2.1,
    u16 (p.2.2.1.val - 1),
    (generate_texture_body p.1 p.2.1 p.2.2.1 p.2.2.2).2.2)


/-- One pass of the `TEX` loop of tube.c: the body, then the decrement of CX performed by
`if (--s->cx) goto TEX`. -/
def TEX_pass (s : dos_t) : dos_t :=
  let s := TEX_body s
  { s with cx := u16 (s.cx.val - 1) }

/-- The part of the machine state the locals of `generate_texture` stand for: AX for `hash`,
DL for `accum`, CX for `idx`, the FS region for `texture`. -/
def tex_regs (s : dos_t) : uint16_t × uint8_t × uint16_t × (uint16_t → uint8_t) :=
  (s.ax, lo s.dx, s.cx, s.fsmem)

/-- The `TEX` body of tube.c up to and including `sar dh, 5`. -/
def TEX_to_sar (s : dos_t) : dos_t :=
  let s := asm_mov s BX CX
  let s := asm_add s AX CX
  let s := asm_rol s AX (lo s.cx).val
  let s := asm_mov s DH AL
  asm_sar s DH 5

/-- The `TEX` body of tube.c up to and including `adc dl, dh`. -/
def TEX_to_adc (s : dos_t) : dos_t :=
  asm_adc (TEX_to_sar s) DL DH

/-- The `TEX` body of tube.c after `adc dl, dh`. -/
def TEX_from_adc (s : dos_t) : dos_t :=
  let s := asm_adc_r_m s DL SEG_FS (u16 (s.bx.val + 255))
  let s := asm_shr s DL 1
  let s := asm_mov_m_r s SEG_FS s.bx DL
  let s := asm_not s BH
  asm_mov_m_r s SEG_FS s.bx DL

/-- The two values the local `carry` takes in one pass of `generate_texture`: the bit shifted
out by the arithmetic shift of the sign-extended low byte of `hash`, then the carry out of
the first 8-bit addition. -/
def generate_texture_carry (hash : uint16_t) (accum : uint8_t) (idx : uint16_t) : Int × Int :=
  let hash : uint16_t := u16 (u32 ((u32 hash.val).val + idx.val)).val
  let rot : Nat := (u8 idx.val).val &&& 15
  let hash : uint16_t :=
    if rot ≠ 0 then u16 (((hash.val <<< rot) ||| (hash.val >>> (16 - rot)) : Nat)) else hash
  let tmp : Int := i8 (u8 hash.val).val
  let carry : Int := Int.land (tmp >>> (4 : Nat)) 1
  let tmp : Int := i8 (tmp >>> (5 : Nat))
  let r : uint16_t := u16 ((zx accum).val + (zx (u8 tmp)).val + carry)
  (carry, b2i (r.val > 0xFF))


/-- The palette table as the specification words it: component `c` (0 red, 1 green, 2 blue)
of entry `i`.  For `i < 128`: R = i div 2, G = (R*R) div 64, B = 0; for `i >= 128`, with
`d = 256 - i`: R = 0, G = (d div 2) AND 0x3F, B = (d div 4) AND 0x3F. -/
def palette_spec (i c : Nat) : Nat :=
  if i < 128 then
    if c = 0 then i / 2 else if c = 1 then (i / 2 * (i / 2)) / 64 else 0
  else
    if c = 0 then 0 else if c = 1 then ((256 - i) / 2) &&& 0x3F else ((256 - i) / 4) &&& 0x3F

/-- The byte of the specified palette table at offset `j` of the 768-byte array. -/
def palette_byte (j : Fin 768) : uint8_t := u8 ((palette_spec (j.val / 3) (j.val % 3) : Nat))


theorem u8_val (x : Int) : ((u8 x).val : Int) = x % 256 := by
  simp only [u8]; omega

theorem u16_val (x : Int) : ((u16 x).val : Int) = x % 65536 := by
  simp only [u16]; omega

theorem u32_val (x : Int) : ((u32 x).val : Int) = x % 4294967296 := by
  simp only [u32]; omega

theorem zx_val (v : uint8_t) : (zx v).val = v.val := rfl

/-! ## Register file: reads after writes, and what a write leaves alone -/

@[simp] theorem reg_set_cf (s : dos_t) (r : reg_t) (v : uint16_t) : (reg_set s r v).cf = s.cf := by
  cases r <;> rfl

@[simp] theorem reg_set_zf (s : dos_t) (r : reg_t) (v : uint16_t) : (reg_set s r v).zf = s.zf := by
  cases r <;> rfl

@[simp] theorem reg_set_sf (s : dos_t) (r : reg_t) (v : uint16_t) : (reg_set s r v).sf = s.sf := by
  cases r <;> rfl

@[simp] theorem reg_set_of (s : dos_t) (r : reg_t) (v : uint16_t) : (reg_set s r v).of = s.of := by
  cases r <;> rfl

@[simp] theorem reg_get_flags8 (s : dos_t) (r : uint8_t) (c : Int) (x : reg_t) :
    reg_get (flags8 s r c) x = reg_get s x := by
  cases x <;> rfl

@[simp] theorem reg_get_flags16 (s : dos_t) (r : uint16_t) (c : Int) (x : reg_t) :
    reg_get (flags16 s r c) x = reg_get s x := by
  cases x <;> rfl

@[simp] theorem flags8_cf (s : dos_t) (r : uint8_t) (c : Int) : (flags8 s r c).cf = c := rfl

@[simp] theorem flags16_cf (s : dos_t) (r : uint16_t) (c : Int) : (flags16 s r c).cf = c := rfl

@[simp] theorem flags8_zf (s : dos_t) (r : uint8_t) (c : Int) :
    (flags8 s r c).zf = b2i (r.val == 0) := rfl

@[simp] theorem flags16_zf (s : dos_t) (r : uint16_t) (c : Int) :
    (flags16 s r c).zf = b2i (r.val == 0) := rfl

@[simp] theorem flags8_sf (s : dos_t) (r : uint8_t) (c : Int) :
    (flags8 s r c).sf = ((r.val / 128 % 2 : Nat) : Int) := by
  simp [flags8, Nat.shiftRight_eq_div_pow]

@[simp] theorem flags16_sf (s : dos_t) (r : uint16_t) (c : Int) :
    (flags16 s r c).sf = ((r.val / 32768 % 2 : Nat) : Int) := by
  simp [flags16, Nat.shiftRight_eq_div_pow]

theorem reg_get_lt_of_is8 (s : dos_t) (r : reg_t) (h : reg_is8 r = true) :
    (reg_get s r).val < 256 := by
  cases r <;> first
    | exact absurd h (by decide)
    | (simp only [reg_get, zx, lo, hi]; omega)

theorem reg_get_reg_set_same8 (s : dos_t) (r : reg_t) (v : uint16_t) (h : reg_is8 r = true) :
    (reg_get (reg_set s r v) r).val = v.val % 256 := by
  cases r <;> first
    | exact absurd h (by decide)
    | (simp only [reg_get, reg_set, zx, lo, hi, set_lo, set_hi, u8]; omega)

theorem reg_get_reg_set_same16 (s : dos_t) (r : reg_t) (v : uint16_t) (h : reg_is8 r = false) :
    reg_get (reg_set s r v) r = v := by
  cases r <;> first
    | exact absurd h (by decide)
    | rfl

theorem reg_get_reg_set_other (s : dos_t) (r x : reg_t) (v : uint16_t)
    (h : overlaps r x = false) : reg_get (reg_set s r v) x = reg_get s x := by
  cases r <;> cases x <;> first
    | exact absurd h (by decide)
    | rfl
    | (apply Fin.ext
       simp only [reg_get, reg_set, zx, lo, hi, set_lo, set_hi, u8, Fin.val_mk]
       omega)

@[simp] theorem reg_get_set_zs (s : dos_t) (z f : Int) (x : reg_t) :
    reg_get { s with zf := z, sf := f } x = reg_get s x := by
  cases x <;> rfl

@[simp] theorem reg_get_set_c (s : dos_t) (c : Int) (x : reg_t) :
    reg_get { s with cf := c } x = reg_get s x := by
  cases x <;> rfl

theorem u8_u16 (x : Int) : u8 ((u16 x).val) = u8 x := by
  apply Fin.ext
  simp only [u8, u16, Fin.val_mk]
  omega

theorem u16_u32_sub (a b : uint16_t) :
    u16 ((u32 ((u32 a.val).val - b.val)).val) = u16 (a.val - b.val) := by
  apply Fin.ext
  simp only [u32, u16, Fin.val_mk]
  omega

theorem asm_cmp_eq_with_czs (s : dos_t) (a b : reg_t) :
    asm_cmp s a b = with_czs s (asm_sub s a b) := by
  cases h : reg_is8 a
  · simp only [asm_cmp, asm_sub, h, with_czs, flags16_cf, flags16_zf, flags16_sf, u16_u32_sub]
    simp [flags16, Nat.shiftRight_eq_div_pow]
  · simp only [asm_cmp, asm_sub, h, with_czs, flags8_cf, flags8_zf, flags8_sf, u8_u16]
    simp [flags8, Nat.shiftRight_eq_div_pow]

theorem asm_cmp_i_eq_asm_cmp (s : dos_t) (a b : reg_t) (v : uint16_t) (hb : reg_get s b = v) :
    asm_cmp_i s a v = asm_cmp s a b := by
  subst hb
  rfl

theorem overlaps_of_cell_ne (r x : reg_t) (h : cell x ≠ cell r) : overlaps r x = false := by
  cases r <;> cases x <;> first
    | exact absurd rfl h
    | rfl

theorem u8_val_nat (n : Nat) : (u8 (n : Int)).val = n % 256 := by
  simp only [u8, Fin.val_mk]; omega

theorem u16_val_nat (n : Nat) : (u16 (n : Int)).val = n % 65536 := by
  simp only [u16, Fin.val_mk]; omega

theorem u32_val_nat (n : Nat) : (u32 (n : Int)).val = n % 4294967296 := by
  simp only [u32, Fin.val_mk]; omega

theorem reg_get_reg_set_zx (s : dos_t) (r : reg_t) (x : uint8_t) (h : reg_is8 r = true) :
    (reg_get (reg_set s r (zx x)) r).val = x.val := by
  rw [reg_get_reg_set_same8 s r _ h, zx_val, Nat.mod_eq_of_lt x.isLt]

theorem zs_post_flags8 (s : dos_t) (r : uint8_t) (c : Int) :
    zs_post 8 (r.val : Int) (flags8 s r c) := by
  have hr := r.isLt
  simp only [zs_post, flags8_zf, flags8_sf, b2i, beq_iff_eq, Nat.reduceSub, Int.reducePow]
  and_intros <;> (try split_ifs) <;> omega

theorem zs_post_flags16 (s : dos_t) (r : uint16_t) (c : Int) :
    zs_post 16 (r.val : Int) (flags16 s r c) := by
  have hr := r.isLt
  simp only [zs_post, flags16_zf, flags16_sf, b2i, beq_iff_eq, Nat.reduceSub, Int.reducePow]
  and_intros <;> (try split_ifs) <;> omega

theorem ldiff_one (n : Nat) : Nat.ldiff 1 n = 1 - n % 2 := by
  apply Nat.eq_of_testBit_eq
  intro i
  rw [Nat.testBit_ldiff]
  rcases Nat.mod_two_eq_zero_or_one n with h | h
  · rw [h]
    cases i with
    | zero => simp [Nat.testBit_zero, h]
    | succ k => simp [Nat.testBit_succ]
  · rw [h]
    cases i with
    | zero => simp [Nat.testBit_zero, h]
    | succ k => simp [Nat.testBit_succ]

theorem land_one (x : Int) : Int.land x 1 = x % 2 := by
  cases x with
  | ofNat n =>
    show ((n &&& 1 : Nat) : Int) = (n : Int) % 2
    rw [Nat.and_one_is_mod]; omega
  | negSucc n =>
    show ((Nat.ldiff 1 n : Nat) : Int) = (Int.negSucc n) % 2
    rw [ldiff_one, Int.negSucc_eq]
    omega

theorem sar_bit (v : Nat) (k j : Nat) (hj : j < k) :
    (((v : Int) - 2 ^ k) / 2 ^ j) % 2 = ((v / 2 ^ j % 2 : Nat) : Int) := by
  have e : ((v : Int) - 2 ^ k) = (v : Int) + 2 ^ j * (- 2 ^ (k - j)) := by
    have : (2 : Int) ^ k = 2 ^ j * 2 ^ (k - j) := by
      rw [← pow_add]; congr 1; omega
    rw [this]; ring
  rw [e, Int.add_mul_ediv_left _ _ (by positivity)]
  have e2 : (2 : Int) ^ (k - j) = 2 * 2 ^ (k - j - 1) := by
    rw [← pow_succ']; congr 1; omega
  rw [e2]
  push_cast
  omega

theorem ediv_pow_bounds (x : Int) (c : Nat) :
    (0 ≤ x → 0 ≤ x / 2 ^ c ∧ x / 2 ^ c ≤ x) ∧ (x < 0 → x ≤ x / 2 ^ c ∧ x / 2 ^ c < 0) := by
  have hp : (0 : Int) < 2 ^ c := by positivity
  have h1 : (1 : Int) ≤ 2 ^ c := by omega
  refine ⟨fun h => ⟨Int.ediv_nonneg h hp.le, Int.ediv_le_self _ h⟩, fun h => ⟨?_, Int.ediv_neg' h hp⟩⟩
  apply Int.le_ediv_of_mul_le hp
  nlinarith

theorem sar_cf16 (v c : Nat) (hv : v < 65536) (h1 : 1 ≤ c) (hw : c ≤ 16) :
    Int.land (i16 (v : Int) >>> (c - 1)) 1 = ((v / 2 ^ (c - 1) % 2 : Nat) : Int) := by
  rw [land_one, Int.shiftRight_eq_div_pow]
  by_cases hlt : v < 32768
  · have e : i16 (v : Int) = v := by simp only [i16]; omega
    rw [e]
    push_cast
    simp
  · have e : i16 (v : Int) = (v : Int) - 2 ^ 16 := by simp only [i16, Int.reducePow]; omega
    rw [e]
    have := sar_bit v 16 (c - 1) (by omega)
    push_cast at this ⊢
    exact this

theorem sar_cf8 (v c : Nat) (hv : v < 256) (h1 : 1 ≤ c) (hw : c ≤ 8) :
    Int.land (i8 (v : Int) >>> (c - 1)) 1 = ((v / 2 ^ (c - 1) % 2 : Nat) : Int) := by
  rw [land_one, Int.shiftRight_eq_div_pow]
  by_cases hlt : v < 128
  · have e : i8 (v : Int) = v := by simp only [i8]; omega
    rw [e]
    push_cast
    simp
  · have e : i8 (v : Int) = (v : Int) - 2 ^ 8 := by simp only [i8, Int.reducePow]; omega
    rw [e]
    have := sar_bit v 8 (c - 1) (by omega)
    push_cast at this ⊢
    exact this

theorem seg_ptr_seg_store (s : dos_t) (g g' : seg_t) (a x : uint16_t) (v : uint8_t) :
    seg_ptr (seg_store s g a v) g' x = if g' = g ∧ x = a then v else seg_ptr s g' x := by
  cases g <;> cases g' <;> simp [seg_ptr, seg_store, Function.update_apply]

@[simp] theorem seg_ptr_flags8 (s : dos_t) (r : uint8_t) (c : Int) (g : seg_t) :
    seg_ptr (flags8 s r c) g = seg_ptr s g := by
  cases g <;> rfl

@[simp] theorem seg_store_cf (s : dos_t) (g : seg_t) (a : uint16_t) (v : uint8_t) :
    (seg_store s g a v).cf = s.cf := by
  cases g <;> rfl

theorem or_shl8 (x y : Nat) (hx : x < 256) : x ||| (y <<< 8) = x + 256 * y := by
  rw [Nat.or_comm, Nat.shiftLeft_eq, Nat.mul_comm y]
  have h := Nat.mul_add_lt_is_or (i := 8) (b := x) (by simpa using hx) y
  rw [← h]
  simp only [Nat.reducePow]
  omega

theorem u8_i8 (y : Int) : u8 (i8 y) = u8 y := by
  apply Fin.ext
  simp only [u8, i8, Fin.val_mk]
  omega

theorem u16_i16 (y : Int) : u16 (i16 y) = u16 y := by
  apply Fin.ext
  simp only [u16, i16, Fin.val_mk]
  omega

theorem u8_val_self (x : Nat) (h : x < 256) : (u8 (x : Int)).val = x := by
  rw [u8_val_nat]; omega

theorem reg_set_self8 (s : dos_t) (d : reg_t) (v : uint16_t) (hd : reg_is8 d = true)
    (h : v.val % 256 = (reg_get s d).val) : reg_set s d v = s := by
  cases s
  cases d <;> first
    | exact absurd hd (by decide)
    | (simp only [reg_get, reg_set, zx, lo, hi, set_lo, set_hi, u8, Fin.val_mk] at h ⊢
       congr 1
       apply Fin.ext
       simp only [Fin.val_mk]
       omega)

theorem reg_set_self16 (s : dos_t) (d : reg_t) (hd : reg_is8 d = false) :
    reg_set s d (reg_get s d) = s := by
  cases d <;> first
    | exact absurd hd (by decide)
    | rfl

theorem seg_store_self (s : dos_t) (g : seg_t) (a : uint16_t) :
    seg_store s g a (seg_ptr s g a) = s := by
  cases g <;> simp [seg_store, seg_ptr]

theorem flags8_eq_with_zs (s : dos_t) (r : uint8_t) :
    flags8 s r s.cf = with_zs s 8 r.val := by
  simp [flags8, with_zs, b2i, Nat.shiftRight_eq_div_pow]

theorem flags16_eq_with_zs (s : dos_t) (r : uint16_t) :
    flags16 s r s.cf = with_zs s 16 r.val := by
  simp [flags16, with_zs, b2i, Nat.shiftRight_eq_div_pow]

theorem u16_val_self (x : Nat) (h : x < 65536) : (u16 (x : Int)).val = x := by
  rw [u16_val_nat]; omega

theorem u16_self (x : uint16_t) : u16 (x.val : Int) = x :=
  Fin.ext (u16_val_self _ x.isLt)

theorem u8_self (x : uint8_t) : u8 (x.val : Int) = x :=
  Fin.ext (u8_val_self _ x.isLt)

theorem int_shr_zero (x : Int) : x >>> (0 : Nat) = x := by
  rw [Int.shiftRight_eq_div_pow]; simp

theorem rol_testBit (w v k i : Nat) (hv : v < 2 ^ w) (hk : k < w) (hi : i < w) :
    (((v <<< k) ||| (v >>> (w - k))) % 2 ^ w).testBit i = v.testBit ((i + w - k) % w) := by
  rw [Nat.testBit_mod_two_pow, Nat.testBit_or, Nat.testBit_shiftLeft, Nat.testBit_shiftRight]
  simp only [hi, decide_True, Bool.true_and, ge_iff_le]
  by_cases h : k ≤ i
  · have e1 : (i + w - k) % w = i - k := by
      have : i + w - k = (i - k) + w := by omega
      rw [this, Nat.add_mod_right, Nat.mod_eq_of_lt (by omega)]
    have e2 : v.testBit (w - k + i) = false := by
      apply Nat.testBit_lt_two_pow
      exact lt_of_lt_of_le hv (Nat.pow_le_pow_right (by decide) (by omega))
    simp [h, e1, e2]
  · have e1 : (i + w - k) % w = w - k + i := by
      rw [Nat.mod_eq_of_lt (by omega)]; omega
    simp [h, e1]


theorem reg_get_AX (s : dos_t) : reg_get s AX = s.ax := rfl

theorem reg_get_DX (s : dos_t) : reg_get s DX = s.dx := rfl

theorem reg_get_AL_val (s : dos_t) : (reg_get s AL).val = s.ax.val % 256 := rfl

theorem reg_get_AH_val (s : dos_t) : (reg_get s AH).val = s.ax.val / 256 := rfl

@[simp] theorem reg_get_set_of (s : dos_t) (o : Int) (x : reg_t) :
    reg_get { s with of := o } x = reg_get s x := by
  cases x <;> rfl

@[simp] theorem flags8_of (s : dos_t) (r : uint8_t) (c : Int) : (flags8 s r c).of = s.of := rfl

@[simp] theorem flags16_of (s : dos_t) (r : uint16_t) (c : Int) : (flags16 s r c).of = s.of := rfl

@[simp] theorem seg_store_of (s : dos_t) (g : seg_t) (a : uint16_t) (v : uint8_t) :
    (seg_store s g a v).of = s.of := by
  cases g <;> rfl

theorem zs_post_set_of (w : Nat) (r : Int) (t : dos_t) (o : Int) :
    zs_post w r { t with of := o } ↔ zs_post w r t := Iff.rfl

/-- Shape of the state a logical instruction leaves: result stored, flags from the result,
CF and OF cleared. -/
theorem logic_result (s : dos_t) (d : reg_t) (n : Nat) (t : dos_t)
    (ht : t = { (if reg_is8 d then flags8 (reg_set s d (u16 n)) (u8 (u16 n).val) 0
                  else flags16 (reg_set s d (u16 n)) (u16 n) 0) with of := 0 }) :
    (reg_get t d).val = n % 2 ^ width d ∧ t.cf = 0 ∧ t.of = 0
      ∧ zs_post (width d) (reg_get t d).val t := by
  subst ht
  cases h : reg_is8 d
  · simp only [width, h, Bool.false_eq_true, if_false, reg_get_set_of, zs_post_set_of]
    simp only [reg_get_flags16, reg_get_reg_set_same16 _ _ _ h, flags16_cf, Nat.reducePow]
    exact ⟨u16_val_nat n, trivial, trivial, zs_post_flags16 _ _ _⟩
  · have hV : (reg_get (reg_set s d (u16 n)) d).val = (u8 (u16 (n : Int)).val).val := by
      rw [reg_get_reg_set_same8 _ _ _ h, u8_val_nat]
    simp only [width, h, if_true, reg_get_set_of, zs_post_set_of]
    simp only [reg_get_flags8, flags8_cf, Nat.reducePow, hV]
    refine ⟨?_, trivial, trivial, zs_post_flags8 _ _ _⟩
    rw [u8_val_nat, u16_val_nat]
    exact Nat.mod_mod_of_dvd _ (by decide)

@[simp] theorem mem_w8_of (s : dos_t) (g : seg_t) (a : uint16_t) (v : uint8_t) :
    (mem_w8 s g a v).of = s.of := seg_store_of s g a v

@[simp] theorem mem_w16_of (s : dos_t) (g : seg_t) (a v : uint16_t) :
    (mem_w16 s g a v).of = s.of := by
  simp only [mem_w16, seg_store_of]

/-! ## The overflow flag through each instruction -/

theorem asm_add_of (s : dos_t) (d src : reg_t) : (asm_add s d src).of = s.of := by
  unfold asm_add; split <;> simp

theorem asm_add_i_of (s : dos_t) (d : reg_t) (v : uint16_t) : (asm_add_i s d v).of = s.of := by
  unfold asm_add_i; split <;> simp

theorem asm_add_r_m_of (s : dos_t) (d : reg_t) (g : seg_t) (a : uint16_t) :
    (asm_add_r_m s d g a).of = s.of := by
  unfold asm_add_r_m; split <;> simp

theorem asm_add_m_r_of (s : dos_t) (src : reg_t) (g : seg_t) (a : uint16_t) :
    (asm_add_m_r s g a src).of = s.of := by
  unfold asm_add_m_r; split <;> simp

theorem asm_adc_of (s : dos_t) (d src : reg_t) : (asm_adc s d src).of = s.of := by
  unfold asm_adc; split <;> simp

theorem asm_adc_r_m_of (s : dos_t) (d : reg_t) (g : seg_t) (a : uint16_t) :
    (asm_adc_r_m s d g a).of = s.of := by
  unfold asm_adc_r_m; split <;> simp

theorem asm_sub_of (s : dos_t) (d src : reg_t) : (asm_sub s d src).of = s.of := by
  unfold asm_sub; split <;> simp

theorem asm_cmp_of (s : dos_t) (d src : reg_t) : (asm_cmp s d src).of = s.of := by
  unfold asm_cmp; split <;> simp

theorem asm_cmp_i_of (s : dos_t) (d : reg_t) (v : uint16_t) : (asm_cmp_i s d v).of = s.of := by
  unfold asm_cmp_i; split <;> simp

theorem asm_shr_of (s : dos_t) (d : reg_t) (c : Nat) : (asm_shr s d c).of = s.of := by
  unfold asm_shr; split <;> simp

theorem asm_shl_of (s : dos_t) (d : reg_t) (c : Nat) : (asm_shl s d c).of = s.of := by
  unfold asm_shl; split <;> simp

theorem asm_sar_of (s : dos_t) (d : reg_t) (c : Nat) : (asm_sar s d c).of = s.of := by
  unfold asm_sar; split <;> simp

theorem asm_sar_m8_of (s : dos_t) (g : seg_t) (a : uint16_t) (c : Nat) :
    (asm_sar_m8 s g a c).of = s.of := by
  unfold asm_sar_m8; simp

theorem asm_rol_of (s : dos_t) (d : reg_t) (c : Nat) : (asm_rol s d c).of = s.of := by
  unfold asm_rol; split <;> simp

theorem asm_inc_of (s : dos_t) (d : reg_t) : (asm_inc s d).of = s.of := by
  unfold asm_inc; split <;> simp

theorem asm_dec_of (s : dos_t) (d : reg_t) : (asm_dec s d).of = s.of := by
  unfold asm_dec; split <;> simp

theorem asm_not_of (s : dos_t) (d : reg_t) : (asm_not s d).of = s.of := by
  unfold asm_not; simp

/-! ## Word access, pointwise -/

theorem seg_ptr_mem_w16 (s : dos_t) (g : seg_t) (a v : uint16_t) (g' : seg_t) (x : uint16_t) :
    (seg_ptr (mem_w16 s g a v) g' x).val =
      if g' = g ∧ x.val = (a.val + 1) % 65536 then v.val / 256
      else if g' = g ∧ x.val = a.val then v.val % 256
      else (seg_ptr s g' x).val := by
  have ha := a.isLt
  have hv := v.isLt
  simp only [mem_w16, seg_ptr_seg_store, Fin.ext_iff, u16, Fin.val_mk,
    Nat.and_pow_two_sub_one_eq_mod _ 8, Nat.shiftRight_eq_div_pow, Nat.reducePow]
  have e : (((a.val : Int) + 1) % 65536).toNat = (a.val + 1) % 65536 := by omega
  rw [e]
  split_ifs <;> simp only [u8, Fin.val_mk] <;> omega

theorem mem_r16_val (s : dos_t) (g : seg_t) (a : uint16_t) :
    (mem_r16 s g a).val = (seg_ptr s g a).val + 256 * (seg_ptr s g (u16 (a.val + 1))).val := by
  have hb := (seg_ptr s g a).isLt
  have hc := (seg_ptr s g (u16 (a.val + 1))).isLt
  simp only [mem_r16, zx_val, or_shl8 _ _ hb, u16_val_nat]
  omega

/-! ## The `rep movsw` loop -/

theorem rep_movsw_body_eq (s : dos_t) :
    rep_movsw_body s =
      { s with
        vga := (mem_w16 s SEG_ES s.di (mem_r16 s SEG_DS s.si)).vga
        si := u16 (s.si.val + 2)
        di := u16 (s.di.val + 2)
        cx := u16 (s.cx.val - 1) } := by
  cases s
  rfl

theorem rep_movsw_body_vga (s : dos_t) (x : uint16_t) :
    (rep_movsw_body s).vga x =
      if x.val = (s.di.val + 1) % 65536 then s.mem (u16 (s.si.val + 1))
      else if x.val = s.di.val then s.mem s.si
      else s.vga x := by
  have h := seg_ptr_mem_w16 s SEG_ES s.di (mem_r16 s SEG_DS s.si) SEG_ES x
  have hr := mem_r16_val s SEG_DS s.si
  have hb := (s.mem s.si).isLt
  have hc := (s.mem (u16 (s.si.val + 1))).isLt
  rw [rep_movsw_body_eq]
  apply Fin.ext
  simp only [seg_ptr, true_and] at h hr
  show ((mem_w16 s SEG_ES s.di (mem_r16 s SEG_DS s.si)).vga x).val = _
  rw [h, hr]
  split_ifs <;> first | rfl | omega

theorem asm_rep_movsw_step (s : dos_t) (h : s.cx.val ≠ 0) :
    asm_rep_movsw s = asm_rep_movsw (rep_movsw_body s) := by
  conv_lhs => rw [asm_rep_movsw]
  rw [if_pos h]

theorem asm_rep_movsw_done (s : dos_t) (h : s.cx.val = 0) : asm_rep_movsw s = s := by
  rw [asm_rep_movsw]
  simp [h]

theorem asm_rep_movsw_iterate (n : Nat) :
    ∀ s : dos_t, s.cx.val = n → asm_rep_movsw s = rep_movsw_body^[n] s := by
  induction n with
  | zero => intro s h; exact asm_rep_movsw_done s h
  | succ n ih =>
    intro s h
    have hb : (rep_movsw_body s).cx.val = n := by
      rw [rep_movsw_body_eq]
      simp only [u16, Fin.val_mk]
      omega
    rw [asm_rep_movsw_step s (by omega), ih _ hb, Function.iterate_succ_apply]

theorem rep_movsw_iterate_fields (k : Nat) (s : dos_t) :
    ((rep_movsw_body^[k] s).cx.val : Int) = ((s.cx.val : Int) - k) % 65536
    ∧ (rep_movsw_body^[k] s).si.val = (s.si.val + 2 * k) % 65536
    ∧ (rep_movsw_body^[k] s).di.val = (s.di.val + 2 * k) % 65536
    ∧ rep_movsw_frame s (rep_movsw_body^[k] s) := by
  induction k with
  | zero =>
    have h1 := s.cx.isLt
    have h2 := s.si.isLt
    have h3 := s.di.isLt
    simp only [Function.iterate_zero, id_eq, rep_movsw_frame, and_self, and_true]
    omega
  | succ k ih =>
    obtain ⟨h1, h2, h3, h4⟩ := ih
    rw [Function.iterate_succ_apply', rep_movsw_body_eq]
    simp only [rep_movsw_frame] at h4 ⊢
    refine ⟨?_, ?_, ?_, h4⟩
    · simp only [u16, Fin.val_mk]; omega
    · simp only [u16, Fin.val_mk]; omega
    · simp only [u16, Fin.val_mk]; omega

theorem rep_movsw_vga (n : Nat) :
    ∀ s : dos_t, s.cx.val = n → n ≤ 32768 → ∀ x : uint16_t,
      (asm_rep_movsw s).vga x =
        if (x.val + 65536 - s.di.val) % 65536 < 2 * n
        then s.mem (u16 (s.si.val + (x.val + 65536 - s.di.val) % 65536 : Nat))
        else s.vga x := by
  induction n with
  | zero =>
    intro s h _ x
    rw [asm_rep_movsw_done s h]
    simp
  | succ n ih =>
    intro s h hn x
    have hx := x.isLt
    have hdi := s.di.isLt
    have hsi := s.si.isLt
    have hb : (rep_movsw_body s).cx.val = n := by
      rw [rep_movsw_body_eq]
      simp only [u16, Fin.val_mk]
      omega
    have hd : (rep_movsw_body s).di.val = (s.di.val + 2) % 65536 := by
      rw [rep_movsw_body_eq]
      simp only [u16, Fin.val_mk]
      omega
    have hs : (rep_movsw_body s).si.val = (s.si.val + 2) % 65536 := by
      rw [rep_movsw_body_eq]
      simp only [u16, Fin.val_mk]
      omega
    have hm : (rep_movsw_body s).mem = s.mem := by
      rw [rep_movsw_body_eq]
    rw [asm_rep_movsw_step s (by omega), ih _ hb (by omega) x, hd, hs, hm, rep_movsw_body_vga]
    have addr : ∀ a b : Int, a % 65536 = b % 65536 → s.mem (u16 a) = s.mem (u16 b) := by
      intro a b hab
      congr 1
      apply Fin.ext
      simp only [u16, Fin.val_mk]
      omega
    have e0 : s.mem s.si = s.mem (u16 (s.si.val : Int)) := by rw [u16_self]
    rw [e0]
    split_ifs <;> first
      | rfl
      | omega
      | (apply addr; omega)


/-! ## Stack -/

@[simp] theorem reg_get_seg_store (s : dos_t) (g : seg_t) (a : uint16_t) (v : uint8_t)
    (x : reg_t) : reg_get (seg_store s g a v) x = reg_get s x := by
  cases g <;> cases x <;> rfl

@[simp] theorem reg_get_mem_w16 (s : dos_t) (g : seg_t) (a v : uint16_t) (x : reg_t) :
    reg_get (mem_w16 s g a v) x = reg_get s x := by
  simp only [mem_w16, reg_get_seg_store]

theorem reg_get_set_sp (s : dos_t) (v : uint16_t) (x : reg_t) (hx : x ≠ SP) :
    reg_get { s with sp := v } x = reg_get s x := by
  cases x <;> first
    | exact absurd rfl hx
    | rfl

theorem same_flags_mem_w16 (s : dos_t) (g : seg_t) (a v : uint16_t) :
    same_flags s (mem_w16 s g a v) := by
  cases g <;> exact ⟨rfl, rfl, rfl, rfl⟩

theorem same_flags_reg_set (s : dos_t) (r : reg_t) (v : uint16_t) :
    same_flags s (reg_set s r v) :=
  ⟨reg_set_cf s r v, reg_set_zf s r v, reg_set_sf s r v, reg_set_of s r v⟩

theorem mem_w16_sp (s : dos_t) (g : seg_t) (a v : uint16_t) : (mem_w16 s g a v).sp = s.sp := by
  cases g <;> rfl

theorem seg_ptr_reg_set (s : dos_t) (r : reg_t) (v : uint16_t) (g : seg_t) :
    seg_ptr (reg_set s r v) g = seg_ptr s g := by
  cases r <;> cases g <;> rfl

theorem reg_set_sp_of_ne (s : dos_t) (r : reg_t) (v : uint16_t) (hr : r ≠ SP) :
    (reg_set s r v).sp = s.sp := by
  cases r <;> first
    | exact absurd rfl hr
    | rfl

theorem push_post_mem_w16 (s : dos_t) (w : uint16_t) :
    push_post s w (mem_w16 { s with sp := u16 (s.sp.val - 2) } SEG_DS (u16 (s.sp.val - 2)) w) := by
  have hsp := s.sp.isLt
  have hv : (u16 ((s.sp.val : Int) - 2)).val = (s.sp.val + 65534) % 65536 := by
    simp only [u16, Fin.val_mk]; omega
  refine ⟨?_, fun g x => ?_, fun x hx => ?_, ?_⟩
  · rw [mem_w16_sp]; exact hv
  · rw [mem_w16_sp, seg_ptr_mem_w16]
    have e : ∀ g, seg_ptr { s with sp := u16 (s.sp.val - 2) } g = seg_ptr s g := by
      intro g; cases g <;> rfl
    rw [e]
  · rw [reg_get_mem_w16, reg_get_set_sp _ _ _ hx]
  · exact same_flags_mem_w16 _ _ _ _

/-! ## Palette ports -/

theorem port_3c7_val : ((0x3C7 : uint16_t) : Nat) = 0x3C7 := rfl

theorem port_3c8_val : ((0x3C8 : uint16_t) : Nat) = 0x3C8 := rfl

theorem port_3c9_val : ((0x3C9 : uint16_t) : Nat) = 0x3C9 := rfl

theorem asm_out_select (s : dos_t) (i : uint8_t) :
    asm_out s 0x3C8 i = some { s with pal_widx := (i.val : Int) * 3 } := by
  simp [asm_out, port_3c8_val]

theorem asm_out_data (s : dos_t) (v : uint8_t) (c : Fin 768) (hc : s.pal_widx = c.val) :
    asm_out s 0x3C9 v =
      some { s with
        pal := Function.update s.pal c (u8 ((v.val &&& 0x3F : Nat)))
        pal_widx := ((c.val + 1) % 768 : Nat) } := by
  have hlt := c.isLt
  have h1 : (0 : Int) ≤ s.pal_widx ∧ s.pal_widx < 768 := by omega
  have h2 : (⟨s.pal_widx.toNat, by omega⟩ : Fin 768) = c := by
    apply Fin.ext
    simp only [Fin.val_mk]
    omega
  simp only [asm_out, port_3c9_val, pal_write, h1, and_self, dite_true, h2, Option.map_some',
    beq_iff_eq, Nat.reduceEqDiff, if_false, if_true]
  by_cases h768 : c.val + 1 = 768
  · have e : s.pal_widx + 1 ≥ 768 := by omega
    have e' : ((c.val + 1) % 768 : Nat) = 0 := by omega
    simp [e, e']
  · have e : ¬ s.pal_widx + 1 ≥ 768 := by omega
    have e' : (((c.val + 1) % 768 : Nat) : Int) = s.pal_widx + 1 := by omega
    simp [e, e']

theorem asm_in_data (s : dos_t) (c : Fin 768) (hc : s.pal_ridx = c.val) :
    asm_in s 0x3C9 = some (s.pal c, { s with pal_ridx := ((c.val + 1) % 768 : Nat) }) := by
  have hlt := c.isLt
  have h1 : (0 : Int) ≤ s.pal_ridx ∧ s.pal_ridx < 768 := by omega
  have h2 : (⟨s.pal_ridx.toNat, by omega⟩ : Fin 768) = c := by
    apply Fin.ext
    simp only [Fin.val_mk]
    omega
  simp only [asm_in, port_3c9_val, pal_read, h1, and_self, dite_true, h2, Option.map_some',
    beq_iff_eq, Nat.reduceEqDiff, if_false, if_true]
  by_cases h768 : c.val + 1 = 768
  · have e : s.pal_ridx + 1 ≥ 768 := by omega
    have e' : ((c.val + 1) % 768 : Nat) = 0 := by omega
    simp [e, e']
  · have e : ¬ s.pal_ridx + 1 ≥ 768 := by omega
    have e' : (((c.val + 1) % 768 : Nat) : Int) = s.pal_ridx + 1 := by omega
    simp [e, e']

theorem asm_out_other (s : dos_t) (port : uint16_t) (v : uint8_t)
    (h8 : port.val ≠ 0x3C8) (h9 : port.val ≠ 0x3C9) : asm_out s port v = some s := by
  simp [asm_out, h8, h9]

theorem asm_in_other (s : dos_t) (port : uint16_t) (h9 : port.val ≠ 0x3C9) :
    asm_in s port = some (0, s) := by
  simp only [asm_in, beq_iff_eq, h9, if_false]
  split <;> rfl

theorem and_3f_val (v : uint8_t) : (u8 ((v.val &&& 0x3F : Nat))).val = v.val &&& 0x3F := by
  have h : v.val &&& 0x3F ≤ 0x3F := Nat.and_le_right
  rw [u8_val_nat]
  omega

theorem pal_write3_eq (s : dos_t) (i r g b : uint8_t) :
    pal_write3 s i r g b =
      some { s with
        pal := Function.update (Function.update (Function.update s.pal
                  ⟨3 * i.val, by omega⟩ (u8 ((r.val &&& 0x3F : Nat))))
                  ⟨3 * i.val + 1, by omega⟩ (u8 ((g.val &&& 0x3F : Nat))))
                  ⟨3 * i.val + 2, by omega⟩ (u8 ((b.val &&& 0x3F : Nat)))
        pal_widx := ((3 * i.val + 3) % 768 : Nat) } := by
  have hi := i.isLt
  have e0 := asm_out_select s i
  have e1 := asm_out_data { s with pal_widx := (i.val : Int) * 3 } r ⟨3 * i.val, by omega⟩
    (by simp only [Fin.val_mk]; omega)
  have e2 := asm_out_data
    { s with
      pal := Function.update s.pal ⟨3 * i.val, by omega⟩ (u8 ((r.val &&& 0x3F : Nat)))
      pal_widx := ((3 * i.val + 1) % 768 : Nat) }
    g ⟨3 * i.val + 1, by omega⟩ (by simp only [Fin.val_mk]; omega)
  have e3 := asm_out_data
    { s with
      pal := Function.update (Function.update s.pal
                ⟨3 * i.val, by omega⟩ (u8 ((r.val &&& 0x3F : Nat))))
                ⟨3 * i.val + 1, by omega⟩ (u8 ((g.val &&& 0x3F : Nat)))
      pal_widx := ((3 * i.val + 1 + 1) % 768 : Nat) }
    b ⟨3 * i.val + 2, by omega⟩ (by simp only [Fin.val_mk]; omega)
  simp only [pal_write3, e0, Option.some_bind]
  rw [e1, Option.some_bind, e2, Option.some_bind, e3]

theorem pal_read3_eq (s : dos_t) (i : uint8_t) :
    pal_read3 s i =
      some ((s.pal ⟨3 * i.val, by omega⟩, s.pal ⟨3 * i.val + 1, by omega⟩,
              s.pal ⟨3 * i.val + 2, by omega⟩),
            { s with pal_ridx := ((3 * i.val + 3) % 768 : Nat) }) := by
  have hi := i.isLt
  have e1 := asm_in_data (asm_out_3c7 s i) ⟨3 * i.val, by omega⟩
    (by simp only [asm_out_3c7, Fin.val_mk]; omega)
  have e2 := asm_in_data { s with pal_ridx := ((3 * i.val + 1) % 768 : Nat) }
    ⟨3 * i.val + 1, by omega⟩ (by simp only [Fin.val_mk]; omega)
  have e3 := asm_in_data { s with pal_ridx := ((3 * i.val + 1 + 1) % 768 : Nat) }
    ⟨3 * i.val + 2, by omega⟩ (by simp only [Fin.val_mk]; omega)
  simp only [pal_read3]
  rw [e1, Option.some_bind]
  simp only [asm_out_3c7, Fin.val_mk]
  rw [e2, Option.some_bind]
  simp only [Fin.val_mk]
  rw [e3, Option.map_some']

theorem pal_inv_zero : pal_inv dos_zero :=
  ⟨fun _ => Nat.zero_le _, ⟨le_refl _, by decide⟩, ⟨le_refl _, by decide⟩⟩

theorem pal_inv_asm_out (s : dos_t) (port : uint16_t) (v : uint8_t) (h : pal_inv s) :
    ∃ t, asm_out s port v = some t ∧ pal_inv t := by
  obtain ⟨hp, hw, hr⟩ := h
  have hv := v.isLt
  by_cases h8 : port.val = 0x3C8
  · have e : port = 0x3C8 := Fin.ext h8
    subst e
    exact ⟨_, asm_out_select s v, hp, ⟨by show (0 : Int) ≤ (v.val : Int) * 3; omega,
      by show (v.val : Int) * 3 < 768; omega⟩, hr⟩
  · by_cases h9 : port.val = 0x3C9
    · have e : port = 0x3C9 := Fin.ext h9
      subst e
      have hc : s.pal_widx = ((⟨s.pal_widx.toNat, by omega⟩ : Fin 768).val : Int) := by
        simp only [Fin.val_mk]; omega
      refine ⟨_, asm_out_data s v ⟨s.pal_widx.toNat, by omega⟩ hc, fun k => ?_, ?_, hr⟩
      · show (Function.update s.pal ⟨s.pal_widx.toNat, by omega⟩ _ k).val ≤ 63
        by_cases hk : k = ⟨s.pal_widx.toNat, by omega⟩
        · rw [hk, Function.update_same, and_3f_val]; exact Nat.and_le_right
        · rw [Function.update_noteq hk]; exact hp k
      · show (0 : Int) ≤ ((_ % 768 : Nat) : Int) ∧ ((_ % 768 : Nat) : Int) < 768
        omega
    · exact ⟨s, asm_out_other s port v h8 h9, hp, hw, hr⟩

theorem pal_inv_asm_in (s : dos_t) (port : uint16_t) (h : pal_inv s) :
    ∃ v t, asm_in s port = some (v, t) ∧ pal_inv t := by
  obtain ⟨hp, hw, hr⟩ := h
  by_cases h9 : port.val = 0x3C9
  · have e : port = 0x3C9 := Fin.ext h9
    subst e
    have hc : s.pal_ridx = ((⟨s.pal_ridx.toNat, by omega⟩ : Fin 768).val : Int) := by
      simp only [Fin.val_mk]; omega
    refine ⟨_, _, asm_in_data s ⟨s.pal_ridx.toNat, by omega⟩ hc, hp, hw, ?_⟩
    show (0 : Int) ≤ ((_ % 768 : Nat) : Int) ∧ ((_ % 768 : Nat) : Int) < 768
    omega
  · exact ⟨0, s, asm_in_other s port h9, hp, hw, hr⟩

theorem pal_inv_asm_out_3c7 (s : dos_t) (v : uint8_t) (h : pal_inv s) :
    pal_inv (asm_out_3c7 s v) := by
  obtain ⟨hp, hw, hr⟩ := h
  have hv := v.isLt
  refine ⟨hp, hw, ?_⟩
  show (0 : Int) ≤ (v.val : Int) * 3 ∧ (v.val : Int) * 3 < 768
  omega

theorem asm_out_undefined (s : dos_t) (v : uint8_t)
    (h : ¬ (0 ≤ s.pal_widx ∧ s.pal_widx < 768)) : asm_out s 0x3C9 v = none := by
  simp only [asm_out, port_3c9_val, pal_write, h, dite_false, Option.map_none', beq_iff_eq,
    Nat.reduceEqDiff, if_false, if_true]

theorem asm_in_undefined (s : dos_t)
    (h : ¬ (0 ≤ s.pal_ridx ∧ s.pal_ridx < 768)) : asm_in s 0x3C9 = none := by
  simp only [asm_in, port_3c9_val, pal_read, h, dite_false, Option.map_none', beq_iff_eq,
    Nat.reduceEqDiff, if_false, if_true]

theorem asm_out_of (s : dos_t) (port : uint16_t) (v : uint8_t) (t : dos_t)
    (h : asm_out s port v = some t) : t.of = s.of := by
  by_cases h8 : port.val = 0x3C8
  · have e : port = 0x3C8 := Fin.ext h8
    subst e
    rw [asm_out_select] at h
    cases h; rfl
  · by_cases h9 : port.val = 0x3C9
    · have e : port = 0x3C9 := Fin.ext h9
      subst e
      by_cases hw : 0 ≤ s.pal_widx ∧ s.pal_widx < 768
      · have hc : s.pal_widx = ((⟨s.pal_widx.toNat, by omega⟩ : Fin 768).val : Int) := by
          simp only [Fin.val_mk]; omega
        rw [asm_out_data s v _ hc] at h
        cases h; rfl
      · rw [asm_out_undefined s v hw] at h
        cases h
    · rw [asm_out_other s port v h8 h9] at h
      cases h; rfl

theorem asm_in_of (s : dos_t) (port : uint16_t) (v : uint8_t) (t : dos_t)
    (h : asm_in s port = some (v, t)) : t.of = s.of := by
  by_cases h9 : port.val = 0x3C9
  · have e : port = 0x3C9 := Fin.ext h9
    subst e
    by_cases hr : 0 ≤ s.pal_ridx ∧ s.pal_ridx < 768
    · have hc : s.pal_ridx = ((⟨s.pal_ridx.toNat, by omega⟩ : Fin 768).val : Int) := by
        simp only [Fin.val_mk]; omega
      rw [asm_in_data s _ hc] at h
      cases h; rfl
    · rw [asm_in_undefined s hr] at h
      cases h
  · rw [asm_in_other s port h9] at h
    cases h; rfl

theorem pal_write3_entries (s : dos_t) (i r g b : uint8_t) :
    ∃ t, pal_write3 s i r g b = some t
      ∧ (t.pal ⟨3 * i.val, by omega⟩).val = r.val &&& 0x3F
      ∧ (t.pal ⟨3 * i.val + 1, by omega⟩).val = g.val &&& 0x3F
      ∧ (t.pal ⟨3 * i.val + 2, by omega⟩).val = b.val &&& 0x3F
      ∧ t.pal_widx = ((3 * i.val + 3) % 768 : Nat)
      ∧ t.pal_ridx = s.pal_ridx := by
  refine ⟨_, pal_write3_eq s i r g b, ?_, ?_, ?_, rfl, rfl⟩
  · show (Function.update (Function.update (Function.update s.pal ⟨3 * i.val, _⟩ _)
      ⟨3 * i.val + 1, _⟩ _) ⟨3 * i.val + 2, _⟩ _ ⟨3 * i.val, _⟩).val = _
    rw [Function.update_noteq (by simp [Fin.ext_iff]), Function.update_noteq (by simp [Fin.ext_iff]),
      Function.update_same, and_3f_val]
  · show (Function.update (Function.update (Function.update s.pal ⟨3 * i.val, _⟩ _)
      ⟨3 * i.val + 1, _⟩ _) ⟨3 * i.val + 2, _⟩ _ ⟨3 * i.val + 1, _⟩).val = _
    rw [Function.update_noteq (by simp [Fin.ext_iff]), Function.update_same, and_3f_val]
  · show (Function.update (Function.update (Function.update s.pal ⟨3 * i.val, _⟩ _)
      ⟨3 * i.val + 1, _⟩ _) ⟨3 * i.val + 2, _⟩ _ ⟨3 * i.val + 2, _⟩).val = _
    rw [Function.update_same, and_3f_val]

/-! ## The overflow flag through the remaining operations -/

theorem asm_mov_of (s : dos_t) (d src : reg_t) : (asm_mov s d src).of = s.of := by
  unfold asm_mov; simp

theorem asm_mov_i_of (s : dos_t) (d : reg_t) (v : uint16_t) : (asm_mov_i s d v).of = s.of := by
  unfold asm_mov_i; simp

theorem asm_mov_r_m_of (s : dos_t) (d : reg_t) (g : seg_t) (a : uint16_t) :
    (asm_mov_r_m s d g a).of = s.of := by
  unfold asm_mov_r_m; split <;> simp

theorem asm_mov_m_r_of (s : dos_t) (g : seg_t) (a : uint16_t) (src : reg_t) :
    (asm_mov_m_r s g a src).of = s.of := by
  unfold asm_mov_m_r; split <;> simp

theorem asm_lea_of (s : dos_t) (d : reg_t) (v : uint16_t) : (asm_lea s d v).of = s.of := by
  unfold asm_lea; simp

theorem asm_push_of (s : dos_t) (r : reg_t) : (asm_push s r).of = s.of := by
  unfold asm_push; simp

theorem asm_push_i_of (s : dos_t) (v : uint16_t) : (asm_push_i s v).of = s.of := by
  unfold asm_push_i; simp

theorem asm_pop_of (s : dos_t) (r : reg_t) : (asm_pop s r).of = s.of := by
  unfold asm_pop; simp

theorem asm_rep_movsw_of (s : dos_t) : (asm_rep_movsw s).of = s.of := by
  rw [asm_rep_movsw_iterate s.cx.val s rfl]
  exact (rep_movsw_iterate_fields s.cx.val s).2.2.2.2.2.2.2.2.2.2.2.1

theorem asm_mul_of (s : dos_t) (src : reg_t) :
    (asm_mul s src).of =
      if (reg_get (asm_mul s src) (if reg_is8 src then AH else DX)).val = 0 then 0 else 1 := by
  cases h : reg_is8 src
  · simp only [asm_mul, h, Bool.false_eq_true, if_false, reg_get_DX, b2i, bne_iff_ne, ne_eq,
      ite_not]
  · simp only [asm_mul, h, if_true, reg_get_AH_val, hi, Fin.val_mk, b2i, bne_iff_ne, ne_eq,
      ite_not]


/-! ## FPU register stack: supporting lemmas -/

theorem ldiff_seven (n : Nat) : Nat.ldiff 7 n = 7 - n % 8 := by
  apply Nat.eq_of_testBit_eq
  intro i
  rw [Nat.testBit_ldiff]
  by_cases hi : i < 3
  · have hn : n.testBit i = (n % 8).testBit i := by
      rw [show (8 : Nat) = 2 ^ 3 from rfl, Nat.testBit_mod_two_pow]
      simp [hi]
    rw [hn]
    have hm : n % 8 < 8 := Nat.mod_lt _ (by decide)
    generalize n % 8 = m at hm
    interval_cases m <;> interval_cases i <;> decide
  · have h7 : Nat.testBit 7 i = false :=
      Nat.testBit_lt_two_pow (Nat.lt_of_lt_of_le (by decide : 7 < 2 ^ 3)
        (Nat.pow_le_pow_right (by decide) (by omega)))
    have hr : Nat.testBit (7 - n % 8) i = false :=
      Nat.testBit_lt_two_pow (Nat.lt_of_lt_of_le (by omega : 7 - n % 8 < 2 ^ 3)
        (Nat.pow_le_pow_right (by decide) (by omega)))
    rw [h7, hr]
    rfl

theorem land_seven (x : Int) : Int.land x 7 = x % 8 := by
  cases x with
  | ofNat n =>
    show ((n &&& 7 : Nat) : Int) = (n : Int) % 8
    rw [show (7 : Nat) = 2 ^ 3 - 1 from rfl, Nat.and_pow_two_sub_one_eq_mod]
    simp only [Nat.reducePow]
    omega
  | negSucc n =>
    show ((Nat.ldiff 7 n : Nat) : Int) = (Int.negSucc n) % 8
    rw [ldiff_seven, Int.negSucc_eq]
    omega

theorem ST_slot_val (s : dos_t) (i : Int) :
    ((ST_slot s i).val : Int) = (s.fpu_top + i) % 8 := by
  simp only [ST_slot, land_seven]
  omega

theorem ST_slot_eq_iff (s t : dos_t) (i j : Int) :
    ST_slot s i = ST_slot t j ↔ (s.fpu_top + i) % 8 = (t.fpu_top + j) % 8 := by
  rw [Fin.ext_iff, ← ST_slot_val, ← ST_slot_val]
  omega

theorem fpu_push_top (s : dos_t) (v : Float) : (fpu_push s v).fpu_top = (s.fpu_top - 1) % 8 := by
  simp only [fpu_push, ST_set, land_seven]

theorem fpu_push_fpu (s : dos_t) (v : Float) :
    (fpu_push s v).fpu = Function.update s.fpu (ST_slot s (-1)) v := by
  have e : ST_slot { s with fpu_top := Int.land (s.fpu_top - 1) 7 } 0 = ST_slot s (-1) := by
    rw [ST_slot_eq_iff]
    simp only [land_seven]
    omega
  simp only [fpu_push, ST_set, e]

theorem fpu_pop_val (s : dos_t) : (fpu_pop s).1 = ST s 0 := rfl

theorem fpu_pop_state (s : dos_t) :
    (fpu_pop s).2 = { s with fpu_top := (s.fpu_top + 1) % 8 } := by
  simp only [fpu_pop, land_seven]

theorem fpu_frame_refl (s : dos_t) : fpu_frame s s := by
  simp only [fpu_frame, and_self]

theorem fpu_frame_trans {s t u : dos_t} (h : fpu_frame s t) (h2 : fpu_frame t u) :
    fpu_frame s u := by
  simp only [fpu_frame] at *
  and_intros <;> simp only [*]

theorem fpu_frame_ST_set (s : dos_t) (i : Int) (v : Float) : fpu_frame s (ST_set s i v) := by
  simp only [fpu_frame, ST_set, and_self]

theorem fpu_frame_push (s : dos_t) (v : Float) : fpu_frame s (fpu_push s v) := by
  simp only [fpu_frame, fpu_push, ST_set, and_self]

theorem fpu_frame_pop (s : dos_t) : fpu_frame s (fpu_pop s).2 := by
  simp only [fpu_frame, fpu_pop, and_self]

theorem ST_slot_push (s : dos_t) (v : Float) (j : Int) :
    ST_slot (fpu_push s v) j = ST_slot s (j - 1) := by
  rw [ST_slot_eq_iff, fpu_push_top]
  omega

theorem ST_slot_pop (s : dos_t) (j : Int) : ST_slot (fpu_pop s).2 j = ST_slot s (j + 1) := by
  rw [ST_slot_eq_iff, fpu_pop_state]
  show ((s.fpu_top + 1) % 8 + j) % 8 = (s.fpu_top + (j + 1)) % 8
  omega

theorem ST_push (s : dos_t) (v : Float) (j : Int) :
    ST (fpu_push s v) j = if j % 8 = 0 then v else ST s (j - 1) := by
  rw [ST, ST_slot_push, fpu_push_fpu, Function.update_apply]
  by_cases h : j % 8 = 0
  · rw [if_pos h, if_pos ((ST_slot_eq_iff s s _ _).2 (by omega))]
  · rw [if_neg h, if_neg (fun e => h (by have := (ST_slot_eq_iff s s _ _).1 e; omega))]
    rfl

theorem ST_pop (s : dos_t) (j : Int) : ST (fpu_pop s).2 j = ST s (j + 1) := by
  rw [ST, ST_slot_pop, fpu_pop_state]
  rfl

theorem ST_congr (s : dos_t) (i j : Int) (h : i % 8 = j % 8) : ST s i = ST s j := by
  have e : ST_slot s i = ST_slot s j := by
    rw [ST_slot_eq_iff]
    omega
  rw [ST, ST, e]

theorem push_all_snoc (s : dos_t) (vs : List Float) (v : Float) :
    push_all s (vs ++ [v]) = fpu_push (push_all s vs) v := by
  simp only [push_all, List.foldl_append, List.foldl_cons, List.foldl_nil]

theorem push_all_top (s : dos_t) (vs : List Float) :
    (push_all s vs).fpu_top % 8 = (s.fpu_top - vs.length) % 8
    ∧ ((0 ≤ s.fpu_top ∧ s.fpu_top < 8) ∨ vs ≠ [] →
        0 ≤ (push_all s vs).fpu_top ∧ (push_all s vs).fpu_top < 8) := by
  induction vs using List.reverseRecOn with
  | nil =>
    refine ⟨by simp [push_all], fun h => ?_⟩
    rcases h with h | h
    · exact h
    · exact absurd rfl h
  | append_singleton vs v ih =>
    rw [push_all_snoc, fpu_push_top]
    refine ⟨?_, fun _ => by omega⟩
    have := ih.1
    simp only [List.length_append, List.length_singleton]
    push_cast
    omega

theorem pop_n_vals (n : Nat) (s : dos_t) :
    (pop_n n s).1 = (List.range n).map fun k => ST s (k : Nat) := by
  induction n generalizing s with
  | zero => rfl
  | succ n ih =>
    rw [List.range_succ_eq_map, List.map_cons, List.map_map]
    show (fpu_pop s).1 :: (pop_n n (fpu_pop s).2).1 = _
    rw [ih, fpu_pop_val]
    congr 1
    apply List.map_congr_left
    intro k _
    rw [ST_pop]
    simp only [Function.comp_apply, Nat.succ_eq_add_one, Nat.cast_zero, Nat.cast_add, Nat.cast_one]

theorem pop_n_top (n : Nat) (s : dos_t) :
    (pop_n n s).2.fpu_top % 8 = (s.fpu_top + n) % 8
    ∧ ((0 ≤ s.fpu_top ∧ s.fpu_top < 8) →
        0 ≤ (pop_n n s).2.fpu_top ∧ (pop_n n s).2.fpu_top < 8) := by
  induction n generalizing s with
  | zero => exact ⟨by simp [pop_n], fun h => h⟩
  | succ n ih =>
    show (pop_n n (fpu_pop s).2).2.fpu_top % 8 = _
      ∧ (_ → 0 ≤ (pop_n n (fpu_pop s).2).2.fpu_top ∧ (pop_n n (fpu_pop s).2).2.fpu_top < 8)
    have h := ih (fpu_pop s).2
    have e : (fpu_pop s).2.fpu_top = (s.fpu_top + 1) % 8 := by rw [fpu_pop_state]
    rw [e] at h
    refine ⟨?_, fun _ => h.2 (by omega)⟩
    rw [h.1]
    push_cast
    omega

theorem push_pop_top (s : dos_t) (vs : List Float) :
    (pop_n vs.length (push_all s vs)).2.fpu_top % 8 = s.fpu_top % 8
    ∧ ((0 ≤ s.fpu_top ∧ s.fpu_top < 8) →
        (pop_n vs.length (push_all s vs)).2.fpu_top = s.fpu_top) := by
  have h1 := push_all_top s vs
  have h2 := pop_n_top vs.length (push_all s vs)
  refine ⟨by omega, fun h => ?_⟩
  have := h2.2 (h1.2 (Or.inl h))
  omega

theorem ST_slot_ST_set (s : dos_t) (i : Int) (v : Float) (j : Int) :
    ST_slot (ST_set s i v) j = ST_slot s j := rfl

theorem ST_ST_set (s : dos_t) (i : Int) (v : Float) (j : Int) :
    ST (ST_set s i v) j = if j % 8 = i % 8 then v else ST s j := by
  rw [ST, ST_slot_ST_set]
  show Function.update s.fpu (ST_slot s i) v (ST_slot s j) = _
  rw [Function.update_apply]
  by_cases h : j % 8 = i % 8
  · rw [if_pos h, if_pos ((ST_slot_eq_iff s s _ _).2 (by omega))]
  · rw [if_neg h, if_neg (fun e => h (by have := (ST_slot_eq_iff s s _ _).1 e; omega))]
    rfl

theorem arith_pop_post_intro (op : Float → Float → Float) (s : dos_t) (d src : Int) :
    arith_pop_post op s d src (fpu_pop (ST_set s d (op (ST s d) (ST s src)))).2 := by
  refine ⟨?_, ?_, fun k hk => ?_, fun k hk => ?_,
    fpu_frame_trans (fpu_frame_ST_set s d _) (fpu_frame_pop _)⟩
  · rw [fpu_pop_state]
    rfl
  · rw [fpu_pop_state]
    rfl
  · rw [ST_pop, ST_ST_set, if_pos hk]
  · rw [ST_pop, ST_ST_set, if_neg hk]

theorem asm_fxch_fpu (s : dos_t) (i : Int) :
    (asm_fxch s i).fpu
      = Function.update (Function.update s.fpu (ST_slot s 0) (s.fpu (ST_slot s i)))
          (ST_slot s i) (s.fpu (ST_slot s 0)) := rfl

theorem ST_slot_asm_fxch (s : dos_t) (i j : Int) : ST_slot (asm_fxch s i) j = ST_slot s j := rfl

theorem ST_mem_w16 (s : dos_t) (g : seg_t) (a v : uint16_t) (j : Int) :
    ST (mem_w16 s g a v) j = ST s j := by
  cases g <;> rfl

theorem foldl_append_eq {α β : Type} (g : α → List β) (l : List α) (f : List β) :
    l.foldl (fun f a => f ++ g a) f = f ++ l.flatMap g := by
  induction l generalizing f with
  | nil => simp
  | cons a l ih => simp [ih, List.flatMap_cons]

theorem flatMap_length_const {α β : Type} (g : α → List β) (n : Nat)
    (hn : ∀ a, (g a).length = n) (l : List α) : (l.flatMap g).length = n * l.length := by
  induction l with
  | nil => simp
  | cons a l ih => simp [List.flatMap_cons, ih, hn, Nat.mul_succ, Nat.add_comm]

theorem flatMap_getElem? {α β : Type} (g : α → List β) (n : Nat)
    (hn : ∀ a, (g a).length = n) (l : List α) (k j : Nat) (hj : j < n) :
    (l.flatMap g)[n * k + j]? = (l[k]?).bind fun a => (g a)[j]? := by
  induction l generalizing k with
  | nil => simp
  | cons a l ih =>
    rw [List.flatMap_cons]
    cases k with
    | zero =>
      rw [List.getElem?_append_left (by rw [hn]; omega)]
      simp
    | succ k =>
      rw [List.getElem?_append_right (by rw [hn, Nat.mul_succ]; omega), hn]
      have e : n * (k + 1) + j - n = n * k + j := by rw [Nat.mul_succ]; omega
      rw [e, ih]
      simp

theorem bmp_bytes_eq (s : dos_t) :
    bmp_bytes s =
      ([66, 77, 54, 254, 0, 0, 0, 0, 0, 0, 54, 4, 0, 0,
        40, 0, 0, 0, 64, 1, 0, 0, 200, 0, 0, 0, 1, 0, 8, 0, 0, 0, 0, 0, 0, 250, 0, 0,
        0, 0, 0, 0, 0, 0, 0, 0, 0, 1, 0, 0, 0, 0, 0, 0] : List uint8_t)
      ++ ((List.finRange 256).flatMap (fun i =>
            [u8 (((s.pal ⟨i.val * 3 + 2, by omega⟩).val <<< 2 : Nat)),
             u8 (((s.pal ⟨i.val * 3 + 1, by omega⟩).val <<< 2 : Nat)),
             u8 (((s.pal ⟨i.val * 3 + 0, by omega⟩).val <<< 2 : Nat)), 0])
        ++ (List.range 200).reverse.flatMap (fun y =>
            (List.range 320).map fun x => s.vga (u16 ((y * 320 + x : Nat))))) := by
  simp only [bmp_bytes, save_bmp, Option.getD_some, fwrite, fputc, write_le16, write_le32,
    List.append_assoc, List.nil_append, List.singleton_append, List.cons_append, u8_self,
    foldl_append_eq]
  rfl


theorem finRange_getElem? (n i : Nat) (h : i < n) : (List.finRange n)[i]? = some ⟨i, h⟩ := by
  rw [List.getElem?_eq_getElem (by simp [h])]
  simp

theorem le16_at_append (h t : List uint8_t) (k : Nat) (hk : k + 1 < h.length) :
    le16_at (h ++ t) k = le16_at h k := by
  simp only [le16_at, List.getD_eq_getElem?_getD]
  rw [List.getElem?_append_left (by omega), List.getElem?_append_left (by omega)]

theorem le32_at_append (h t : List uint8_t) (k : Nat) (hk : k + 3 < h.length) :
    le32_at (h ++ t) k = le32_at h k := by
  simp only [le32_at, List.getD_eq_getElem?_getD]
  rw [List.getElem?_append_left (by omega), List.getElem?_append_left (by omega),
    List.getElem?_append_left (by omega), List.getElem?_append_left (by omega)]

theorem bmp_bytes_length (s : dos_t) : (bmp_bytes s).length = 65078 := by
  rw [bmp_bytes_eq, List.length_append, List.length_append,
    flatMap_length_const _ 4 (fun _ => by rfl),
    flatMap_length_const _ 320 (fun _ => by simp)]
  simp

theorem bmp_bytes_header (s : dos_t) :
    (bmp_bytes s).take 54 =
      [66, 77, 54, 254, 0, 0, 0, 0, 0, 0, 54, 4, 0, 0,
        40, 0, 0, 0, 64, 1, 0, 0, 200, 0, 0, 0, 1, 0, 8, 0, 0, 0, 0, 0, 0, 250, 0, 0,
        0, 0, 0, 0, 0, 0, 0, 0, 0, 1, 0, 0, 0, 0, 0, 0] := by
  rw [bmp_bytes_eq]
  exact List.take_left' rfl

theorem bmp_bytes_palette (s : dos_t) (i : Fin 256) (j : Nat) (hj : j < 4) :
    (bmp_bytes s)[54 + 4 * i.val + j]? =
      [u8 (((s.pal ⟨i.val * 3 + 2, by omega⟩).val <<< 2 : Nat)),
        u8 (((s.pal ⟨i.val * 3 + 1, by omega⟩).val <<< 2 : Nat)),
        u8 (((s.pal ⟨i.val * 3 + 0, by omega⟩).val <<< 2 : Nat)), 0][j]? := by
  have hi := i.isLt
  have e : 54 + 4 * i.val + j - 54 = 4 * i.val + j := by omega
  rw [bmp_bytes_eq, List.getElem?_append_right (by simp only [List.length_cons, List.length_nil]; omega)]
  simp only [List.length_cons, List.length_nil]
  rw [e, List.getElem?_append_left (by
      rw [flatMap_length_const _ 4 (fun _ => by rfl), List.length_finRange]; omega),
    flatMap_getElem? _ 4 (fun _ => by rfl) _ _ _ hj, finRange_getElem? 256 i.val hi]
  rfl

theorem bmp_bytes_pixel (s : dos_t) (x y : Nat) (hx : x < 320) (hy : y < 200) :
    (bmp_bytes s)[1078 + (199 - y) * 320 + x]? = some (s.vga (u16 ((y * 320 + x : Nat)))) := by
  have e : 1078 + (199 - y) * 320 + x - 54 = 1024 + (320 * (199 - y) + x) := by omega
  rw [bmp_bytes_eq, List.getElem?_append_right (by simp only [List.length_cons, List.length_nil]; omega)]
  simp only [List.length_cons, List.length_nil]
  rw [e, List.getElem?_append_right (by
      rw [flatMap_length_const _ 4 (fun _ => by rfl), List.length_finRange]; omega),
    flatMap_length_const _ 4 (fun _ => by rfl), List.length_finRange]
  have e2 : 1024 + (320 * (199 - y) + x) - 4 * 256 = 320 * (199 - y) + x := by omega
  rw [e2, flatMap_getElem? _ 320 (fun _ => by simp) _ _ _ hx,
    List.getElem?_reverse (by rw [List.length_range]; omega), List.length_range,
    List.getElem?_range (by omega)]
  have e3 : 200 - 1 - (199 - y) = y := by omega
  rw [e3]
  simp only [Option.some_bind, List.getElem?_map, List.getElem?_range hx, Option.map_some']

theorem bmp_bytes_congr (s t : dos_t) (hp : t.pal = s.pal)
    (hv : ∀ a : uint16_t, a.val < 64000 → t.vga a = s.vga a) : bmp_bytes t = bmp_bytes s := by
  rw [bmp_bytes_eq, bmp_bytes_eq, hp]
  congr 2
  apply List.flatMap_congr
  intro y hy
  apply List.map_congr_left
  intro x hx
  have hy2 : y < 200 := by simpa using hy
  have hx2 : x < 320 := by simpa using hx
  apply hv
  have h : y * 320 + x < 64000 := by omega
  rw [u16_val_nat, Nat.mod_eq_of_lt (by omega)]
  exact h

theorem same_flags_refl (s : dos_t) : same_flags s s := ⟨rfl, rfl, rfl, rfl⟩

theorem same_flags_trans {s t u : dos_t} (h : same_flags s t) (h2 : same_flags t u) :
    same_flags s u :=
  ⟨h2.1.trans h.1, h2.2.1.trans h.2.1, h2.2.2.1.trans h.2.2.1, h2.2.2.2.trans h.2.2.2⟩

theorem same_flags_seg_store (s : dos_t) (g : seg_t) (a : uint16_t) (v : uint8_t) :
    same_flags s (seg_store s g a v) := by
  cases g <;> exact ⟨rfl, rfl, rfl, rfl⟩

theorem same_flags_asm_mov_r_m (s : dos_t) (d : reg_t) (g : seg_t) (a : uint16_t) :
    same_flags s (asm_mov_r_m s d g a) := by
  cases h : reg_is8 d <;> simp only [asm_mov_r_m, h, Bool.false_eq_true, if_false, if_true]
    <;> exact same_flags_reg_set _ _ _

theorem same_flags_asm_mov_m_r (s : dos_t) (g : seg_t) (a : uint16_t) (src : reg_t) :
    same_flags s (asm_mov_m_r s g a src) := by
  cases h : reg_is8 src <;> simp only [asm_mov_m_r, h, Bool.false_eq_true, if_false, if_true]
  · exact same_flags_mem_w16 _ _ _ _
  · exact same_flags_seg_store _ _ _ _

theorem asm_not_val (s : dos_t) (d : reg_t) :
    (reg_get (asm_not s d) d).val = 2 ^ width d - 1 - (reg_get s d).val := by
  have hd := (reg_get s d).isLt
  cases h : reg_is8 d
  · simp only [asm_not, width, h, Bool.false_eq_true, if_false, reg_get_reg_set_same16 _ _ _ h,
      u16, Fin.val_mk, Nat.reducePow]
    omega
  · have h8 := reg_get_lt_of_is8 s d h
    simp only [asm_not, width, h, if_true, reg_get_reg_set_same8 _ _ _ h, u16, Fin.val_mk,
      Nat.reducePow]
    omega

theorem rotl_eq (w v k : Nat) (hk : k ≤ w) (hv : v < 2 ^ w) :
    ((v <<< k) ||| (v >>> (w - k))) % 2 ^ w = rotl w v k := by
  have hw : 2 ^ w = 2 ^ (w - k) * 2 ^ k := by rw [← pow_add]; congr 1; omega
  have hh : v / 2 ^ (w - k) < 2 ^ k := by
    apply Nat.div_lt_of_lt_mul
    rw [← hw]; exact hv
  have ha : v % 2 ^ (w - k) < 2 ^ (w - k) := Nat.mod_lt _ (by positivity)
  have e1 : v <<< k = 2 ^ k * v := by rw [Nat.shiftLeft_eq, Nat.mul_comm]
  rw [e1, Nat.shiftRight_eq_div_pow, ← Nat.mul_add_lt_is_or hh, rotl]
  have e2 : 2 ^ k * v + v / 2 ^ (w - k)
      = 2 ^ w * (v / 2 ^ (w - k)) + (v % 2 ^ (w - k) * 2 ^ k + v / 2 ^ (w - k)) := by
    have hv' := (Nat.div_add_mod v (2 ^ (w - k))).symm
    generalize v / 2 ^ (w - k) = q at hv' ⊢
    generalize v % 2 ^ (w - k) = a at hv' ⊢
    rw [hv', hw]
    ring
  rw [e2, Nat.mul_add_mod]
  apply Nat.mod_eq_of_lt
  calc v % 2 ^ (w - k) * 2 ^ k + v / 2 ^ (w - k)
      < v % 2 ^ (w - k) * 2 ^ k + 2 ^ k := by omega
    _ = (v % 2 ^ (w - k) + 1) * 2 ^ k := by ring
    _ ≤ 2 ^ (w - k) * 2 ^ k := Nat.mul_le_mul_right _ ha
    _ = 2 ^ w := hw.symm

theorem asm_rol_val (s : dos_t) (d : reg_t) (c : Nat) :
    (reg_get (asm_rol s d c) d).val = rotl (width d) (reg_get s d).val (c % width d) := by
  have hd := (reg_get s d).isLt
  cases h : reg_is8 d
  · have hk : c &&& 15 = c % 16 := Nat.and_pow_two_sub_one_eq_mod c 4
    simp only [asm_rol, h, width, Bool.false_eq_true, if_false, reg_get_set_c,
      reg_get_reg_set_same16, u16_val_nat, hk]
    exact rotl_eq 16 _ _ (by omega) hd
  · have h8 := reg_get_lt_of_is8 s d h
    have hk : c &&& 7 = c % 8 := Nat.and_pow_two_sub_one_eq_mod c 3
    simp only [asm_rol, h, width, if_true, reg_get_set_c, reg_get_reg_set_zx _ _ _ h,
      u8_val_nat, u8_val_self _ h8, hk]
    exact rotl_eq 8 _ _ (by omega) h8

theorem asm_push_eq (s : dos_t) (r : reg_t) (hr : r ≠ SP) :
    asm_push s r
      = mem_w16 { s with sp := u16 (s.sp.val - 2) } SEG_DS (u16 (s.sp.val - 2)) (reg_get s r) := by
  simp only [asm_push, reg_get_set_sp _ _ _ hr]

theorem mem_r16_push_post (s t : dos_t) (w : uint16_t) (h : push_post s w t) :
    mem_r16 t SEG_DS t.sp = w := by
  have hw := w.isLt
  have hsp := t.sp.isLt
  have e1 : (u16 ((t.sp.val : Int) + 1)).val = (t.sp.val + 1) % 65536 := by
    simp only [u16, Fin.val_mk]; omega
  apply Fin.ext
  rw [mem_r16_val, h.2.1 SEG_DS t.sp, h.2.1 SEG_DS (u16 (t.sp.val + 1)), e1,
    if_neg (fun c => by have := c.2; omega), if_pos ⟨rfl, rfl⟩, if_pos ⟨rfl, rfl⟩]
  omega

theorem b2i_01 (b : Bool) : b2i b = 0 ∨ b2i b = 1 := by
  cases b
  · exact Or.inl rfl
  · exact Or.inr rfl

theorem nat_bit_01 (n : Nat) : ((n % 2 : Nat) : Int) = 0 ∨ ((n % 2 : Nat) : Int) = 1 := by
  omega

theorem and_one_01 (n : Nat) : ((n &&& 1 : Nat) : Int) = 0 ∨ ((n &&& 1 : Nat) : Int) = 1 := by
  rw [Nat.and_one_is_mod]
  exact nat_bit_01 n

theorem land_one_01 (x : Int) : Int.land x 1 = 0 ∨ Int.land x 1 = 1 := by
  rw [land_one]
  omega

theorem flags_inv_of_same (s t : dos_t) (h : flags_inv s) (hst : same_flags s t) :
    flags_inv t := by
  obtain ⟨h1, h2, h3, h4⟩ := hst
  simp only [flags_inv, h1, h2, h3, h4]
  exact h

theorem flags_inv_flags8 (s : dos_t) (r : uint8_t) (c : Int) (ho : s.of = 0 ∨ s.of = 1)
    (hc : c = 0 ∨ c = 1) : flags_inv (flags8 s r c) := by
  refine ⟨hc, ?_, ?_, ho⟩
  · rw [flags8_zf]; exact b2i_01 _
  · rw [flags8_sf]; exact nat_bit_01 _

theorem flags_inv_flags16 (s : dos_t) (r : uint16_t) (c : Int) (ho : s.of = 0 ∨ s.of = 1)
    (hc : c = 0 ∨ c = 1) : flags_inv (flags16 s r c) := by
  refine ⟨hc, ?_, ?_, ho⟩
  · rw [flags16_zf]; exact b2i_01 _
  · rw [flags16_sf]; exact nat_bit_01 _

theorem flags_inv_set_of (s : dos_t) (h : flags_inv s) : flags_inv { s with of := 0 } :=
  ⟨h.1, h.2.1, h.2.2.1, Or.inl rfl⟩

theorem shift_cf_01 (s : dos_t) (h : flags_inv s) (cnt x : Nat) :
    (if cnt ≠ 0 then (((x &&& 1 : Nat)) : Int) else s.cf) = 0
    ∨ (if cnt ≠ 0 then (((x &&& 1 : Nat)) : Int) else s.cf) = 1 := by
  split_ifs
  · exact and_one_01 x
  · exact h.1

theorem sar_cf_01 (s : dos_t) (h : flags_inv s) (cnt : Nat) (x : Int) :
    (if cnt ≠ 0 then Int.land x 1 else s.cf) = 0
    ∨ (if cnt ≠ 0 then Int.land x 1 else s.cf) = 1 := by
  split_ifs
  · exact land_one_01 x
  · exact h.1

theorem flags_inv_asm_add (s : dos_t) (d src : reg_t) (h : flags_inv s) :
    flags_inv (asm_add s d src) := by
  cases hd : reg_is8 d <;> simp only [asm_add, hd, Bool.false_eq_true, if_false, if_true]
  · exact flags_inv_flags16 _ _ _ (by rw [reg_set_of]; exact h.2.2.2) (b2i_01 _)
  · exact flags_inv_flags8 _ _ _ (by rw [reg_set_of]; exact h.2.2.2) (b2i_01 _)

theorem flags_inv_asm_add_i (s : dos_t) (d : reg_t) (v : uint16_t) (h : flags_inv s) :
    flags_inv (asm_add_i s d v) := by
  cases hd : reg_is8 d <;> simp only [asm_add_i, hd, Bool.false_eq_true, if_false, if_true]
  · exact flags_inv_flags16 _ _ _ (by rw [reg_set_of]; exact h.2.2.2) (b2i_01 _)
  · exact flags_inv_flags8 _ _ _ (by rw [reg_set_of]; exact h.2.2.2) (b2i_01 _)

theorem flags_inv_asm_add_r_m (s : dos_t) (d : reg_t) (g : seg_t) (a : uint16_t)
    (h : flags_inv s) : flags_inv (asm_add_r_m s d g a) := by
  cases hd : reg_is8 d <;> simp only [asm_add_r_m, hd, Bool.false_eq_true, if_false, if_true]
  · exact flags_inv_flags16 _ _ _ (by rw [reg_set_of]; exact h.2.2.2) (b2i_01 _)
  · exact flags_inv_flags8 _ _ _ (by rw [reg_set_of]; exact h.2.2.2) (b2i_01 _)

theorem flags_inv_asm_add_m_r (s : dos_t) (g : seg_t) (a : uint16_t) (src : reg_t)
    (h : flags_inv s) : flags_inv (asm_add_m_r s g a src) := by
  cases hd : reg_is8 src <;> simp only [asm_add_m_r, hd, Bool.false_eq_true, if_false, if_true]
  · exact flags_inv_flags16 _ _ _ (by rw [mem_w16_of]; exact h.2.2.2) (b2i_01 _)
  · exact flags_inv_flags8 _ _ _ (by rw [mem_w8_of]; exact h.2.2.2) (b2i_01 _)

theorem flags_inv_asm_adc (s : dos_t) (d src : reg_t) (h : flags_inv s) :
    flags_inv (asm_adc s d src) := by
  cases hd : reg_is8 d <;> simp only [asm_adc, hd, Bool.false_eq_true, if_false, if_true]
  · exact flags_inv_flags16 _ _ _ (by rw [reg_set_of]; exact h.2.2.2) (b2i_01 _)
  · exact flags_inv_flags8 _ _ _ (by rw [reg_set_of]; exact h.2.2.2) (b2i_01 _)

theorem flags_inv_asm_adc_r_m (s : dos_t) (d : reg_t) (g : seg_t) (a : uint16_t)
    (h : flags_inv s) : flags_inv (asm_adc_r_m s d g a) := by
  cases hd : reg_is8 d <;> simp only [asm_adc_r_m, hd, Bool.false_eq_true, if_false, if_true]
  · exact flags_inv_flags16 _ _ _ (by rw [reg_set_of]; exact h.2.2.2) (b2i_01 _)
  · exact flags_inv_flags8 _ _ _ (by rw [reg_set_of]; exact h.2.2.2) (b2i_01 _)

theorem flags_inv_asm_sub (s : dos_t) (d src : reg_t) (h : flags_inv s) :
    flags_inv (asm_sub s d src) := by
  cases hd : reg_is8 d <;> simp only [asm_sub, hd, Bool.false_eq_true, if_false, if_true]
  · exact flags_inv_flags16 _ _ _ (by rw [reg_set_of]; exact h.2.2.2) (b2i_01 _)
  · exact flags_inv_flags8 _ _ _ (by rw [reg_set_of]; exact h.2.2.2) (b2i_01 _)

theorem flags_inv_asm_cmp (s : dos_t) (a b : reg_t) (h : flags_inv s) :
    flags_inv (asm_cmp s a b) := by
  cases hd : reg_is8 a <;> simp only [asm_cmp, hd, Bool.false_eq_true, if_false, if_true]
  · exact flags_inv_flags16 _ _ _ h.2.2.2 (b2i_01 _)
  · exact flags_inv_flags8 _ _ _ h.2.2.2 (b2i_01 _)

theorem flags_inv_asm_cmp_i (s : dos_t) (a : reg_t) (v : uint16_t) (h : flags_inv s) :
    flags_inv (asm_cmp_i s a v) := by
  cases hd : reg_is8 a <;> simp only [asm_cmp_i, hd, Bool.false_eq_true, if_false, if_true]
  · exact flags_inv_flags16 _ _ _ h.2.2.2 (b2i_01 _)
  · exact flags_inv_flags8 _ _ _ h.2.2.2 (b2i_01 _)

theorem flags_inv_asm_shr (s : dos_t) (d : reg_t) (cnt : Nat) (h : flags_inv s) :
    flags_inv (asm_shr s d cnt) := by
  cases hd : reg_is8 d <;> simp only [asm_shr, hd, Bool.false_eq_true, if_false, if_true]
  · exact flags_inv_flags16 _ _ _ (by rw [reg_set_of]; exact h.2.2.2) (shift_cf_01 s h cnt _)
  · exact flags_inv_flags8 _ _ _ (by rw [reg_set_of]; exact h.2.2.2) (shift_cf_01 s h cnt _)

theorem flags_inv_asm_shl (s : dos_t) (d : reg_t) (cnt : Nat) (h : flags_inv s) :
    flags_inv (asm_shl s d cnt) := by
  cases hd : reg_is8 d <;> simp only [asm_shl, hd, Bool.false_eq_true, if_false, if_true]
  · exact flags_inv_flags16 _ _ _ (by rw [reg_set_of]; exact h.2.2.2) (shift_cf_01 s h cnt _)
  · exact flags_inv_flags8 _ _ _ (by rw [reg_set_of]; exact h.2.2.2) (shift_cf_01 s h cnt _)

theorem flags_inv_asm_sar (s : dos_t) (d : reg_t) (cnt : Nat) (h : flags_inv s) :
    flags_inv (asm_sar s d cnt) := by
  cases hd : reg_is8 d <;> simp only [asm_sar, hd, Bool.false_eq_true, if_false, if_true]
  · exact flags_inv_flags16 _ _ _ (by rw [reg_set_of]; exact h.2.2.2) (sar_cf_01 s h cnt _)
  · exact flags_inv_flags8 _ _ _ (by rw [reg_set_of]; exact h.2.2.2) (sar_cf_01 s h cnt _)

theorem flags_inv_asm_sar_m8 (s : dos_t) (g : seg_t) (a : uint16_t) (cnt : Nat)
    (h : flags_inv s) : flags_inv (asm_sar_m8 s g a cnt) := by
  simp only [asm_sar_m8]
  exact flags_inv_flags8 _ _ _ (by rw [mem_w8_of]; exact h.2.2.2) (sar_cf_01 s h cnt _)

theorem flags_inv_asm_rol (s : dos_t) (d : reg_t) (cnt : Nat) (h : flags_inv s) :
    flags_inv (asm_rol s d cnt) := by
  cases hd : reg_is8 d <;> simp only [asm_rol, hd, Bool.false_eq_true, if_false, if_true]
  · exact ⟨and_one_01 _, by rw [reg_set_zf]; exact h.2.1, by rw [reg_set_sf]; exact h.2.2.1,
      by rw [reg_set_of]; exact h.2.2.2⟩
  · exact ⟨and_one_01 _, by rw [reg_set_zf]; exact h.2.1, by rw [reg_set_sf]; exact h.2.2.1,
      by rw [reg_set_of]; exact h.2.2.2⟩

theorem flags_inv_asm_inc (s : dos_t) (d : reg_t) (h : flags_inv s) :
    flags_inv (asm_inc s d) := by
  cases hd : reg_is8 d <;> simp only [asm_inc, hd, Bool.false_eq_true, if_false, if_true]
  · exact ⟨by rw [reg_set_cf]; exact h.1, b2i_01 _, and_one_01 _, by rw [reg_set_of]; exact h.2.2.2⟩
  · exact ⟨by rw [reg_set_cf]; exact h.1, b2i_01 _, and_one_01 _, by rw [reg_set_of]; exact h.2.2.2⟩

theorem flags_inv_asm_dec (s : dos_t) (d : reg_t) (h : flags_inv s) :
    flags_inv (asm_dec s d) := by
  cases hd : reg_is8 d <;> simp only [asm_dec, hd, Bool.false_eq_true, if_false, if_true]
  · exact ⟨by rw [reg_set_cf]; exact h.1, b2i_01 _, and_one_01 _, by rw [reg_set_of]; exact h.2.2.2⟩
  · exact ⟨by rw [reg_set_cf]; exact h.1, b2i_01 _, and_one_01 _, by rw [reg_set_of]; exact h.2.2.2⟩

theorem flags_inv_asm_xor (s : dos_t) (d src : reg_t) (h : flags_inv s) :
    flags_inv (asm_xor s d src) := by
  cases hd : reg_is8 d <;> simp only [asm_xor, hd, Bool.false_eq_true, if_false, if_true]
  · exact flags_inv_set_of _
      (flags_inv_flags16 _ _ _ (by rw [reg_set_of]; exact h.2.2.2) (Or.inl rfl))
  · exact flags_inv_set_of _
      (flags_inv_flags8 _ _ _ (by rw [reg_set_of]; exact h.2.2.2) (Or.inl rfl))

theorem flags_inv_asm_and_i (s : dos_t) (d : reg_t) (v : uint16_t) (h : flags_inv s) :
    flags_inv (asm_and_i s d v) := by
  cases hd : reg_is8 d <;> simp only [asm_and_i, hd, Bool.false_eq_true, if_false, if_true]
  · exact flags_inv_set_of _
      (flags_inv_flags16 _ _ _ (by rw [reg_set_of]; exact h.2.2.2) (Or.inl rfl))
  · exact flags_inv_set_of _
      (flags_inv_flags8 _ _ _ (by rw [reg_set_of]; exact h.2.2.2) (Or.inl rfl))

theorem flags_inv_asm_mul (s : dos_t) (src : reg_t) (h : flags_inv s) :
    flags_inv (asm_mul s src) := by
  cases hd : reg_is8 src <;> simp only [asm_mul, hd, Bool.false_eq_true, if_false, if_true]
  · exact ⟨b2i_01 _, h.2.1, h.2.2.1, b2i_01 _⟩
  · exact ⟨b2i_01 _, h.2.1, h.2.2.1, b2i_01 _⟩

theorem same_flags_asm_push (s : dos_t) (r : reg_t) : same_flags s (asm_push s r) := by
  have h := same_flags_mem_w16 { s with sp := u16 (s.sp.val - 2) } SEG_DS
    (u16 (s.sp.val - 2)) (reg_get { s with sp := u16 (s.sp.val - 2) } r)
  exact h

theorem same_flags_asm_push_i (s : dos_t) (v : uint16_t) : same_flags s (asm_push_i s v) := by
  have h := same_flags_mem_w16 { s with sp := u16 (s.sp.val - 2) } SEG_DS (u16 (s.sp.val - 2)) v
  exact h

theorem same_flags_asm_pop (s : dos_t) (r : reg_t) : same_flags s (asm_pop s r) := by
  have h := same_flags_reg_set s r (mem_r16 s SEG_DS s.sp)
  exact h

theorem same_flags_asm_rep_movsw (s : dos_t) : same_flags s (asm_rep_movsw s) := by
  rw [asm_rep_movsw_iterate s.cx.val s rfl]
  have h := (rep_movsw_iterate_fields s.cx.val s).2.2.2
  simp only [rep_movsw_frame] at h
  exact ⟨h.2.2.2.2.2.1, h.2.2.2.2.2.2.1, h.2.2.2.2.2.2.2.1, h.2.2.2.2.2.2.2.2.1⟩

theorem same_flags_asm_out (s : dos_t) (port : uint16_t) (v : uint8_t) (t : dos_t)
    (h : asm_out s port v = some t) : same_flags s t := by
  by_cases h8 : port.val = 0x3C8
  · have e : port = 0x3C8 := Fin.ext h8
    subst e
    rw [asm_out_select] at h
    cases h; exact ⟨rfl, rfl, rfl, rfl⟩
  · by_cases h9 : port.val = 0x3C9
    · have e : port = 0x3C9 := Fin.ext h9
      subst e
      by_cases hw : 0 ≤ s.pal_widx ∧ s.pal_widx < 768
      · have hc : s.pal_widx = ((⟨s.pal_widx.toNat, by omega⟩ : Fin 768).val : Int) := by
          simp only [Fin.val_mk]; omega
        rw [asm_out_data s v _ hc] at h
        cases h; exact ⟨rfl, rfl, rfl, rfl⟩
      · rw [asm_out_undefined s v hw] at h
        cases h
    · rw [asm_out_other s port v h8 h9] at h
      cases h; exact ⟨rfl, rfl, rfl, rfl⟩

theorem same_flags_asm_in (s : dos_t) (port : uint16_t) (v : uint8_t) (t : dos_t)
    (h : asm_in s port = some (v, t)) : same_flags s t := by
  by_cases h9 : port.val = 0x3C9
  · have e : port = 0x3C9 := Fin.ext h9
    subst e
    by_cases hr : 0 ≤ s.pal_ridx ∧ s.pal_ridx < 768
    · have hc : s.pal_ridx = ((⟨s.pal_ridx.toNat, by omega⟩ : Fin 768).val : Int) := by
        simp only [Fin.val_mk]; omega
      rw [asm_in_data s _ hc] at h
      cases h; exact ⟨rfl, rfl, rfl, rfl⟩
    · rw [asm_in_undefined s hr] at h
      cases h
  · rw [asm_in_other s port h9] at h
    cases h; exact ⟨rfl, rfl, rfl, rfl⟩

theorem finRange_map_val {β : Type} (n : Nat) (f : Nat → β) :
    (List.finRange n).map (fun i => f i.val) = (List.range n).map f := by
  rw [← List.map_coe_finRange n, List.map_map]
  rfl

theorem finRange_reverse_flatMap_val {β : Type} (n : Nat) (g : Nat → List β) :
    (List.finRange n).reverse.flatMap (fun i => g i.val) = (List.range n).reverse.flatMap g := by
  rw [← List.map_coe_finRange n, ← List.map_reverse, List.flatMap_def, List.flatMap_def,
    List.map_map]
  rfl

theorem save_bmp_some (s : dos_t) : save_bmp s (some []) = some (bmp_bytes s) := by
  simp only [bmp_bytes, save_bmp, Option.getD_some]

theorem shl2_eq (v : uint8_t) : u8 ((v.val <<< 2 : Nat)) = u8 ((v.val * 4 : Nat)) := by
  rw [Nat.shiftLeft_eq]

theorem u8_zero : u8 0 = 0 := rfl

theorem bmp_palette_eq (palette : Fin 768 → uint8_t) :
    (List.finRange 256).flatMap (fun i =>
        [u8 (((palette ⟨i.val * 3 + 2, by omega⟩).val <<< 2 : Nat)),
         u8 (((palette ⟨i.val * 3 + 1, by omega⟩).val <<< 2 : Nat)),
         u8 (((palette ⟨i.val * 3 + 0, by omega⟩).val <<< 2 : Nat)), 0])
      = (List.finRange 256).flatMap (fun i =>
          [u8 (((palette ⟨3 * i.val + 2, by omega⟩).val * 4 : Nat)),
           u8 (((palette ⟨3 * i.val + 1, by omega⟩).val * 4 : Nat)),
           u8 (((palette ⟨3 * i.val, by omega⟩).val * 4 : Nat)), 0]) := by
  apply List.flatMap_congr
  intro i _
  have e2 : (⟨i.val * 3 + 2, by omega⟩ : Fin 768) = ⟨3 * i.val + 2, by omega⟩ :=
    Fin.ext (by simp only [Fin.val_mk]; omega)
  have e1 : (⟨i.val * 3 + 1, by omega⟩ : Fin 768) = ⟨3 * i.val + 1, by omega⟩ :=
    Fin.ext (by simp only [Fin.val_mk]; omega)
  have e0 : (⟨i.val * 3 + 0, by omega⟩ : Fin 768) = ⟨3 * i.val, by omega⟩ :=
    Fin.ext (by simp only [Fin.val_mk]; omega)
  rw [shl2_eq, shl2_eq, shl2_eq, e2, e1, e0]

theorem bmp_header_320_200 :
    bmp_header 320 200 =
      [66, 77, 54, 254, 0, 0, 0, 0, 0, 0, 54, 4, 0, 0,
        40, 0, 0, 0, 64, 1, 0, 0, 200, 0, 0, 0, 1, 0, 8, 0, 0, 0, 0, 0, 0, 250, 0, 0,
        0, 0, 0, 0, 0, 0, 0, 0, 0, 1, 0, 0, 0, 0, 0, 0] := by
  decide

theorem bmp_header_256_256 :
    bmp_header 256 256 =
      [66, 77, 54, 4, 1, 0, 0, 0, 0, 0, 54, 4, 0, 0,
        40, 0, 0, 0, 0, 1, 0, 0, 0, 1, 0, 0, 1, 0, 8, 0, 0, 0, 0, 0, 0, 0, 1, 0,
        0, 0, 0, 0, 0, 0, 0, 0, 0, 1, 0, 0, 0, 0, 0, 0] := by
  decide

theorem save_bmp_eq_template (s : dos_t) :
    save_bmp s (some []) = some (bmp_template 320 200 s.pal (fun k => s.vga (u16 (k : Nat)))) := by
  rw [save_bmp_some, bmp_bytes_eq, bmp_palette_eq, bmp_template, bmp_header_320_200]

set_option maxRecDepth 8192 in
theorem tube_rewrite_save_bmp_eq (palette : Fin 768 → uint8_t) (vga : Fin 64000 → uint8_t) :
    tube_rewrite.save_bmp palette vga (some [])
      = some (bmp_template 320 200 palette
          (fun k => if h : k < 64000 then vga ⟨k, h⟩ else 0)) := by
  have hrow : ∀ y : Fin 200,
      (List.finRange 320).map (fun x => vga ⟨y.val * 320 + x.val, by omega⟩)
        = (List.range 320).map
            (fun x => if h : y.val * 320 + x < 64000 then vga ⟨y.val * 320 + x, h⟩ else 0) := by
    intro y
    rw [← finRange_map_val 320]
    apply List.map_congr_left
    intro x _
    rw [dif_pos (by omega)]
  have hpix : (List.finRange 200).reverse.flatMap (fun y =>
        (List.finRange 320).map (fun x => vga ⟨y.val * 320 + x.val, by omega⟩))
      = (List.range 200).reverse.flatMap (fun y => (List.range 320).map
            (fun x => if h : y * 320 + x < 64000 then vga ⟨y * 320 + x, h⟩ else 0)) := by
    rw [← finRange_reverse_flatMap_val 200]
    apply List.flatMap_congr
    intro y _
    exact hrow y
  have hput : ∀ (p : uint8_t) (f : FILE), fputc ((p.val <<< 2 : Nat)) f
      = f ++ [u8 ((p.val <<< 2 : Nat))] := fun _ _ => rfl
  simp only [tube_rewrite.save_bmp, fwrite, hput, write_le16, write_le32]
  simp only [fputc, u8_zero, List.append_assoc, List.nil_append, List.singleton_append, List.cons_append,
    foldl_append_eq, hpix, bmp_palette_eq, bmp_template, bmp_header_320_200]
  rfl

set_option maxRecDepth 8192 in
theorem texgen_save_bmp_eq (palette : Fin 768 → uint8_t) (texture : uint16_t → uint8_t) :
    texgen.save_bmp palette texture (some [])
      = some (bmp_template 256 256 palette (fun k => texture (u16 (k : Nat)))) := by
  have hput : ∀ (p : uint8_t) (f : FILE), fputc ((p.val <<< 2 : Nat)) f
      = f ++ [u8 ((p.val <<< 2 : Nat))] := fun _ _ => rfl
  simp only [texgen.save_bmp, fwrite, hput, write_le16, write_le32]
  simp only [fputc, u8_zero, List.append_assoc, List.nil_append, List.singleton_append, List.cons_append,
    foldl_append_eq, bmp_palette_eq, bmp_template, bmp_header_256_256]
  rfl

theorem bmp_template_length (W H : Nat) (palette : Fin 768 → uint8_t) (pixels : Nat → uint8_t) :
    (bmp_template W H palette pixels).length = 14 + 40 + 1024 + W * H := by
  rw [bmp_template, List.length_append, List.length_append,
    flatMap_length_const _ 4 (fun _ => by rfl),
    flatMap_length_const _ W (fun _ => by simp)]
  simp only [bmp_header, bmp_le32, bmp_le16, List.length_append, List.length_cons,
    List.length_nil, List.length_finRange, List.length_reverse, List.length_range]
  omega

theorem bmp_template_congr (W H : Nat) (palette : Fin 768 → uint8_t) (p q : Nat → uint8_t)
    (h : ∀ k, k < W * H → p k = q k) :
    bmp_template W H palette p = bmp_template W H palette q := by
  rw [bmp_template, bmp_template]
  congr 2
  apply List.flatMap_congr
  intro y hy
  apply List.map_congr_left
  intro x hx
  have hy2 : y < H := by simpa using hy
  have hx2 : x < W := by simpa using hx
  apply h
  calc y * W + x < y * W + W := by omega
    _ = (y + 1) * W := by ring
    _ ≤ H * W := Nat.mul_le_mul_right _ hy2
    _ = W * H := Nat.mul_comm _ _

/-! ## The texture loop as an iteration -/

theorem xor_ff00_val (k : Nat) (hk : k < 65536) :
    k ^^^ 0xFF00 = (255 - k / 256) * 256 + k % 256 := by
  have hh : k / 256 < 2 ^ 8 := by simp only [Nat.reducePow]; omega
  have hl : k % 256 < 2 ^ 8 := by simp only [Nat.reducePow]; omega
  have e1 : k = 2 ^ 8 * (k / 256) + k % 256 := by simp only [Nat.reducePow]; omega
  have e2 : (0xFF00 : Nat) = 2 ^ 8 * 255 + 0 := by decide
  have e3 : (255 - k / 256) * 256 + k % 256 = 2 ^ 8 * (2 ^ 8 - (k / 256 + 1)) + k % 256 := by
    simp only [Nat.reducePow]; omega
  rw [e3]
  conv_lhs => rw [e1, e2]
  generalize k / 256 = h at hh
  generalize k % 256 = l at hl
  apply Nat.eq_of_testBit_eq
  intro i
  rw [Nat.testBit_xor, Nat.testBit_mul_pow_two_add _ hl, Nat.testBit_mul_pow_two_add _ hl,
    Nat.testBit_mul_pow_two_add _ (by decide : 0 < 2 ^ 8)]
  by_cases hi : i < 8
  · simp [hi]
  · simp only [hi, if_false, Nat.testBit_two_pow_sub_succ hh]
    have e255 : (255 : Nat) = 2 ^ 8 - 1 := by decide
    rw [e255, Nat.testBit_two_pow_sub_one]
    by_cases hj : i - 8 < 8
    · simp [hj]
    · have : h.testBit (i - 8) = false :=
        Nat.testBit_lt_two_pow (Nat.lt_of_lt_of_le hh (Nat.pow_le_pow_right (by decide) (by omega)))
      simp [hj, this]

theorem mirror_val (k : uint16_t) : (mirror k).val = (255 - k.val / 256) * 256 + k.val % 256 := by
  have hk := k.isLt
  rw [mirror, u16_val_nat, xor_ff00_val _ hk]
  omega

theorem mirror_val_xor (k : uint16_t) : (mirror k).val = k.val ^^^ 0xFF00 := by
  rw [mirror_val, xor_ff00_val _ k.isLt]

theorem mirror_mirror (k : uint16_t) : mirror (mirror k) = k := by
  have hk := k.isLt
  apply Fin.ext
  rw [mirror_val, mirror_val]
  omega

theorem mirror_ne (k : uint16_t) : mirror k ≠ k := by
  intro h
  have hk := k.isLt
  have := congrArg Fin.val h
  rw [mirror_val] at this
  omega

theorem mirror_low (k : uint16_t) : (mirror k).val % 256 = k.val % 256 := by
  rw [mirror_val]
  omega

theorem tex_sym_update (t : uint16_t → uint8_t) (i : uint16_t) (a : uint8_t) (h : tex_sym t) :
    tex_sym (Function.update (Function.update t i a) (mirror i) a) := by
  intro k
  by_cases h1 : k = mirror i
  · subst h1
    rw [mirror_mirror, Function.update_same, Function.update_noteq (mirror_ne i).symm,
      Function.update_same]
  · by_cases h2 : k = i
    · subst h2
      rw [Function.update_same, Function.update_noteq h1, Function.update_same]
    · have h3 : mirror k ≠ mirror i := fun e => h2 (by rw [← mirror_mirror k, e, mirror_mirror])
      have h4 : mirror k ≠ i := fun e => h1 (by rw [← e, mirror_mirror])
      rw [Function.update_noteq h1, Function.update_noteq h2, Function.update_noteq h3,
        Function.update_noteq h4]
      exact h k

theorem generate_texture_body_tex (hash : uint16_t) (accum : uint8_t) (idx : uint16_t)
    (texture : uint16_t → uint8_t) :
    (generate_texture_body hash accum idx texture).2.2
      = Function.update (Function.update texture idx
          (generate_texture_body hash accum idx texture).2.1) (mirror idx)
          (generate_texture_body hash accum idx texture).2.1 := rfl

theorem generate_texture_loop_step (hash : uint16_t) (accum : uint8_t) (idx : uint16_t)
    (texture : uint16_t → uint8_t) (h : (u16 (idx.val - 1)).val ≠ 0) :
    generate_texture_loop hash accum idx texture
      = generate_texture_loop (generate_texture_body hash accum idx texture).1
          (generate_texture_body hash accum idx texture).2.1 (u16 (idx.val - 1))
          (generate_texture_body hash accum idx texture).2.2 := by
  conv_lhs => rw [generate_texture_loop]
  rw [if_pos h]

theorem generate_texture_loop_done (hash : uint16_t) (accum : uint8_t) (idx : uint16_t)
    (texture : uint16_t → uint8_t) (h : (u16 (idx.val - 1)).val = 0) :
    generate_texture_loop hash accum idx texture
      = (generate_texture_body hash accum idx texture).2.2 := by
  conv_lhs => rw [generate_texture_loop]
  rw [if_neg (by rw [h]; simp)]

theorem generate_texture_loop_iterate (n : Nat) :
    ∀ (hash : uint16_t) (accum : uint8_t) (idx : uint16_t) (texture : uint16_t → uint8_t),
      (idx.val + 65535) % 65536 = n →
      generate_texture_loop hash accum idx texture
        = (generate_texture_pass^[n + 1] (hash, accum, idx, texture)).2.2.2 := by
  induction n with
  | zero =>
    intro hash accum idx texture h
    have hi := idx.isLt
    rw [generate_texture_loop_done _ _ _ _ (by simp only [u16, Fin.val_mk]; omega)]
    rfl
  | succ n ih =>
    intro hash accum idx texture h
    have hi := idx.isLt
    rw [generate_texture_loop_step _ _ _ _ (by simp only [u16, Fin.val_mk]; omega),
      ih _ _ _ _ (by simp only [u16, Fin.val_mk]; omega), Function.iterate_succ_apply _ (n + 1)]
    rfl

theorem generate_texture_pass_idx (n : Nat) (p : uint16_t × uint8_t × uint16_t × (uint16_t → uint8_t)) :
    ((generate_texture_pass^[n] p).2.2.1.val : Int) = ((p.2.2.1.val : Int) - n) % 65536 := by
  induction n with
  | zero =>
    have := p.2.2.1.isLt
    simp only [Function.iterate_zero, id_eq]
    omega
  | succ n ih =>
    rw [Function.iterate_succ_apply']
    show ((u16 ((generate_texture_pass^[n] p).2.2.1.val - 1)).val : Int) = _
    rw [u16_val, ih]
    push_cast
    omega

theorem generate_texture_pass_sym (n : Nat) (p : uint16_t × uint8_t × uint16_t × (uint16_t → uint8_t))
    (h : tex_sym p.2.2.2) : tex_sym (generate_texture_pass^[n] p).2.2.2 := by
  induction n with
  | zero => exact h
  | succ n ih =>
    rw [Function.iterate_succ_apply']
    show tex_sym (generate_texture_body _ _ _ _).2.2
    rw [generate_texture_body_tex]
    exact tex_sym_update _ _ _ ih

theorem fill_range (n : Nat) (hn : n ≤ 65536) (t : uint16_t → uint8_t) (k : uint16_t) :
    ((List.range n).foldl (fun texture i =>
        Function.update texture (u16 (i : Nat)) (u8 ((i &&& 0xFF : Nat)))) t) k
      = if k.val < n then u8 ((k.val % 256 : Nat)) else t k := by
  induction n with
  | zero => simp
  | succ n ih =>
    rw [List.range_succ, List.foldl_append, List.foldl_cons, List.foldl_nil]
    have e : (u16 (n : Nat)).val = n := u16_val_self n (by omega)
    by_cases hk : k = u16 (n : Nat)
    · subst hk
      rw [Function.update_same, e, if_pos (by omega)]
      rw [show (0xFF : Nat) = 2 ^ 8 - 1 from rfl, Nat.and_pow_two_sub_one_eq_mod]
    · rw [Function.update_noteq hk, ih (by omega)]
      have hne : k.val ≠ n := fun c => hk (Fin.ext (by rw [e]; exact c))
      by_cases hlt : k.val < n
      · rw [if_pos hlt, if_pos (by omega)]
      · rw [if_neg hlt, if_neg (by omega)]

theorem generate_texture_eq (t0 : uint16_t → uint8_t) :
    generate_texture t0
      = generate_texture_loop 0 0xC9 0 (fun k => u8 ((k.val % 256 : Nat))) := by
  have e : (List.range 65536).foldl (fun texture i =>
        Function.update texture (u16 (i : Nat)) (u8 ((i &&& 0xFF : Nat)))) t0
      = fun k => u8 ((k.val % 256 : Nat)) := by
    funext k
    rw [fill_range 65536 (Nat.le_refl _) t0 k, if_pos k.isLt]
  simp only [generate_texture, e]

theorem tex_sym_fill : tex_sym (fun k => u8 ((k.val % 256 : Nat))) := by
  intro k
  show u8 ((k.val % 256 : Nat)) = u8 (((mirror k).val % 256 : Nat))
  rw [mirror_low]

/-! ## The texture loop of tube.c, pass by pass -/

theorem lo_eq_u8 (x : uint16_t) : u8 (x.val : Int) = lo x := Fin.ext (u8_val_nat x.val)

theorem u8_zx (v : uint8_t) : u8 ((zx v).val : Int) = v := u8_self v

theorem lo_set_hi (x : uint16_t) (v : uint8_t) : lo (set_hi x v) = lo x := by
  apply Fin.ext
  show (v.val * 256 + x.val % 256) % 256 = x.val % 256
  omega

theorem hi_set_hi (x : uint16_t) (v : uint8_t) : hi (set_hi x v) = v := by
  apply Fin.ext
  show (v.val * 256 + x.val % 256) / 256 = v.val
  omega

theorem lo_set_lo (x : uint16_t) (v : uint8_t) : lo (set_lo x v) = v := by
  apply Fin.ext
  have := v.isLt
  show (x.val / 256 * 256 + v.val) % 256 = v.val
  omega

theorem hi_set_lo (x : uint16_t) (v : uint8_t) : hi (set_lo x v) = hi x := by
  apply Fin.ext
  have := v.isLt
  show (x.val / 256 * 256 + v.val) / 256 = x.val / 256
  omega

theorem TEX_body_cx (s : dos_t) : (TEX_body s).cx = s.cx := rfl

theorem TEX_body_ax (s : dos_t) :
    (TEX_body s).ax = (generate_texture_body s.ax (lo s.dx) s.cx s.fsmem).1 := by
  have e1 : (TEX_body s).ax
      = u16 ((((u16 (u32 ((u32 s.ax.val).val + s.cx.val)).val).val <<< ((lo s.cx).val &&& 15))
          ||| ((u16 (u32 ((u32 s.ax.val).val + s.cx.val)).val).val
            >>> (16 - ((lo s.cx).val &&& 15))) : Nat)) := rfl
  have e2 : (generate_texture_body s.ax (lo s.dx) s.cx s.fsmem).1
      = if ((u8 s.cx.val).val &&& 15) ≠ 0 then
          u16 ((((u16 (u32 ((u32 s.ax.val).val + s.cx.val)).val).val
              <<< ((u8 s.cx.val).val &&& 15))
            ||| ((u16 (u32 ((u32 s.ax.val).val + s.cx.val)).val).val
              >>> (16 - ((u8 s.cx.val).val &&& 15))) : Nat))
        else u16 (u32 ((u32 s.ax.val).val + s.cx.val)).val := rfl
  rw [e1, e2, lo_eq_u8]
  split
  · rfl
  · rename_i h
    have h0 : (lo s.cx).val &&& 15 = 0 := by
      by_contra h2
      exact h h2
    rw [h0]
    have hlt := (u16 (u32 ((u32 s.ax.val).val + s.cx.val)).val).isLt
    rw [Nat.shiftLeft_zero, Nat.shiftRight_eq_div_pow, Nat.div_eq_of_lt (show _ < 2 ^ 16 from hlt),
      Nat.or_zero]
    exact u16_self _


theorem reg_get_AL (s : dos_t) : reg_get s AL = zx (lo s.ax) := rfl
theorem reg_get_DL (s : dos_t) : reg_get s DL = zx (lo s.dx) := rfl
theorem reg_get_DH (s : dos_t) : reg_get s DH = zx (hi s.dx) := rfl
theorem reg_get_BH (s : dos_t) : reg_get s BH = zx (hi s.bx) := rfl
theorem reg_get_CX (s : dos_t) : reg_get s CX = s.cx := rfl
theorem reg_get_BX (s : dos_t) : reg_get s BX = s.bx := rfl
theorem reg_set_DL (s : dos_t) (v : uint16_t) :
    reg_set s DL v = { s with dx := set_lo s.dx (u8 v.val) } := rfl
theorem reg_set_DH (s : dos_t) (v : uint16_t) :
    reg_set s DH v = { s with dx := set_hi s.dx (u8 v.val) } := rfl
theorem reg_set_BH (s : dos_t) (v : uint16_t) :
    reg_set s BH v = { s with bx := set_hi s.bx (u8 v.val) } := rfl
theorem reg_set_BX (s : dos_t) (v : uint16_t) : reg_set s BX v = { s with bx := v } := rfl
theorem reg_set_AX (s : dos_t) (v : uint16_t) : reg_set s AX v = { s with ax := v } := rfl
theorem reg_is8_AL : reg_is8 AL = true := rfl
theorem reg_is8_DL : reg_is8 DL = true := rfl
theorem reg_is8_DH : reg_is8 DH = true := rfl
theorem reg_is8_BH : reg_is8 BH = true := rfl
theorem reg_is8_AX : reg_is8 AX = false := rfl

theorem lo_zx (v : uint8_t) : lo (zx v) = v := Fin.ext (Nat.mod_eq_of_lt v.isLt)

theorem TEX_body_dl (s : dos_t) :
    lo (TEX_body s).dx = (generate_texture_body s.ax (lo s.dx) s.cx s.fsmem).2.1 := by
  have e2 : (generate_texture_body s.ax (lo s.dx) s.cx s.fsmem).2.1
      = u8 (((u8 (u16 ((zx (u8 (u16 ((zx (lo s.dx)).val
          + (zx (u8 (i8 (i8 (u8 (generate_texture_body s.ax (lo s.dx) s.cx s.fsmem).1.val).val
              >>> (5 : Nat))))).val
          + Int.land (i8 (u8 (generate_texture_body s.ax (lo s.dx) s.cx s.fsmem).1.val).val
              >>> (4 : Nat)) 1)).val)).val
          + (s.fsmem (u16 (s.cx.val + 255))).val
          + b2i ((u16 ((zx (lo s.dx)).val
          + (zx (u8 (i8 (i8 (u8 (generate_texture_body s.ax (lo s.dx) s.cx s.fsmem).1.val).val
              >>> (5 : Nat))))).val
          + Int.land (i8 (u8 (generate_texture_body s.ax (lo s.dx) s.cx s.fsmem).1.val).val
              >>> (4 : Nat)) 1)).val > 0xFF))).val).val >>> 1 : Nat)) := rfl
  have h5 : ∀ a b : Int, (if (5 : Nat) ≠ 0 then a else b) = a := fun _ _ => rfl
  have h4 : (5 - 1 : Nat) = 4 := rfl
  rw [e2, ← TEX_body_ax]
  simp only [TEX_body, asm_shr, asm_adc_r_m, asm_adc, asm_sar, asm_mov, asm_rol, asm_add,
    asm_mov_m_r, asm_not, reg_is8_AL, reg_is8_DL, reg_is8_DH, reg_is8_BH, reg_is8_AX,
    reg_get_AL, reg_get_DL, reg_get_DH, reg_get_BH, reg_get_CX, reg_get_BX, reg_get_AX,
    reg_set_DL, reg_set_DH, reg_set_BH, reg_set_BX, reg_set_AX, flags8, flags16,
    mem_r8, mem_w8, seg_ptr, seg_store, Bool.false_eq_true,
    if_true, if_false, u8_zx, lo_set_lo, lo_set_hi, hi_set_hi, hi_set_lo, lo_eq_u8, lo_zx, h5, h4]
  simp only [zx_val]

theorem not_hi_eq_mirror (x : uint16_t) :
    set_hi x (u8 (u16 (-((zx (hi x)).val : Int) - 1)).val) = mirror x := by
  apply Fin.ext
  rw [mirror_val, u8_u16]
  have h := u8_val (-((zx (hi x)).val : Int) - 1)
  have hx := x.isLt
  have hv : (zx (hi x)).val = x.val / 256 := rfl
  rw [hv] at h
  show (u8 (-((zx (hi x)).val : Int) - 1)).val * 256 + x.val % 256 = _
  rw [hv]
  generalize (u8 (-((x.val / 256 : Nat) : Int) - 1)).val = w at h ⊢
  omega

theorem TEX_body_fsmem (s : dos_t) :
    (TEX_body s).fsmem = (generate_texture_body s.ax (lo s.dx) s.cx s.fsmem).2.2 := by
  rw [generate_texture_body_tex, ← TEX_body_dl, ← not_hi_eq_mirror]
  simp only [TEX_body, asm_shr, asm_adc_r_m, asm_adc, asm_sar, asm_mov, asm_rol, asm_add,
    asm_mov_m_r, asm_not, reg_is8_AL, reg_is8_DL, reg_is8_DH, reg_is8_BH, reg_is8_AX,
    reg_get_AL, reg_get_DL, reg_get_DH, reg_get_BH, reg_get_CX, reg_get_BX, reg_get_AX,
    reg_set_DL, reg_set_DH, reg_set_BH, reg_set_BX, reg_set_AX, flags8, flags16,
    mem_r8, mem_w8, seg_ptr, seg_store, Bool.false_eq_true,
    if_true, if_false, u8_zx, lo_set_lo, lo_set_hi, hi_set_hi, hi_set_lo, lo_eq_u8, lo_zx]

theorem TEX_body_split (s : dos_t) : TEX_body s = TEX_from_adc (TEX_to_adc s) := rfl

theorem TEX_to_sar_cf (s : dos_t) :
    (TEX_to_sar s).cf = (generate_texture_carry s.ax (lo s.dx) s.cx).1 := by
  have e2 : (generate_texture_carry s.ax (lo s.dx) s.cx).1
      = Int.land (i8 (u8 (generate_texture_body s.ax (lo s.dx) s.cx s.fsmem).1.val).val
          >>> (4 : Nat)) 1 := rfl
  have h5 : ∀ a b : Int, (if (5 : Nat) ≠ 0 then a else b) = a := fun _ _ => rfl
  have h4 : (5 - 1 : Nat) = 4 := rfl
  rw [e2, ← TEX_body_ax]
  simp only [TEX_to_sar, TEX_body, asm_shr, asm_adc_r_m, asm_adc, asm_sar, asm_mov, asm_rol,
    asm_add, asm_mov_m_r, asm_not, reg_is8_AL, reg_is8_DL, reg_is8_DH, reg_is8_BH, reg_is8_AX,
    reg_get_AL, reg_get_DL, reg_get_DH, reg_get_BH, reg_get_CX, reg_get_BX, reg_get_AX,
    reg_set_DL, reg_set_DH, reg_set_BH, reg_set_BX, reg_set_AX, flags8, flags16,
    mem_r8, mem_w8, seg_ptr, seg_store, Bool.false_eq_true,
    if_true, if_false, u8_zx, lo_set_lo, lo_set_hi, hi_set_hi, hi_set_lo, lo_eq_u8, lo_zx, h5, h4]

theorem TEX_to_adc_cf (s : dos_t) :
    (TEX_to_adc s).cf = (generate_texture_carry s.ax (lo s.dx) s.cx).2 := by
  have e2 : (generate_texture_carry s.ax (lo s.dx) s.cx).2
      = b2i ((u16 ((zx (lo s.dx)).val
          + (zx (u8 (i8 (i8 (u8 (generate_texture_body s.ax (lo s.dx) s.cx s.fsmem).1.val).val
              >>> (5 : Nat))))).val
          + Int.land (i8 (u8 (generate_texture_body s.ax (lo s.dx) s.cx s.fsmem).1.val).val
              >>> (4 : Nat)) 1)).val > 0xFF) := rfl
  have h5 : ∀ a b : Int, (if (5 : Nat) ≠ 0 then a else b) = a := fun _ _ => rfl
  have h4 : (5 - 1 : Nat) = 4 := rfl
  rw [e2, ← TEX_body_ax]
  simp only [TEX_to_adc, TEX_to_sar, TEX_body, asm_shr, asm_adc_r_m, asm_adc, asm_sar, asm_mov,
    asm_rol, asm_add, asm_mov_m_r, asm_not, reg_is8_AL, reg_is8_DL, reg_is8_DH, reg_is8_BH,
    reg_is8_AX, reg_get_AL, reg_get_DL, reg_get_DH, reg_get_BH, reg_get_CX, reg_get_BX,
    reg_get_AX, reg_set_DL, reg_set_DH, reg_set_BH, reg_set_BX, reg_set_AX, flags8, flags16,
    mem_r8, mem_w8, seg_ptr, seg_store, Bool.false_eq_true,
    if_true, if_false, u8_zx, lo_set_lo, lo_set_hi, hi_set_hi, hi_set_lo, lo_eq_u8, lo_zx, h5, h4]
  simp only [zx_val]

theorem tex_regs_pass (s : dos_t) : tex_regs (TEX_pass s) = generate_texture_pass (tex_regs s) := by
  have h1 : (TEX_pass s).ax = (TEX_body s).ax := rfl
  have h2 : (TEX_pass s).dx = (TEX_body s).dx := rfl
  have h3 : (TEX_pass s).cx = u16 (s.cx.val - 1) := rfl
  have h4 : (TEX_pass s).fsmem = (TEX_body s).fsmem := rfl
  simp only [tex_regs, generate_texture_pass, h1, h2, h3, h4, TEX_body_ax, TEX_body_dl,
    TEX_body_fsmem]

theorem tex_regs_cx (s : dos_t) : (tex_regs s).2.2.1 = s.cx := rfl

theorem tex_regs_fsmem (s : dos_t) : (tex_regs s).2.2.2 = s.fsmem := rfl

theorem tex_regs_iterate (j : Nat) (s : dos_t) :
    tex_regs (TEX_pass^[j] s) = generate_texture_pass^[j] (tex_regs s) := by
  induction j with
  | zero => rfl
  | succ j ih => rw [Function.iterate_succ_apply', Function.iterate_succ_apply', tex_regs_pass, ih]

theorem TEX_pass_cx_val (s : dos_t) : (TEX_pass s).cx.val = (s.cx.val + 65535) % 65536 := by
  have h : ((TEX_pass s).cx.val : Int) = ((s.cx.val : Int) - 1) % 65536 := u16_val _
  omega

theorem TEX_loop_succ (fuel : Nat) (s : dos_t) :
    TEX_loop (fuel + 1) s
      = if (TEX_pass s).cx.val ≠ 0 then TEX_loop fuel (TEX_pass s) else some (TEX_pass s) := rfl

theorem TEX_loop_some (fuel : Nat) : ∀ s : dos_t, (s.cx.val + 65535) % 65536 < fuel →
    TEX_loop fuel s = some (TEX_pass^[(s.cx.val + 65535) % 65536 + 1] s) := by
  induction fuel with
  | zero => intro s h; omega
  | succ fuel ih =>
    intro s h
    rw [TEX_loop_succ]
    have hc := TEX_pass_cx_val s
    by_cases h0 : (TEX_pass s).cx.val = 0
    · rw [if_neg (not_not.2 h0), ← hc, h0]
      rfl
    · rw [if_pos h0, ih (TEX_pass s) (by omega)]
      have e : ((TEX_pass s).cx.val + 65535) % 65536 + 1 = (s.cx.val + 65535) % 65536 := by
        omega
      rw [e, ← Function.iterate_succ_apply]

theorem TEX_loop_none (fuel : Nat) : ∀ s : dos_t, fuel ≤ (s.cx.val + 65535) % 65536 →
    TEX_loop fuel s = none := by
  induction fuel with
  | zero => intro s _; rfl
  | succ fuel ih =>
    intro s h
    rw [TEX_loop_succ]
    have hc := TEX_pass_cx_val s
    rw [if_pos (by omega)]
    exact ih (TEX_pass s) (by omega)

theorem generate_texture_iterate (t0 : uint16_t → uint8_t) :
    generate_texture t0
      = (generate_texture_pass^[65536] (0, 0xC9, 0, fun k => u8 ((k.val % 256 : Nat)))).2.2.2 := by
  rw [generate_texture_eq]
  have h0 : ((0 : uint16_t).val + 65535) % 65536 = 65535 := by
    rw [show (0 : uint16_t).val = 0 from rfl]
  have h := generate_texture_loop_iterate 65535 0 0xC9 0
    (fun k => u8 ((k.val % 256 : Nat))) h0
  rw [show (65535 + 1 : Nat) = 65536 from rfl] at h
  exact h

/-! ## The palette loop of tube.c, pass by pass -/

theorem reg_get_CL (s : dos_t) : reg_get s CL = zx (lo s.cx) := rfl
theorem reg_get_BL (s : dos_t) : reg_get s BL = zx (lo s.bx) := rfl
theorem reg_set_AL (s : dos_t) (v : uint16_t) :
    reg_set s AL v = { s with ax := set_lo s.ax (u8 v.val) } := rfl
theorem reg_set_DX (s : dos_t) (v : uint16_t) : reg_set s DX v = { s with dx := v } := rfl
theorem reg_is8_DX : reg_is8 DX = false := rfl
theorem reg_is8_BL : reg_is8 BL = true := rfl
theorem reg_is8_CL : reg_is8 CL = true := rfl

set_option maxRecDepth 100000 in
theorem sar1_sf (i : uint8_t) :
    (((u8 (i8 (i8 (i.val : Int) >>> (1 : Nat)))).val >>> 7) &&& 1 : Nat)
      = if i.val < 128 then 0 else 1 := by
  revert i
  decide

theorem dx_inc : u16 (((968 : uint16_t).val : Int) + 1) = 969 := rfl

theorem asm_out_3c8_mk (s : dos_t) (i : uint8_t) :
    asm_out s 968 i = some { s with pal_widx := ((i.val * 3 : Nat) : Int) } := by
  rw [asm_out_select]
  simp only [Nat.cast_mul, Nat.cast_ofNat]

theorem asm_out_3c9_mk (ax bx cx dx si di bp sp : uint16_t) (cf zf sf of : Int)
    (mem vga fsmem : uint16_t → uint8_t) (pal : Fin 768 → uint8_t) (n : Nat) (ridx : Int)
    (fpu : Fin 8 → Float) (top : Int) (v : uint8_t) (hn : n < 768) :
    asm_out ⟨ax, bx, cx, dx, si, di, bp, sp, cf, zf, sf, of, mem, vga, fsmem, pal, (n : Int),
        ridx, fpu, top⟩ 969 v
      = some ⟨ax, bx, cx, dx, si, di, bp, sp, cf, zf, sf, of, mem, vga, fsmem,
          Function.update pal ⟨n, hn⟩ (u8 ((v.val &&& 0x3F : Nat))),
          (((n + 1) % 768 : Nat) : Int), ridx, fpu, top⟩ :=
  asm_out_data _ v ⟨n, hn⟩ rfl

set_option maxRecDepth 100000 in
theorem shr6_sf (x : uint8_t) :
    (((u16 (((u16 ((zx x).val * x.val)).val >>> 6 : Nat))).val >>> 15) &&& 1 : Nat) = 0 := by
  revert x
  decide

theorem update3_eq (p : Fin 768 → uint8_t) (i : Nat) (n0 n1 n2 : Fin 768)
    (e0 : n0.val = i * 3) (e1 : n1.val = i * 3 + 1) (e2 : n2.val = i * 3 + 2)
    (a b c : uint8_t) (ha : a = u8 ((palette_spec i 0 : Nat)))
    (hb : b = u8 ((palette_spec i 1 : Nat))) (hc : c = u8 ((palette_spec i 2 : Nat)))
    (j : Fin 768) :
    Function.update (Function.update (Function.update p n0 a) n1 b) n2 c j
      = if j.val / 3 = i then palette_byte j else p j := by
  subst ha hb hc
  simp only [Function.update_apply, Fin.ext_iff, e0, e1, e2, palette_byte]
  by_cases h2 : j.val = i * 3 + 2
  · rw [if_pos h2, if_pos (by omega), show j.val / 3 = i by omega, show j.val % 3 = 2 by omega]
  · rw [if_neg h2]
    by_cases h1 : j.val = i * 3 + 1
    · rw [if_pos h1, if_pos (by omega), show j.val / 3 = i by omega,
        show j.val % 3 = 1 by omega]
    · rw [if_neg h1]
      by_cases h0 : j.val = i * 3
      · rw [if_pos h0, if_pos (by omega), show j.val / 3 = i by omega,
          show j.val % 3 = 0 by omega]
      · rw [if_neg h0, if_neg (by omega)]

set_option maxRecDepth 100000 in
theorem PAL1_body_lo (s : dos_t) (hi : (lo s.cx).val < 128) :
    ∃ t, PAL1_body s = some t ∧ t.cx = s.cx ∧ t.dx = 969
      ∧ t.fsmem = Function.update s.fsmem s.cx (lo s.cx)
      ∧ (∀ j : Fin 768, t.pal j
          = if j.val / 3 = (lo s.cx).val then palette_byte j else s.pal j)
      ∧ t.ax = 0 := by
  have h1 : ∀ a b : Int, (if (1 : Nat) ≠ 0 then a else b) = a := fun _ _ => rfl
  have h6 : ∀ a b : Int, (if (6 : Nat) ≠ 0 then a else b) = a := fun _ _ => rfl
  have hb := (lo s.cx).isLt
  have e : PAL1_body s = PAL1_body s := rfl
  conv at e =>
    rhs
    simp (disch := omega) only [PAL1_body, asm_mov_i, asm_mov, asm_inc, asm_sar, asm_mul,
      asm_shr, asm_sub,
      asm_mov_m_r, reg_is8_AL, reg_is8_DX, reg_is8_AX, reg_is8_BL, reg_is8_CL,
      reg_get_AL, reg_get_AX, reg_get_DX, reg_get_CX, reg_get_CL, reg_get_BL, reg_get_BX,
      reg_set_AL, reg_set_AX, reg_set_DX, reg_set_BX, flags8, flags16, mem_w8, seg_store,
      Bool.false_eq_true, if_true, if_false, u8_zx, lo_set_lo, lo_set_hi, hi_set_hi, hi_set_lo,
      lo_eq_u8, lo_zx, asm_out_3c8_mk, asm_out_3c9_mk, Option.some_bind, dx_inc, h1, h6,
      sar1_sf, shr6_sf, hi, Nat.cast_zero, ne_eq, not_true_eq_false]
  refine ⟨_, e, rfl, rfl, rfl, fun j => ?_, ?_⟩
  · clear e h1 h6
    refine update3_eq s.pal (lo s.cx).val _ _ _ rfl ?_ ?_ _ _ _ ?_ ?_ ?_ j
    · simp only [Fin.val_mk]
      omega
    · simp only [Fin.val_mk]
      omega
    · clear hb
      generalize lo s.cx = i at hi ⊢
      revert i
      decide
    · clear hb
      generalize lo s.cx = i at hi ⊢
      revert i
      decide
    · clear hb
      generalize lo s.cx = i at hi ⊢
      revert i
      decide
  · clear e h1 h6 hb
    show set_lo _ _ = 0
    generalize lo s.cx = i at hi ⊢
    revert i
    decide

set_option maxRecDepth 100000 in
theorem PAL1_body_hi (s : dos_t) (hi : ¬ (lo s.cx).val < 128) :
    ∃ t, PAL1_body s = some t ∧ t.cx = s.cx ∧ t.dx = 969
      ∧ t.fsmem = Function.update s.fsmem s.cx (lo s.cx)
      ∧ (∀ j : Fin 768, t.pal j
          = if j.val / 3 = (lo s.cx).val then palette_byte j else s.pal j) := by
  have h1 : ∀ a b : Int, (if (1 : Nat) ≠ 0 then a else b) = a := fun _ _ => rfl
  have h6 : ∀ a b : Int, (if (6 : Nat) ≠ 0 then a else b) = a := fun _ _ => rfl
  have hb := (lo s.cx).isLt
  have e : PAL1_body s = PAL1_body s := rfl
  conv at e =>
    rhs
    simp (disch := omega) only [PAL1_body, asm_mov_i, asm_mov, asm_inc, asm_sar, asm_mul,
      asm_shr, asm_sub,
      asm_mov_m_r, reg_is8_AL, reg_is8_DX, reg_is8_AX, reg_is8_BL, reg_is8_CL,
      reg_get_AL, reg_get_AX, reg_get_DX, reg_get_CX, reg_get_CL, reg_get_BL, reg_get_BX,
      reg_set_AL, reg_set_AX, reg_set_DX, reg_set_BX, flags8, flags16, mem_w8, seg_store,
      Bool.false_eq_true, if_true, if_false, u8_zx, lo_set_lo, lo_set_hi, hi_set_hi, hi_set_lo,
      lo_eq_u8, lo_zx, asm_out_3c8_mk, asm_out_3c9_mk, Option.some_bind, dx_inc, h1, h6,
      sar1_sf, shr6_sf, hi, Nat.cast_zero, Nat.cast_one, ne_eq, not_true_eq_false,
      one_ne_zero, not_false_eq_true]
  refine ⟨_, e, rfl, rfl, rfl, fun j => ?_⟩
  clear e h1 h6
  refine update3_eq s.pal (lo s.cx).val _ _ _ rfl ?_ ?_ _ _ _ ?_ ?_ ?_ j
  · simp only [Fin.val_mk]
    omega
  · simp only [Fin.val_mk]
    omega
  · clear hb
    generalize lo s.cx = i at hi ⊢
    revert i
    decide
  · clear hb
    generalize lo s.cx = i at hi ⊢
    revert i
    decide
  · clear hb
    generalize lo s.cx = i at hi ⊢
    revert i
    decide

theorem PAL1_body_some (s : dos_t) :
    ∃ t, PAL1_body s = some t ∧ t.cx = s.cx ∧ t.dx = 969
      ∧ t.fsmem = Function.update s.fsmem s.cx (lo s.cx)
      ∧ (∀ j : Fin 768, t.pal j
          = if j.val / 3 = (lo s.cx).val then palette_byte j else s.pal j)
      ∧ ((lo s.cx).val < 128 → t.ax = 0) := by
  by_cases hi : (lo s.cx).val < 128
  · obtain ⟨t, e, h1, h2, h3, h4, h5⟩ := PAL1_body_lo s hi
    exact ⟨t, e, h1, h2, h3, h4, fun _ => h5⟩
  · obtain ⟨t, e, h1, h2, h3, h4⟩ := PAL1_body_hi s hi
    exact ⟨t, e, h1, h2, h3, h4, fun h => absurd h hi⟩

theorem PAL1_loop_succ (fuel : Nat) (s : dos_t) :
    PAL1_loop (fuel + 1) s
      = (PAL1_body s).bind fun t =>
          if (u16 (t.cx.val - 1)).val ≠ 0 then
            PAL1_loop fuel { t with cx := u16 (t.cx.val - 1) }
          else some { t with cx := u16 (t.cx.val - 1) } := rfl

theorem u16_pred_val (c : uint16_t) : (u16 (c.val - 1)).val = (c.val + 65535) % 65536 := by
  have h : ((u16 (c.val - 1)).val : Int) = ((c.val : Int) - 1) % 65536 := u16_val _
  omega

theorem PAL1_loop_inv (fuel : Nat) : ∀ s : dos_t, (s.cx.val + 65535) % 65536 < fuel →
    ∃ t, PAL1_loop fuel s = some t ∧ t.cx = 0 ∧ t.dx = 969 ∧ t.ax = 0
      ∧ (∀ k : uint16_t, t.fsmem k
          = if s.cx.val = 0 ∨ (1 ≤ k.val ∧ k.val ≤ s.cx.val) then lo k else s.fsmem k)
      ∧ (∀ j : Fin 768, t.pal j
          = if s.cx.val = 0 ∨ 256 ≤ s.cx.val ∨ (1 ≤ j.val / 3 ∧ j.val / 3 ≤ s.cx.val)
            then palette_byte j else s.pal j) := by
  induction fuel with
  | zero => intro s h; omega
  | succ fuel ih =>
    intro s h
    obtain ⟨t1, e1, hcx, hdx, hfs, hpal, hax⟩ := PAL1_body_some s
    have hn := u16_pred_val t1.cx
    have hcv : t1.cx.val = s.cx.val := congrArg Fin.val hcx
    have hlo : (lo s.cx).val = s.cx.val % 256 := rfl
    have hc := s.cx.isLt
    rw [PAL1_loop_succ, e1, Option.some_bind]
    generalize u16 (t1.cx.val - 1) = N at hn ⊢
    by_cases h0 : N.val = 0
    · rw [if_neg (not_not.2 h0)]
      refine ⟨_, rfl, Fin.ext h0, hdx, hax (by omega), fun k => ?_, fun j => ?_⟩
      · show t1.fsmem k = _
        rw [hfs, Function.update_apply]
        by_cases hk : k = s.cx
        · have hkv : k.val = s.cx.val := congrArg Fin.val hk
          rw [if_pos hk,
            if_pos (show s.cx.val = 0 ∨ (1 ≤ k.val ∧ k.val ≤ s.cx.val) by omega), hk]
        · have hk2 : k.val ≠ s.cx.val := fun h => hk (Fin.ext h)
          rw [if_neg hk,
            if_neg (show ¬ (s.cx.val = 0 ∨ (1 ≤ k.val ∧ k.val ≤ s.cx.val)) by omega)]
      · show t1.pal j = _
        rw [hpal]
        have hj := j.isLt
        by_cases hq : j.val / 3 = (lo s.cx).val
        · rw [if_pos hq, if_pos (show s.cx.val = 0 ∨ 256 ≤ s.cx.val
            ∨ (1 ≤ j.val / 3 ∧ j.val / 3 ≤ s.cx.val) by omega)]
        · rw [if_neg hq, if_neg (show ¬ (s.cx.val = 0 ∨ 256 ≤ s.cx.val
            ∨ (1 ≤ j.val / 3 ∧ j.val / 3 ≤ s.cx.val)) by omega)]
    · rw [if_pos h0]
      obtain ⟨t, e, h1, h2, h3, h4, h5⟩ := ih { t1 with cx := N } (by
        show (N.val + 65535) % 65536 < fuel
        omega)
      refine ⟨t, e, h1, h2, h3, fun k => ?_, fun j => ?_⟩
      · rw [h4]
        show (if N.val = 0 ∨ (1 ≤ k.val ∧ k.val ≤ N.val) then lo k else t1.fsmem k) = _
        rw [hfs, Function.update_apply]
        by_cases hk : k = s.cx
        · have hkv : k.val = s.cx.val := congrArg Fin.val hk
          rw [if_pos hk,
            if_pos (show s.cx.val = 0 ∨ (1 ≤ k.val ∧ k.val ≤ s.cx.val) by omega), ← hk]
          exact ite_self _
        · have hk2 : k.val ≠ s.cx.val := fun h => hk (Fin.ext h)
          have hkl := k.isLt
          rw [if_neg hk]
          by_cases hv : s.cx.val = 0 ∨ (1 ≤ k.val ∧ k.val ≤ s.cx.val)
          · rw [if_pos hv, if_pos (show N.val = 0 ∨ (1 ≤ k.val ∧ k.val ≤ N.val) by omega)]
          · rw [if_neg hv,
              if_neg (show ¬ (N.val = 0 ∨ (1 ≤ k.val ∧ k.val ≤ N.val)) by omega)]
      · rw [h5]
        show (if N.val = 0 ∨ 256 ≤ N.val ∨ (1 ≤ j.val / 3 ∧ j.val / 3 ≤ N.val)
            then palette_byte j else t1.pal j) = _
        rw [hpal]
        have hj := j.isLt
        by_cases hv : s.cx.val = 0 ∨ 256 ≤ s.cx.val ∨ (1 ≤ j.val / 3 ∧ j.val / 3 ≤ s.cx.val)
        · rw [if_pos hv]
          by_cases hw : N.val = 0 ∨ 256 ≤ N.val ∨ (1 ≤ j.val / 3 ∧ j.val / 3 ≤ N.val)
          · rw [if_pos hw]
          · rw [if_neg hw, if_pos (show j.val / 3 = (lo s.cx).val by omega)]
        · rw [if_neg hv,
            if_neg (show ¬ (N.val = 0 ∨ 256 ≤ N.val
              ∨ (1 ≤ j.val / 3 ∧ j.val / 3 ≤ N.val)) by omega),
            if_neg (show ¬ j.val / 3 = (lo s.cx).val by omega)]

theorem PAL1_loop_none (fuel : Nat) : ∀ s : dos_t, fuel ≤ (s.cx.val + 65535) % 65536 →
    PAL1_loop fuel s = none := by
  induction fuel with
  | zero => intro s _; rfl
  | succ fuel ih =>
    intro s h
    obtain ⟨t1, e1, hcx, _⟩ := PAL1_body_some s
    have hn := u16_pred_val t1.cx
    have hcv : t1.cx.val = s.cx.val := congrArg Fin.val hcx
    rw [PAL1_loop_succ, e1, Option.some_bind]
    generalize u16 (t1.cx.val - 1) = N at hn ⊢
    rw [if_pos (show N.val ≠ 0 by omega)]
    apply ih
    show fuel ≤ (N.val + 65535) % 65536
    omega

theorem PAL1_loop_mono (fuel : Nat) : ∀ (s t : dos_t), PAL1_loop fuel s = some t →
    PAL1_loop (fuel + 1) s = some t := by
  induction fuel with
  | zero => intro s t h; exact absurd h (by simp [PAL1_loop])
  | succ fuel ih =>
    intro s t h
    rw [PAL1_loop_succ] at h ⊢
    cases hb : PAL1_body s with
    | none => rw [hb] at h; exact absurd h (by simp)
    | some t1 =>
      rw [hb, Option.some_bind] at h
      rw [Option.some_bind]
      by_cases h0 : (u16 (t1.cx.val - 1)).val ≠ 0
      · rw [if_pos h0] at h ⊢
        exact ih _ _ h
      · rw [if_neg h0] at h ⊢
        exact h

theorem PAL1_loop_mono_le (fuel n : Nat) (s t : dos_t) (h : PAL1_loop fuel s = some t)
    (hn : fuel ≤ n) : PAL1_loop n s = some t := by
  induction n, hn using Nat.le_induction with
  | base => exact h
  | succ n _ ih => exact PAL1_loop_mono n s t ih

theorem foldl_update3 (f : (Fin 768 → uint8_t) → Fin 256 → (Fin 768 → uint8_t))
    (l : List (Fin 256))
    (hf : ∀ p i j, i ∈ l → f p i j = if j.val / 3 = i.val then palette_byte j else p j)
    (p : Fin 768 → uint8_t) (j : Fin 768) :
    List.foldl f p l j = if (∃ i ∈ l, j.val / 3 = i.val) then palette_byte j else p j := by
  induction l generalizing p with
  | nil => simp
  | cons a l ih =>
    rw [List.foldl_cons, ih (fun p i j hi => hf p i j (List.mem_cons_of_mem _ hi)),
      hf p a j (List.mem_cons_self _ _)]
    by_cases h1 : ∃ i ∈ l, j.val / 3 = i.val
    · rw [if_pos h1, if_pos]
      obtain ⟨i, hi, e⟩ := h1
      exact ⟨i, List.mem_cons_of_mem _ hi, e⟩
    · rw [if_neg h1]
      by_cases h2 : j.val / 3 = a.val
      · rw [if_pos h2, if_pos ⟨a, List.mem_cons_self _ _, h2⟩]
      · rw [if_neg h2, if_neg]
        rintro ⟨i, hi, e⟩
        rcases List.mem_cons.1 hi with rfl | hi
        · exact h2 e
        · exact h1 ⟨i, hi, e⟩

theorem mem_take_128 (i : Fin 256) (h : i ∈ (List.finRange 256).take 128) : i.val < 128 := by
  obtain ⟨n, hn⟩ := List.mem_iff_getElem?.1 h
  rw [List.getElem?_take] at hn
  by_cases hlt : n < 128
  · rw [if_pos hlt, finRange_getElem? 256 n (by omega)] at hn
    have := congrArg Fin.val (Option.some.inj hn)
    simp only [Fin.val_mk] at this
    omega
  · rw [if_neg hlt] at hn
    exact absurd hn (by simp)

theorem mem_drop_128 (i : Fin 256) (h : i ∈ (List.finRange 256).drop 128) : 128 ≤ i.val := by
  obtain ⟨n, hn⟩ := List.mem_iff_getElem?.1 h
  rw [List.getElem?_drop] at hn
  by_cases hlt : 128 + n < 256
  · rw [finRange_getElem? 256 (128 + n) hlt] at hn
    have := congrArg Fin.val (Option.some.inj hn)
    simp only [Fin.val_mk] at this
    omega
  · rw [List.getElem?_eq_none (by simp; omega)] at hn
    exact absurd hn (by simp)

set_option maxRecDepth 100000 in
theorem palette_lo_vals : ∀ i : Fin 256, i.val < 128 →
    u8 ((i.val / 2 : Nat)) = u8 ((palette_spec i.val 0 : Nat))
    ∧ u8 ((((u8 ((i.val / 2 : Nat))).val * (u8 ((i.val / 2 : Nat))).val) >>> 6 : Nat))
        = u8 ((palette_spec i.val 1 : Nat))
    ∧ (0 : uint8_t) = u8 ((palette_spec i.val 2 : Nat)) := by
  decide

set_option maxRecDepth 100000 in
theorem palette_hi_vals : ∀ i : Fin 256, 128 ≤ i.val →
    (0 : uint8_t) = u8 ((palette_spec i.val 0 : Nat))
    ∧ u8 ((((u8 (256 - (i.val : Int))).val >>> 1) &&& 0x3F : Nat))
        = u8 ((palette_spec i.val 1 : Nat))
    ∧ u8 ((((u8 (256 - (i.val : Int))).val >>> 2) &&& 0x3F : Nat))
        = u8 ((palette_spec i.val 2 : Nat)) := by
  decide

theorem generate_palette_eq (p0 : Fin 768 → uint8_t) (j : Fin 768) :
    generate_palette p0 j = palette_byte j := by
  have hj := j.isLt
  simp only [generate_palette]
  refine Eq.trans (foldl_update3 _ _ ?_ _ j) ?_
  · intro p i j hi
    have h := palette_hi_vals i (mem_drop_128 i hi)
    exact update3_eq p i.val _ _ _ rfl rfl rfl _ _ _ h.1 h.2.1 h.2.2 j
  · by_cases h1 : ∃ i ∈ (List.finRange 256).drop 128, j.val / 3 = i.val
    · rw [if_pos h1]
    · rw [if_neg h1]
      refine Eq.trans (foldl_update3 _ _ ?_ _ j) ?_
      · intro p i j hi
        have h := palette_lo_vals i (mem_take_128 i hi)
        exact update3_eq p i.val _ _ _ rfl rfl rfl _ _ _ h.1 h.2.1 h.2.2 j
      · rw [if_pos]
        have hm : (⟨j.val / 3, by omega⟩ : Fin 256) ∈ List.finRange 256 := List.mem_finRange _
        rw [← List.take_append_drop 128 (List.finRange 256), List.mem_append] at hm
        rcases hm with hm | hm
        · exact ⟨_, hm, rfl⟩
        · exact absurd ⟨_, hm, rfl⟩ h1

theorem palette_byte_val (i c : Nat) (hi : i < 256) (hc : c < 3) :
    (palette_byte ⟨i * 3 + c, by omega⟩).val = palette_spec i c := by
  have e1 : (i * 3 + c) / 3 = i := by omega
  have e2 : (i * 3 + c) % 3 = c := by omega
  show (u8 ((palette_spec ((i * 3 + c) / 3) ((i * 3 + c) % 3) : Nat))).val = _
  rw [e1, e2, u8_val_nat]
  apply Nat.mod_eq_of_lt
  unfold palette_spec
  have h3 : ∀ n : Nat, n &&& 0x3F < 256 := fun n =>
    Nat.lt_of_le_of_lt Nat.and_le_right (by decide)
  have hq : i / 2 * (i / 2) / 64 < 256 := by
    have : i / 2 ≤ 127 := by omega
    have : i / 2 * (i / 2) ≤ 127 * 127 := Nat.mul_le_mul this this
    omega
  split_ifs <;> first | omega | exact h3 _

/-! ## Round to nearest, ties to even -/

/-- C1: for `asm_add` (carry-in 0) and `asm_adc` (carry-in the incoming CF, 0 or 1) on a
destination of width `w`, with `a` the old destination and `b` the source reduced mod `2^w`,
the new destination `r` and new CF satisfy `r + 2^w * CF = a + b + c` exactly, CF is 1 iff
`a + b + c > 2^w - 1`, ZF is 1 iff `r = 0` and SF is the top bit of `r`.  The 8-bit
addition `0xFF + 0xFF` gives `0xFE`, CF = 1, ZF = 0, SF = 1. -/
theorem asm_add_adc_exact (s : dos_t) (d src : reg_t) :
    add_post (width d) (reg_get s d).val ((reg_get s src).val % 2 ^ width d) 0
        (reg_get (asm_add s d src) d).val (asm_add s d src)
    ∧ (s.cf = 0 ∨ s.cf = 1 →
        add_post (width d) (reg_get s d).val ((reg_get s src).val % 2 ^ width d) s.cf
          (reg_get (asm_adc s d src) d).val (asm_adc s d src))
    ∧ ((reg_get (asm_add { dos_zero with ax := 0x00FF, bx := 0x00FF } AL BL) AL).val = 0xFE
        ∧ (asm_add { dos_zero with ax := 0x00FF, bx := 0x00FF } AL BL).cf = 1
        ∧ (asm_add { dos_zero with ax := 0x00FF, bx := 0x00FF } AL BL).zf = 0
        ∧ (asm_add { dos_zero with ax := 0x00FF, bx := 0x00FF } AL BL).sf = 1) := by
  have hd := (reg_get s d).isLt
  have hs := (reg_get s src).isLt
  refine ⟨?_, ?_, by decide⟩
  · cases h : reg_is8 d
    · simp only [add_post, zs_post, asm_add, h, width, reg_get_flags16, reg_get_reg_set_same16,
        flags16_cf, flags16_zf, flags16_sf, b2i, Bool.false_eq_true, if_false, u16, u32,
        decide_eq_true_eq, Fin.val_mk, beq_iff_eq, Nat.reducePow, Int.reducePow, Nat.reduceSub]
      and_intros <;> (try split_ifs) <;> omega
    · have h8 := reg_get_lt_of_is8 s d h
      simp only [add_post, zs_post, asm_add, h, width, reg_get_flags8, flags8_cf, flags8_zf,
        flags8_sf, b2i, if_true, reg_get_reg_set_same8 _ _ _ h, u8, u16, zx, decide_eq_true_eq,
        Fin.val_mk, beq_iff_eq, Nat.reducePow, Int.reducePow, Nat.reduceSub]
      and_intros <;> (try split_ifs) <;> omega
  · intro hcf
    cases h : reg_is8 d
    · simp only [add_post, zs_post, asm_adc, h, width, reg_get_flags16, reg_get_reg_set_same16,
        flags16_cf, flags16_zf, flags16_sf, b2i, Bool.false_eq_true, if_false, u16, u32,
        decide_eq_true_eq, Fin.val_mk, beq_iff_eq, Nat.reducePow, Int.reducePow, Nat.reduceSub]
      and_intros <;> (try split_ifs) <;> omega
    · have h8 := reg_get_lt_of_is8 s d h
      simp only [add_post, zs_post, asm_adc, h, width, reg_get_flags8, flags8_cf, flags8_zf,
        flags8_sf, b2i, if_true, reg_get_reg_set_same8 _ _ _ h, u8, u16, zx, decide_eq_true_eq,
        Fin.val_mk, beq_iff_eq, Nat.reducePow, Int.reducePow, Nat.reduceSub]
      and_intros <;> (try split_ifs) <;> omega

/-- Witness for C1: `adc al, bl` with AL = BL = 0xFF and CF = 1 meets the postcondition
with carry-in 1 (the sum is 0x1FF). -/
theorem asm_add_adc_exact_witness :
    ({ dos_zero with ax := 0x00FF, bx := 0x00FF, cf := 1 } : dos_t).cf = 1
    ∧ add_post 8 0xFF 0xFF 1
        (reg_get (asm_adc { dos_zero with ax := 0x00FF, bx := 0x00FF, cf := 1 } AL BL) AL).val
        (asm_adc { dos_zero with ax := 0x00FF, bx := 0x00FF, cf := 1 } AL BL) :=
  ⟨rfl, (asm_add_adc_exact { dos_zero with ax := 0x00FF, bx := 0x00FF, cf := 1 } AL BL).2.1
    (Or.inr rfl)⟩

/-! ## Subtraction and comparison -/

/-- C2: for `asm_sub` on a destination of width `w`, with `a` the old destination and `b` the
source reduced mod `2^w`, the new destination is `(a - b) mod 2^w`, CF is 1 iff `a < b`
(unsigned borrow), ZF is 1 iff the result is 0 and SF is the top bit of the result.  The
8-bit subtraction `0x00 - 0x01` gives `0xFF`, CF = 1, SF = 1. -/
theorem asm_sub_borrow (s : dos_t) (d src : reg_t) :
    sub_post (width d) (reg_get s d).val ((reg_get s src).val % 2 ^ width d)
        (reg_get (asm_sub s d src) d).val (asm_sub s d src)
    ∧ ((reg_get (asm_sub { dos_zero with ax := 0x0000, bx := 0x0001 } AL BL) AL).val = 0xFF
        ∧ (asm_sub { dos_zero with ax := 0x0000, bx := 0x0001 } AL BL).cf = 1
        ∧ (asm_sub { dos_zero with ax := 0x0000, bx := 0x0001 } AL BL).sf = 1) := by
  have hd := (reg_get s d).isLt
  have hs := (reg_get s src).isLt
  refine ⟨?_, by decide⟩
  cases h : reg_is8 d
  · simp only [sub_post, zs_post, asm_sub, h, width, reg_get_flags16, reg_get_reg_set_same16,
      flags16_cf, flags16_zf, flags16_sf, b2i, Bool.false_eq_true, if_false, u16, u32,
      decide_eq_true_eq, Fin.val_mk, beq_iff_eq, Nat.reducePow, Int.reducePow, Nat.reduceSub]
    and_intros <;> (try split_ifs) <;> omega
  · have h8 := reg_get_lt_of_is8 s d h
    simp only [sub_post, zs_post, asm_sub, h, width, reg_get_flags8, flags8_cf, flags8_zf,
      flags8_sf, b2i, if_true, reg_get_reg_set_same8 _ _ _ h, u8, u16, zx, decide_eq_true_eq,
      Fin.val_mk, beq_iff_eq, Nat.reducePow, Int.reducePow, Nat.reduceSub]
    and_intros <;> (try split_ifs) <;> omega

/-- C3: `asm_cmp(a, b)` is the state `s` with exactly CF, ZF and SF replaced by the values
`asm_sub(a, b)` computes on `s`; registers (including `a`), memory, palette and FPU are those
of `s`.  `asm_cmp_i(a, v)` likewise changes only CF, ZF and SF, sets them to those of the
subtraction `a - v` (`v` reduced to the width of `a`), and coincides with the flags of
`asm_sub(a, b)` whenever a register `b` holds `v`. -/
theorem asm_cmp_flags_of_sub (s : dos_t) (a b : reg_t) (v : uint16_t) :
    asm_cmp s a b = with_czs s (asm_sub s a b)
    ∧ asm_cmp_i s a v = with_czs s (asm_cmp_i s a v)
    ∧ sub_post (width a) (reg_get s a).val (v.val % 2 ^ width a)
        (((reg_get s a).val - (v.val : Int) % 2 ^ width a) % 2 ^ width a) (asm_cmp_i s a v)
    ∧ (reg_get s b = v → asm_cmp_i s a v = with_czs s (asm_sub s a b)) := by
  have hd := (reg_get s a).isLt
  have hv := v.isLt
  refine ⟨asm_cmp_eq_with_czs s a b, ?_, ?_, ?_⟩
  · cases h : reg_is8 a
    · simp only [asm_cmp_i, h, with_czs, Bool.false_eq_true, if_false]; rfl
    · simp only [asm_cmp_i, h, with_czs, if_true]; rfl
  · cases h : reg_is8 a
    · simp only [sub_post, zs_post, asm_cmp_i, h, width, flags16_cf, flags16_zf, flags16_sf, b2i,
        Bool.false_eq_true, if_false, u16, decide_eq_true_eq, Fin.val_mk, beq_iff_eq,
        Nat.reducePow, Int.reducePow, Nat.reduceSub]
      and_intros <;> (try split_ifs) <;> first | trivial | omega
    · have h8 := reg_get_lt_of_is8 s a h
      simp only [sub_post, zs_post, asm_cmp_i, h, width, flags8_cf, flags8_zf, flags8_sf, b2i,
        if_true, u8, decide_eq_true_eq, Fin.val_mk, beq_iff_eq,
        Nat.reducePow, Int.reducePow, Nat.reduceSub]
      and_intros <;> (try split_ifs) <;> first | trivial | omega
  · intro hb
    rw [asm_cmp_i_eq_asm_cmp s a b v hb]
    exact asm_cmp_eq_with_czs s a b

/-- Witness for C3: with AX = 5 and BX = 7, `cmp ax, 7` sets the flags `sub ax, bx` would. -/
theorem asm_cmp_flags_of_sub_witness :
    reg_get { dos_zero with ax := 5, bx := 7 } BX = 7
    ∧ asm_cmp_i { dos_zero with ax := 5, bx := 7 } AX 7
        = with_czs { dos_zero with ax := 5, bx := 7 }
            (asm_sub { dos_zero with ax := 5, bx := 7 } AX BX) :=
  ⟨rfl, (asm_cmp_flags_of_sub { dos_zero with ax := 5, bx := 7 } AX BX 7).2.2.2 rfl⟩

/-! ## Increment and decrement -/

/-- C4: `asm_inc` sets the register to `(r + 1) mod 2^w` and `asm_dec` to `(r - 1) mod 2^w`;
both set ZF to 1 iff the new value is 0 and SF to its top bit, leave CF as it was, and leave
every register that shares no storage with `r` unchanged (for an 8-bit register, the other
half of its 16-bit register).  `inc` of an 8-bit register holding 0xFF with CF = 1 yields
0x00, ZF = 1, CF = 1. -/
theorem asm_inc_dec_keep_carry (s : dos_t) (r : reg_t) :
    ((reg_get (asm_inc s r) r).val = ((reg_get s r).val + 1) % 2 ^ width r
      ∧ zs_post (width r) (reg_get (asm_inc s r) r).val (asm_inc s r)
      ∧ (asm_inc s r).cf = s.cf
      ∧ ∀ x, overlaps r x = false → reg_get (asm_inc s r) x = reg_get s x)
    ∧ ((reg_get (asm_dec s r) r).val = ((reg_get s r).val + 2 ^ width r - 1) % 2 ^ width r
      ∧ zs_post (width r) (reg_get (asm_dec s r) r).val (asm_dec s r)
      ∧ (asm_dec s r).cf = s.cf
      ∧ ∀ x, overlaps r x = false → reg_get (asm_dec s r) x = reg_get s x)
    ∧ ((reg_get (asm_inc { dos_zero with ax := 0x12FF, cf := 1 } AL) AL).val = 0x00
      ∧ (asm_inc { dos_zero with ax := 0x12FF, cf := 1 } AL).zf = 1
      ∧ (asm_inc { dos_zero with ax := 0x12FF, cf := 1 } AL).cf = 1
      ∧ (reg_get (asm_inc { dos_zero with ax := 0x12FF, cf := 1 } AL) AH).val = 0x12) := by
  have hd := (reg_get s r).isLt
  refine ⟨?_, ?_, by decide⟩
  · cases h : reg_is8 r
    · simp only [asm_inc, h, Bool.false_eq_true, if_false, reg_get_set_zs]
      simp only [zs_post, width, h, Bool.false_eq_true, if_false,
        reg_get_reg_set_same16, reg_set_cf, u16, Fin.val_mk, b2i, beq_iff_eq,
        Nat.shiftRight_eq_div_pow, Nat.and_one_is_mod, Nat.reducePow, Nat.reduceSub]
      refine ⟨?_, ?_, ?_, fun x hx => reg_get_reg_set_other _ _ _ _ hx⟩
      · omega
      · and_intros <;> (try split_ifs) <;> omega
      · trivial
    · have h8 := reg_get_lt_of_is8 s r h
      simp only [asm_inc, h, if_true, reg_get_set_zs]
      simp only [zs_post, width, h, if_true,
        reg_get_reg_set_same8 _ _ _ h, reg_set_cf, u16, u8, Fin.val_mk, b2i, beq_iff_eq,
        Nat.shiftRight_eq_div_pow, Nat.and_one_is_mod, Nat.reducePow, Nat.reduceSub]
      refine ⟨?_, ?_, ?_, fun x hx => reg_get_reg_set_other _ _ _ _ hx⟩
      · omega
      · and_intros <;> (try split_ifs) <;> omega
      · trivial
  · cases h : reg_is8 r
    · simp only [asm_dec, h, Bool.false_eq_true, if_false, reg_get_set_zs]
      simp only [zs_post, width, h, Bool.false_eq_true, if_false,
        reg_get_reg_set_same16, reg_set_cf, u16, Fin.val_mk, b2i, beq_iff_eq,
        Nat.shiftRight_eq_div_pow, Nat.and_one_is_mod, Nat.reducePow, Nat.reduceSub]
      refine ⟨?_, ?_, ?_, fun x hx => reg_get_reg_set_other _ _ _ _ hx⟩
      · omega
      · and_intros <;> (try split_ifs) <;> omega
      · trivial
    · have h8 := reg_get_lt_of_is8 s r h
      simp only [asm_dec, h, if_true, reg_get_set_zs]
      simp only [zs_post, width, h, if_true,
        reg_get_reg_set_same8 _ _ _ h, reg_set_cf, u16, u8, Fin.val_mk, b2i, beq_iff_eq,
        Nat.shiftRight_eq_div_pow, Nat.and_one_is_mod, Nat.reducePow, Nat.reduceSub]
      refine ⟨?_, ?_, ?_, fun x hx => reg_get_reg_set_other _ _ _ _ hx⟩
      · omega
      · and_intros <;> (try split_ifs) <;> omega
      · trivial

/-- Witness for C4: `dec cl` (CX = 0x3400) leaves CH, which shares no byte with CL. -/
theorem asm_inc_dec_keep_carry_witness :
    overlaps CL CH = false
    ∧ reg_get (asm_dec { dos_zero with cx := 0x3400 } CL) CH
        = reg_get { dos_zero with cx := 0x3400 } CH :=
  ⟨by decide, (asm_inc_dec_keep_carry { dos_zero with cx := 0x3400 } CL).2.1.2.2.2 CH (by decide)⟩

/-! ## Word access to memory -/

/-- C5: `mem_w16(g, a, v)` stores `v mod 256` at address `a` and `v div 256` at address
`(a + 1) mod 65536` of region `g` and changes no other byte of that region and no byte of
the other two regions; `mem_r16(g, a)` returns `byte[a] + 256 * byte[(a + 1) mod 65536]`.
At `a = 0xFFFF` the two bytes are at `0xFFFF` and `0x0000` of the same region. -/
theorem mem_word_access (s : dos_t) (g : seg_t) (a v : uint16_t) :
    (∀ g' x, (seg_ptr (mem_w16 s g a v) g' x).val =
        if g' = g ∧ x.val = (a.val + 1) % 65536 then v.val / 256
        else if g' = g ∧ x.val = a.val then v.val % 256
        else (seg_ptr s g' x).val)
    ∧ (u16 (a.val + 1)).val = (a.val + 1) % 65536
    ∧ (mem_r16 s g a).val = (seg_ptr s g a).val + 256 * (seg_ptr s g (u16 (a.val + 1))).val
    ∧ ((seg_ptr (mem_w16 s g 0xFFFF v) g 0xFFFF).val = v.val % 256
        ∧ (seg_ptr (mem_w16 s g 0xFFFF v) g 0x0000).val = v.val / 256
        ∧ (mem_r16 s g 0xFFFF).val = (seg_ptr s g 0xFFFF).val + 256 * (seg_ptr s g 0x0000).val) := by
  have ha := a.isLt
  have hv := v.isLt
  have hw : ∀ (a : uint16_t) g' x, (seg_ptr (mem_w16 s g a v) g' x).val =
        if g' = g ∧ x.val = (a.val + 1) % 65536 then v.val / 256
        else if g' = g ∧ x.val = a.val then v.val % 256
        else (seg_ptr s g' x).val := by
    intro a g' x
    have ha := a.isLt
    simp only [mem_w16, seg_ptr_seg_store, Fin.ext_iff, u16, Fin.val_mk,
      Nat.and_pow_two_sub_one_eq_mod _ 8, Nat.shiftRight_eq_div_pow, Nat.reducePow]
    have e : (((a.val : Int) + 1) % 65536).toNat = (a.val + 1) % 65536 := by omega
    rw [e]
    split_ifs <;> simp only [u8, Fin.val_mk] <;> omega
  have e1 : ((0xFFFF : uint16_t) : Nat) = 65535 := rfl
  have e0 : ((0x0000 : uint16_t) : Nat) = 0 := rfl
  have eu : u16 (((0xFFFF : uint16_t) : Nat) + 1) = 0x0000 := by decide
  refine ⟨hw a, ?_, ?_, ?_, ?_, ?_⟩
  · simp only [u16, Fin.val_mk]; omega
  · have hb := (seg_ptr s g a).isLt
    simp only [mem_r16, zx_val, or_shl8 _ _ hb, u16, Fin.val_mk]
    omega
  · rw [hw]; simp [e1]
  · rw [hw]; simp [e1, e0]
  · have hb := (seg_ptr s g 0xFFFF).isLt
    have hc := (seg_ptr s g 0x0000).isLt
    simp only [mem_r16, zx_val, or_shl8 _ _ hb, eu]
    simp only [u16, Fin.val_mk]
    omega

/-! ## Register views -/

/-- C6: for every register pair, writing the low byte view leaves the high byte view
unchanged and vice versa; after writing the 16-bit register to `v` the low view reads
`v mod 256` and the high view `v div 256`; in every state the 16-bit register equals
`256 * high + low`; and writing any register leaves the registers of every other cell
(other pairs, SI, DI, BP, SP) and the four flags unchanged. -/
theorem reg_pair_views (s : dos_t) (p : pair_t) (v : uint16_t) :
    reg_get (reg_set s p.XL v) p.XH = reg_get s p.XH
    ∧ reg_get (reg_set s p.XH v) p.XL = reg_get s p.XL
    ∧ (reg_get (reg_set s p.XX v) p.XL).val = v.val % 256
    ∧ (reg_get (reg_set s p.XX v) p.XH).val = v.val / 256
    ∧ (reg_get s p.XX).val = 256 * (reg_get s p.XH).val + (reg_get s p.XL).val
    ∧ (∀ r x, cell x ≠ cell r → reg_get (reg_set s r v) x = reg_get s x)
    ∧ (∀ r, (reg_set s r v).cf = s.cf ∧ (reg_set s r v).zf = s.zf
          ∧ (reg_set s r v).sf = s.sf ∧ (reg_set s r v).of = s.of) := by
  refine ⟨?_, ?_, ?_, ?_, ?_, ?_, ?_⟩
  · exact reg_get_reg_set_other s p.XL p.XH v (by cases p <;> rfl)
  · exact reg_get_reg_set_other s p.XH p.XL v (by cases p <;> rfl)
  · cases p <;> rfl
  · cases p <;> rfl
  · cases p <;> simp only [pair_t.XX, pair_t.XL, pair_t.XH, reg_get, zx, lo, hi, Fin.val_mk] <;> omega
  · exact fun r x h => reg_get_reg_set_other s r x v (overlaps_of_cell_ne r x h)
  · exact fun r => ⟨reg_set_cf s r v, reg_set_zf s r v, reg_set_sf s r v, reg_set_of s r v⟩

/-- Witness for C6: writing AL leaves BX, a register of another cell. -/
theorem reg_pair_views_witness :
    cell BX ≠ cell AL
    ∧ reg_get (reg_set { dos_zero with ax := 0x1234, bx := 0x5678 } AL 0x00FF) BX
        = reg_get { dos_zero with ax := 0x1234, bx := 0x5678 } BX :=
  ⟨by decide, (reg_pair_views { dos_zero with ax := 0x1234, bx := 0x5678 } pair_t.A
      0x00FF).2.2.2.2.2.1 AL BX (by decide)⟩

/-! ## Shifts and rotates -/

/-- C7: for a register of width `w` holding `v` and a count `1 ≤ c ≤ w`, `asm_shr` leaves
`floor(v / 2^c)` and sets CF to bit `c - 1` of `v`; `asm_shl` leaves `(v * 2^c) mod 2^w`
and sets CF to bit `w - c` of `v`; in both cases ZF is 1 iff the result is 0 and SF is the
top bit of the result. -/
theorem asm_shr_shl (s : dos_t) (d : reg_t) (c : Nat) (hcw : 1 ≤ c ∧ c ≤ width d) :
    ((reg_get (asm_shr s d c) d).val = (reg_get s d).val / 2 ^ c
      ∧ (asm_shr s d c).cf = ((reg_get s d).val / 2 ^ (c - 1) % 2 : Nat)
      ∧ zs_post (width d) (reg_get (asm_shr s d c) d).val (asm_shr s d c))
    ∧ ((reg_get (asm_shl s d c) d).val = ((reg_get s d).val * 2 ^ c) % 2 ^ width d
      ∧ (asm_shl s d c).cf = ((reg_get s d).val / 2 ^ (width d - c) % 2 : Nat)
      ∧ zs_post (width d) (reg_get (asm_shl s d c) d).val (asm_shl s d c)) := by
  have hd := (reg_get s d).isLt
  have hc : c ≠ 0 := by have := hcw.1; omega
  cases h : reg_is8 d
  · have hV : (u16 ((((reg_get s d).val >>> c : Nat)) : Int)).val = (reg_get s d).val / 2 ^ c := by
      rw [u16_val_nat, Nat.shiftRight_eq_div_pow, Nat.mod_eq_of_lt]
      exact lt_of_le_of_lt (Nat.div_le_self _ _) hd
    have hx : (u32 ((reg_get s d).val : Int)).val = (reg_get s d).val := by
      rw [u32_val_nat]; omega
    have hL : (u16 ((u32 (((u32 ((reg_get s d).val : Int)).val <<< c : Nat) : Int)).val : Int)).val
        = ((reg_get s d).val * 2 ^ c) % 2 ^ 16 := by
      rw [u16_val_nat, u32_val_nat, hx, Nat.shiftLeft_eq]
      exact Nat.mod_mod_of_dvd _ (by decide)
    simp only [asm_shr, asm_shl, h, width, Bool.false_eq_true, if_false, reg_get_flags16,
      reg_get_reg_set_same16, flags16_cf, hc, ne_eq, not_false_eq_true, if_true]
    refine ⟨⟨hV, ?_, ?_⟩, hL, ?_, ?_⟩
    · simp only [Nat.shiftRight_eq_div_pow, Nat.and_one_is_mod]
    · exact zs_post_flags16 _ _ _
    · simp only [Nat.shiftRight_eq_div_pow, Nat.and_one_is_mod, hx]
    · exact zs_post_flags16 _ _ _
  · have h8 := reg_get_lt_of_is8 s d h
    have hx : (u8 ((reg_get s d).val : Int)).val = (reg_get s d).val := by
      rw [u8_val_nat]; omega
    have hV : (u8 ((((u8 ((reg_get s d).val : Int)).val >>> c : Nat)) : Int)).val
        = (reg_get s d).val / 2 ^ c := by
      rw [u8_val_nat, hx, Nat.shiftRight_eq_div_pow, Nat.mod_eq_of_lt]
      exact lt_of_le_of_lt (Nat.div_le_self _ _) h8
    have hL : (u8 ((u16 (((zx (u8 ((reg_get s d).val : Int))).val <<< c : Nat) : Int)).val : Int)).val
        = ((reg_get s d).val * 2 ^ c) % 2 ^ 8 := by
      rw [u8_val_nat, u16_val_nat, zx_val, hx, Nat.shiftLeft_eq]
      exact Nat.mod_mod_of_dvd _ (by decide)
    simp only [asm_shr, asm_shl, h, width, if_true, reg_get_flags8,
      reg_get_reg_set_zx _ _ _ h, flags8_cf, hc, ne_eq, not_false_eq_true]
    refine ⟨⟨hV, ?_, ?_⟩, hL, ?_, ?_⟩
    · simp only [Nat.shiftRight_eq_div_pow, Nat.and_one_is_mod, hx]
    · exact zs_post_flags8 _ _ _
    · simp only [Nat.shiftRight_eq_div_pow, Nat.and_one_is_mod, hx, zx_val]
    · exact zs_post_flags8 _ _ _

/-- Witness for C7: `shr ax, 1` and `shl ax, 1` with AX = 0x8005. -/
theorem asm_shr_shl_witness :
    (1 ≤ 1 ∧ 1 ≤ width AX)
    ∧ (reg_get (asm_shr { dos_zero with ax := 0x8005 } AX 1) AX).val
        = (reg_get { dos_zero with ax := 0x8005 } AX).val / 2 ^ 1
    ∧ (reg_get (asm_shl { dos_zero with ax := 0x8005 } AX 1) AX).val
        = ((reg_get { dos_zero with ax := 0x8005 } AX).val * 2 ^ 1) % 2 ^ width AX :=
  ⟨⟨by decide, by decide⟩,
    (asm_shr_shl { dos_zero with ax := 0x8005 } AX 1 ⟨by decide, by decide⟩).1.1,
    (asm_shr_shl { dos_zero with ax := 0x8005 } AX 1 ⟨by decide, by decide⟩).2.1⟩

/-- C8: for a register of width `w` holding `v`, read as the two's-complement number
`signed w v`, and a count `1 ≤ c ≤ w`, `asm_sar` leaves the two's-complement encoding of
`floor(signed w v / 2^c)`, whose sign bit equals the sign bit of `v`, and sets CF to bit
`c - 1` of `v`; and `asm_sar_m8` on a memory byte holding the value of an 8-bit register
leaves in that byte the value, and sets the CF, ZF and SF, that `asm_sar` leaves for that
register with the same count. -/
theorem asm_sar_floor (s : dos_t) (d : reg_t) (c : Nat) (h1 : 1 ≤ c) (hw : c ≤ width d) :
    ((reg_get (asm_sar s d c) d).val : Int)
        = (Int.fdiv (signed (width d) (reg_get s d).val) (2 ^ c)) % 2 ^ width d
    ∧ (reg_get (asm_sar s d c) d).val / 2 ^ (width d - 1)
        = (reg_get s d).val / 2 ^ (width d - 1)
    ∧ (asm_sar s d c).cf = ((reg_get s d).val / 2 ^ (c - 1) % 2 : Nat)
    ∧ ∀ (t : dos_t) (g : seg_t) (a : uint16_t), reg_is8 d = true →
        (mem_r8 t g a).val = (reg_get s d).val →
        (mem_r8 (asm_sar_m8 t g a c) g a).val = (reg_get (asm_sar s d c) d).val
        ∧ (asm_sar_m8 t g a c).cf = (asm_sar s d c).cf
        ∧ (asm_sar_m8 t g a c).zf = (asm_sar s d c).zf
        ∧ (asm_sar_m8 t g a c).sf = (asm_sar s d c).sf := by
  have hd := (reg_get s d).isLt
  have hc : c ≠ 0 := by omega
  have hp : (0 : Int) ≤ 2 ^ c := by positivity
  cases h : reg_is8 d
  · simp only [width, h, Bool.false_eq_true, if_false] at hw
    have hb := ediv_pow_bounds (i16 (reg_get s d).val) c
    simp only [asm_sar, h, width, Bool.false_eq_true, if_false, reg_get_flags16,
      reg_get_reg_set_same16, flags16_cf, hc, ne_eq, not_false_eq_true, if_true, u16_i16,
      Int.fdiv_eq_ediv _ hp, Int.shiftRight_eq_div_pow, Nat.cast_pow, Nat.cast_ofNat]
    refine ⟨?_, ?_, ?_, fun t g a h' => absurd h' (by simp)⟩
    · have e : signed 16 (reg_get s d).val = i16 (reg_get s d).val := by
        simp only [i16, signed, Nat.reduceSub, Nat.reducePow, Int.reducePow]
        split_ifs <;> omega
      rw [u16_val, e]
      simp only [Int.reducePow]
    · have e := u16_val (i16 (reg_get s d).val / 2 ^ c)
      simp only [i16, Nat.reduceSub, Nat.reducePow, Int.reducePow] at hb e ⊢
      omega
    · have := sar_cf16 (reg_get s d).val c hd h1 hw
      rw [Int.shiftRight_eq_div_pow] at this
      simpa using this
  · simp only [width, h, if_true] at hw
    have h8 := reg_get_lt_of_is8 s d h
    have hx := u8_val_self _ h8
    have hb := ediv_pow_bounds (i8 (reg_get s d).val) c
    have hsar : asm_sar s d c = flags8 (reg_set s d (zx (u8 (i8 (reg_get s d).val / 2 ^ c))))
        (u8 (i8 (reg_get s d).val / 2 ^ c)) (Int.land (i8 (reg_get s d).val >>> (c - 1)) 1) := by
      simp only [asm_sar, h, if_true, hc, ne_eq, not_false_eq_true, u8_i8, hx,
        Int.shiftRight_eq_div_pow, Nat.cast_pow, Nat.cast_ofNat]
    rw [hsar]
    simp only [width, h, if_true, reg_get_flags8, reg_get_reg_set_zx _ _ _ h, flags8_cf,
      flags8_zf, flags8_sf, Int.fdiv_eq_ediv _ hp]
    refine ⟨?_, ?_, sar_cf8 (reg_get s d).val c h8 h1 hw, ?_⟩
    · have e : signed 8 (reg_get s d).val = i8 (reg_get s d).val := by
        simp only [i8, signed, Nat.reduceSub, Nat.reducePow, Int.reducePow]
        split_ifs <;> omega
      rw [u8_val, e]
      simp only [Int.reducePow]
    · have e := u8_val (i8 (reg_get s d).val / 2 ^ c)
      simp only [i8, Nat.reduceSub, Nat.reducePow, Int.reducePow] at hb e ⊢
      omega
    · intro t g a _ hm
      have hm8 : asm_sar_m8 t g a c = flags8 (mem_w8 t g a (u8 (i8 (reg_get s d).val / 2 ^ c)))
          (u8 (i8 (reg_get s d).val / 2 ^ c)) (Int.land (i8 (reg_get s d).val >>> (c - 1)) 1) := by
        simp only [asm_sar_m8, hc, ne_eq, not_false_eq_true, if_true, u8_i8, hm,
          Int.shiftRight_eq_div_pow, Nat.cast_pow, Nat.cast_ofNat]
      rw [hm8]
      simp only [mem_r8, mem_w8, seg_ptr_flags8, seg_ptr_seg_store, flags8_cf, flags8_zf,
        flags8_sf, and_self, if_true]

/-- Witness for C8: `sar al, 3` with AL = 0x85, and `sar byte [ds:0x10], 3` on a byte
holding 0x85. -/
theorem asm_sar_floor_witness :
    (1 ≤ 3 ∧ 3 ≤ width AL)
    ∧ ((reg_get (asm_sar { dos_zero with ax := 0x0085 } AL 3) AL).val : Int)
        = (Int.fdiv (signed (width AL) (reg_get { dos_zero with ax := 0x0085 } AL).val) (2 ^ 3))
            % 2 ^ width AL
    ∧ (reg_is8 AL = true
        ∧ (mem_r8 (mem_w8 dos_zero SEG_DS 0x0010 0x85) SEG_DS 0x0010).val
            = (reg_get { dos_zero with ax := 0x0085 } AL).val)
    ∧ (mem_r8 (asm_sar_m8 (mem_w8 dos_zero SEG_DS 0x0010 0x85) SEG_DS 0x0010 3) SEG_DS 0x0010).val
        = (reg_get (asm_sar { dos_zero with ax := 0x0085 } AL 3) AL).val :=
  ⟨⟨by decide, by decide⟩,
    (asm_sar_floor { dos_zero with ax := 0x0085 } AL 3 (by decide) (by decide)).1,
    ⟨by decide, by decide⟩,
    ((asm_sar_floor { dos_zero with ax := 0x0085 } AL 3 (by decide) (by decide)).2.2.2
      (mem_w8 dos_zero SEG_DS 0x0010 0x85) SEG_DS 0x0010 (by decide) (by decide)).1⟩

/-- C9: called with count 0, `asm_shr`, `asm_shl`, `asm_sar` (any register) and `asm_sar_m8`
(any memory byte) return the state with only ZF and SF rewritten from the unchanged operand:
the operand, CF, every register and every memory byte keep their prior values. -/
theorem shift_count_zero (s : dos_t) (d : reg_t) (g : seg_t) (a : uint16_t) :
    asm_shr s d 0 = with_zs s (width d) (reg_get s d).val
    ∧ asm_shl s d 0 = with_zs s (width d) (reg_get s d).val
    ∧ asm_sar s d 0 = with_zs s (width d) (reg_get s d).val
    ∧ asm_sar_m8 s g a 0 = with_zs s 8 (mem_r8 s g a).val
    ∧ (∀ w v, (with_zs s w v).cf = s.cf
        ∧ (∀ x, reg_get (with_zs s w v) x = reg_get s x)
        ∧ (∀ g' x, mem_r8 (with_zs s w v) g' x = mem_r8 s g' x)) := by
  have hd := (reg_get s d).isLt
  refine ⟨?_, ?_, ?_, ?_, fun w v => ⟨rfl, fun x => reg_get_set_zs _ _ _ _, fun g' x => ?_⟩⟩
  · cases h : reg_is8 d
    · simp only [asm_shr, h, width, Bool.false_eq_true, if_false, ne_eq, not_true_eq_false,
        Nat.shiftRight_zero, u16_self, reg_set_self16 _ _ h, flags16_eq_with_zs]
    · have h8 := reg_get_lt_of_is8 s d h
      have e : u8 ((u8 ((reg_get s d).val : Int)).val : Int) = u8 (reg_get s d).val := u8_self _
      simp only [asm_shr, h, width, if_true, ne_eq, not_true_eq_false, if_false,
        Nat.shiftRight_zero, e]
      rw [reg_set_self8 _ _ _ h (by rw [zx_val, u8_val_self _ h8]; omega), flags8_eq_with_zs,
        u8_val_self _ h8]
  · cases h : reg_is8 d
    · have e : u16 ((u32 (((u32 ((reg_get s d).val : Int)).val <<< 0 : Nat) : Int)).val : Int)
          = reg_get s d := by
        apply Fin.ext
        rw [u16_val_nat, u32_val_nat, u32_val_nat, Nat.shiftLeft_zero]
        omega
      simp only [asm_shl, h, width, Bool.false_eq_true, if_false, ne_eq, not_true_eq_false, e,
        reg_set_self16 _ _ h, flags16_eq_with_zs]
    · have h8 := reg_get_lt_of_is8 s d h
      have e : u8 ((u16 (((zx (u8 ((reg_get s d).val : Int))).val <<< 0 : Nat) : Int)).val : Int)
          = u8 (reg_get s d).val := by
        apply Fin.ext
        simp only [u8_val_nat, u16_val_nat, zx_val, Nat.shiftLeft_zero]
        omega
      simp only [asm_shl, h, width, if_true, ne_eq, not_true_eq_false, if_false, e]
      rw [reg_set_self8 _ _ _ h (by rw [zx_val, u8_val_self _ h8]; omega), flags8_eq_with_zs,
        u8_val_self _ h8]
  · cases h : reg_is8 d
    · simp only [asm_sar, h, width, Bool.false_eq_true, if_false, ne_eq, not_true_eq_false,
        int_shr_zero, u16_i16, u16_self, reg_set_self16 _ _ h, flags16_eq_with_zs]
    · have h8 := reg_get_lt_of_is8 s d h
      have e : u8 ((u8 ((reg_get s d).val : Int)).val : Int) = u8 (reg_get s d).val := u8_self _
      simp only [asm_sar, h, width, if_true, ne_eq, not_true_eq_false, if_false,
        int_shr_zero, u8_i8, e]
      rw [reg_set_self8 _ _ _ h (by rw [zx_val, u8_val_self _ h8]; omega), flags8_eq_with_zs,
        u8_val_self _ h8]
  · simp only [asm_sar_m8, mem_r8, mem_w8, ne_eq, not_true_eq_false, if_false,
      int_shr_zero, u8_i8, u8_self, seg_store_self, flags8_eq_with_zs]
  · cases g' <;> rfl

/-- C10: `asm_rol` leaves the register rotated left by `c AND 7` (8-bit) or `c AND 15`
(16-bit) positions within its width, i.e. bit `i` of the result is bit
`(i - (c AND (w - 1))) mod w` of the old value; CF is bit 0 of the rotated value; ZF, SF
and OF are unchanged.  Count 8 on an 8-bit register leaves the value unchanged and sets CF
to bit 0 of that value. -/
theorem asm_rol_rotate (s : dos_t) (d : reg_t) (c : Nat) :
    (reg_get (asm_rol s d c) d).val < 2 ^ width d
    ∧ (∀ i, i < width d → (reg_get (asm_rol s d c) d).val.testBit i
          = (reg_get s d).val.testBit ((i + width d - (c &&& (width d - 1))) % width d))
    ∧ (c &&& (width d - 1)) = c % width d
    ∧ (asm_rol s d c).cf = (((reg_get (asm_rol s d c) d).val % 2 : Nat) : Int)
    ∧ ((asm_rol s d c).zf = s.zf ∧ (asm_rol s d c).sf = s.sf ∧ (asm_rol s d c).of = s.of)
    ∧ (reg_is8 d = true → reg_get (asm_rol s d 8) d = reg_get s d
          ∧ (asm_rol s d 8).cf = (((reg_get s d).val % 2 : Nat) : Int)) := by
  have hd := (reg_get s d).isLt
  cases h : reg_is8 d
  · have hk : c &&& 15 = c % 16 := Nat.and_pow_two_sub_one_eq_mod c 4
    have hV : (reg_get (asm_rol s d c) d).val
        = (((reg_get s d).val <<< (c &&& 15)) ||| ((reg_get s d).val >>> (16 - (c &&& 15)))) % 2 ^ 16 := by
      simp only [asm_rol, h, Bool.false_eq_true, if_false, reg_get_set_c, reg_get_reg_set_same16,
        u16_val_nat, Nat.reducePow]
    simp only [width, h, Bool.false_eq_true, if_false, Nat.reduceSub]
    refine ⟨(reg_get (asm_rol s d c) d).isLt, fun i hi => ?_, hk, ?_, ?_,
      fun h' => absurd h' (by simp)⟩
    · rw [hV]
      exact rol_testBit 16 _ _ i hd (by omega) hi
    · rw [hV]
      simp only [asm_rol, h, Bool.false_eq_true, if_false, u16_val_nat, Nat.and_one_is_mod,
        Nat.reducePow]
    · simp only [asm_rol, h, Bool.false_eq_true, if_false, reg_set_zf, reg_set_sf, reg_set_of,
        and_self]
  · have h8 := reg_get_lt_of_is8 s d h
    have hx := u8_val_self _ h8
    have hk : c &&& 7 = c % 8 := Nat.and_pow_two_sub_one_eq_mod c 3
    have hV : ∀ n, (reg_get (asm_rol s d n) d).val
        = (((reg_get s d).val <<< (n &&& 7)) ||| ((reg_get s d).val >>> (8 - (n &&& 7)))) % 2 ^ 8 := by
      intro n
      simp only [asm_rol, h, if_true, reg_get_set_c, reg_get_reg_set_zx _ _ _ h,
        u8_val_nat, hx, Nat.reducePow]
    have hC : ∀ n, (asm_rol s d n).cf = (((reg_get (asm_rol s d n) d).val % 2 : Nat) : Int) := by
      intro n
      rw [hV]
      simp only [asm_rol, h, if_true, u8_val_nat, hx, Nat.and_one_is_mod, Nat.reducePow]
    have h0 : (reg_get (asm_rol s d 8) d).val = (reg_get s d).val := by
      rw [hV]
      have e : (8 : Nat) &&& 7 = 0 := by decide
      rw [e, Nat.shiftLeft_zero, Nat.shiftRight_eq_div_pow, Nat.div_eq_of_lt (by simpa using h8),
        Nat.or_zero, Nat.mod_eq_of_lt (by simpa using h8)]
    simp only [width, h, if_true, Nat.reduceSub]
    refine ⟨by rw [hV]; exact Nat.mod_lt _ (by decide), fun i hi => ?_, hk, hC c, ?_,
      fun _ => ⟨Fin.ext h0, ?_⟩⟩
    · rw [hV]
      exact rol_testBit 8 _ _ i (by simpa using h8) (by omega) hi
    · simp only [asm_rol, h, if_true, reg_set_zf, reg_set_sf, reg_set_of, and_self]
    · rw [hC 8, h0]

/-- Witness for C10: `rol al, 8` with AL = 0x85; bit 0 of the result is bit 0 of AL. -/
theorem asm_rol_rotate_witness :
    (0 < width AL ∧ reg_is8 AL = true)
    ∧ (reg_get (asm_rol { dos_zero with ax := 0x0085 } AL 8) AL).val.testBit 0
        = (reg_get { dos_zero with ax := 0x0085 } AL).val.testBit
            ((0 + width AL - (8 &&& (width AL - 1))) % width AL)
    ∧ reg_get (asm_rol { dos_zero with ax := 0x0085 } AL 8) AL
        = reg_get { dos_zero with ax := 0x0085 } AL :=
  ⟨⟨by decide, by decide⟩,
    (asm_rol_rotate { dos_zero with ax := 0x0085 } AL 8).2.1 0 (by decide),
    ((asm_rol_rotate { dos_zero with ax := 0x0085 } AL 8).2.2.2.2.2 (by decide)).1⟩

/-! ## Multiplication -/

/-- C11: `asm_mul` with an 8-bit source sets AX to `AL * src`, the full 16-bit product of
the values read before any write (also when the source is AL or AH), and with a 16-bit
source sets DX:AX so that `65536 * DX + AX = old AX * src` (also when the source is AX or
DX); CF and OF are both 1 when the upper half of the product (AH, respectively DX) is
nonzero and both 0 otherwise. -/
theorem asm_mul_product (s : dos_t) (src : reg_t) :
    (reg_is8 src = true →
      (reg_get (asm_mul s src) AX).val = (reg_get s AL).val * (reg_get s src).val
      ∧ (reg_get (asm_mul s src) AH).val = (reg_get s AL).val * (reg_get s src).val / 256
      ∧ ((reg_get (asm_mul s src) AH).val ≠ 0 → (asm_mul s src).cf = 1 ∧ (asm_mul s src).of = 1)
      ∧ ((reg_get (asm_mul s src) AH).val = 0 → (asm_mul s src).cf = 0 ∧ (asm_mul s src).of = 0))
    ∧ (reg_is8 src = false →
      65536 * (reg_get (asm_mul s src) DX).val + (reg_get (asm_mul s src) AX).val
          = (reg_get s AX).val * (reg_get s src).val
      ∧ (reg_get (asm_mul s src) DX).val = (reg_get s AX).val * (reg_get s src).val / 65536
      ∧ ((reg_get (asm_mul s src) DX).val ≠ 0 → (asm_mul s src).cf = 1 ∧ (asm_mul s src).of = 1)
      ∧ ((reg_get (asm_mul s src) DX).val = 0 → (asm_mul s src).cf = 0 ∧ (asm_mul s src).of = 0))
    ∧ ((reg_get (asm_mul { dos_zero with ax := 0x03FF } AH) AX).val = 0xFF * 0x03
      ∧ (reg_get (asm_mul { dos_zero with ax := 0xFFFF } AX) DX).val = 0xFFFE
      ∧ (reg_get (asm_mul { dos_zero with ax := 0xFFFF } AX) AX).val = 0x0001
      ∧ (asm_mul { dos_zero with ax := 0xFFFF } AX).cf = 1
      ∧ (asm_mul { dos_zero with ax := 0xFFFF } AX).of = 1) := by
  have ha := s.ax.isLt
  refine ⟨?_, ?_, by decide⟩
  · intro h
    have h8 := reg_get_lt_of_is8 s src h
    have hp : (s.ax.val % 256) * (reg_get s src).val ≤ 255 * 255 :=
      Nat.mul_le_mul (by omega) (by omega)
    generalize hb : reg_get s src = b at h8 hp
    simp only [asm_mul, h, hb, if_true, reg_get_AX, reg_get_AL_val, reg_get_AH_val, zx, lo, hi, u16,
      u8, b2i, Fin.val_mk, bne_iff_ne, ne_eq, ite_not]
    have e : (((s.ax.val % 256 : Nat) : Int) * ((((b.val : Int) % 256).toNat : Nat) : Int) % 65536).toNat
        = s.ax.val % 256 * b.val := by
      have e1 : (((b.val : Int) % 256).toNat : Int) = b.val := by omega
      rw [e1]
      have e2 : ((s.ax.val % 256 : Nat) : Int) * (b.val : Int) = ((s.ax.val % 256 * b.val : Nat) : Int) := by
        push_cast; rfl
      rw [e2]
      omega
    rw [e]
    refine ⟨rfl, rfl, fun h0 => ?_, fun h0 => ?_⟩
    · rw [if_neg h0]; exact ⟨rfl, rfl⟩
    · rw [if_pos h0]; exact ⟨rfl, rfl⟩
  · intro h
    have hs := (reg_get s src).isLt
    have hp : s.ax.val * (reg_get s src).val ≤ 65535 * 65535 :=
      Nat.mul_le_mul (by omega) (by omega)
    generalize hb : reg_get s src = b at hs hp
    simp only [asm_mul, h, hb, Bool.false_eq_true, if_false, reg_get_AX, reg_get_DX, u16, u32, b2i,
      Fin.val_mk, bne_iff_ne, ne_eq, ite_not, Nat.shiftRight_eq_div_pow, Nat.reducePow]
    have e : ((((s.ax.val : Int) % 4294967296).toNat : Int) * (b.val : Int) % 4294967296).toNat
        = s.ax.val * b.val := by
      have e1 : ((((s.ax.val : Int) % 4294967296).toNat : Nat) : Int) = s.ax.val := by omega
      rw [e1]
      have e2 : (s.ax.val : Int) * (b.val : Int) = ((s.ax.val * b.val : Nat) : Int) := by
        push_cast; rfl
      rw [e2]
      omega
    rw [e]
    generalize s.ax.val * b.val = q at hp
    refine ⟨by omega, by omega, fun h0 => ?_, fun h0 => ?_⟩
    · rw [if_neg h0]; exact ⟨rfl, rfl⟩
    · rw [if_pos h0]; exact ⟨rfl, rfl⟩

/-- Witness for C11: `mul bl` and `mul bx` with AX = 0x12FF, BX = 0x0102. -/
theorem asm_mul_product_witness :
    (reg_is8 BL = true ∧ reg_is8 BX = false)
    ∧ (reg_get (asm_mul { dos_zero with ax := 0x12FF, bx := 0x0102 } BL) AX).val
        = (reg_get { dos_zero with ax := 0x12FF, bx := 0x0102 } AL).val
            * (reg_get { dos_zero with ax := 0x12FF, bx := 0x0102 } BL).val
    ∧ 65536 * (reg_get (asm_mul { dos_zero with ax := 0x12FF, bx := 0x0102 } BX) DX).val
          + (reg_get (asm_mul { dos_zero with ax := 0x12FF, bx := 0x0102 } BX) AX).val
        = (reg_get { dos_zero with ax := 0x12FF, bx := 0x0102 } AX).val
            * (reg_get { dos_zero with ax := 0x12FF, bx := 0x0102 } BX).val :=
  ⟨⟨by decide, by decide⟩,
    ((asm_mul_product { dos_zero with ax := 0x12FF, bx := 0x0102 } BL).1 (by decide)).1,
    ((asm_mul_product { dos_zero with ax := 0x12FF, bx := 0x0102 } BX).2.1 (by decide)).1⟩

/-! ## Logical instructions -/

/-- C12: `asm_xor` and `asm_and_i` store the bitwise XOR, respectively AND, of the operands
reduced to the destination width, set CF = 0 and OF = 0, and set ZF to 1 iff the stored
result is 0 and SF to its top bit; `asm_xor(r, r)` leaves `r = 0`, ZF = 1, SF = 0, CF = 0,
OF = 0. -/
theorem asm_xor_and_logic (s : dos_t) (d src : reg_t) (v : uint16_t) :
    ((reg_get (asm_xor s d src) d).val = ((reg_get s d).val ^^^ (reg_get s src).val) % 2 ^ width d
      ∧ (asm_xor s d src).cf = 0 ∧ (asm_xor s d src).of = 0
      ∧ zs_post (width d) (reg_get (asm_xor s d src) d).val (asm_xor s d src))
    ∧ ((reg_get (asm_and_i s d v) d).val = ((reg_get s d).val &&& v.val) % 2 ^ width d
      ∧ (asm_and_i s d v).cf = 0 ∧ (asm_and_i s d v).of = 0
      ∧ zs_post (width d) (reg_get (asm_and_i s d v) d).val (asm_and_i s d v))
    ∧ ((reg_get (asm_xor s d d) d).val = 0
      ∧ (asm_xor s d d).zf = 1 ∧ (asm_xor s d d).sf = 0
      ∧ (asm_xor s d d).cf = 0 ∧ (asm_xor s d d).of = 0) := by
  have hx : ∀ src, (reg_get (asm_xor s d src) d).val
        = ((reg_get s d).val ^^^ (reg_get s src).val) % 2 ^ width d
      ∧ (asm_xor s d src).cf = 0 ∧ (asm_xor s d src).of = 0
      ∧ zs_post (width d) (reg_get (asm_xor s d src) d).val (asm_xor s d src) :=
    fun src => logic_result s d _ _ rfl
  refine ⟨hx src, logic_result s d _ _ rfl, ?_⟩
  obtain ⟨h1, h2, h3, h4, h5, h6⟩ := hx d
  have h0 : (reg_get (asm_xor s d d) d).val = 0 := by
    rw [h1, Nat.xor_self]; rfl
  rw [h0] at h5 h6
  refine ⟨h0, h5.mpr rfl, ?_, h2, h3⟩
  rw [h6]; simp

/-! ## The string move -/

/-- C14: with initial count `CX = n`, `asm_rep_movsw` is exactly `n` iterations of the loop
body (the loop condition holds before each of them and fails after the last), and ends
with CX = 0, SI = (SI0 + 2n) mod 65536, DI = (DI0 + 2n) mod 65536; it leaves the DS and FS
regions, every other register, the four flags, the palette and the FPU unchanged; with
`n = 0` it returns the state unchanged. -/
theorem asm_rep_movsw_count (s : dos_t) :
    asm_rep_movsw s = rep_movsw_body^[s.cx.val] s
    ∧ (∀ k, k < s.cx.val → (rep_movsw_body^[k] s).cx.val ≠ 0)
    ∧ (asm_rep_movsw s).cx.val = 0
    ∧ (asm_rep_movsw s).si.val = (s.si.val + 2 * s.cx.val) % 65536
    ∧ (asm_rep_movsw s).di.val = (s.di.val + 2 * s.cx.val) % 65536
    ∧ rep_movsw_frame s (asm_rep_movsw s)
    ∧ (s.cx.val = 0 → asm_rep_movsw s = s) := by
  have hc := s.cx.isLt
  have hrun := asm_rep_movsw_iterate s.cx.val s rfl
  obtain ⟨h1, h2, h3, h4⟩ := rep_movsw_iterate_fields s.cx.val s
  refine ⟨hrun, fun k hk => ?_, ?_, ?_, ?_, ?_, asm_rep_movsw_done s⟩
  · have := (rep_movsw_iterate_fields k s).1
    omega
  · rw [hrun]; omega
  · rw [hrun]; exact h2
  · rw [hrun]; exact h3
  · rw [hrun]; exact h4

/-- Witness for C14: with CX = 2 the loop condition still holds after one iteration; with
CX = 0 nothing changes. -/
theorem asm_rep_movsw_count_witness :
    (1 < ({ dos_zero with cx := 2 } : dos_t).cx.val
      ∧ (rep_movsw_body^[1] { dos_zero with cx := 2 }).cx.val ≠ 0)
    ∧ (dos_zero.cx.val = 0 ∧ asm_rep_movsw dos_zero = dos_zero) :=
  ⟨⟨by decide, (asm_rep_movsw_count { dos_zero with cx := 2 }).2.1 1 (by decide)⟩,
    ⟨rfl, (asm_rep_movsw_count dos_zero).2.2.2.2.2.2 rfl⟩⟩

/-- C15: with initial count `CX = n ≤ 32768`, after `asm_rep_movsw` the ES region holds
`ES[(DI0 + k) mod 65536] = DS[(SI0 + k) mod 65536]` for every `k < 2n`, and every ES byte
at none of those `2n` addresses keeps its prior value. -/
theorem asm_rep_movsw_copy (s : dos_t) (hn : s.cx.val ≤ 32768) :
    (∀ k, k < 2 * s.cx.val →
        (asm_rep_movsw s).vga (u16 ((s.di.val + k : Nat) : Int))
          = s.mem (u16 ((s.si.val + k : Nat) : Int)))
    ∧ (∀ x : uint16_t, (∀ k, k < 2 * s.cx.val → x ≠ u16 ((s.di.val + k : Nat) : Int)) →
        (asm_rep_movsw s).vga x = s.vga x)
    ∧ (∀ a k : Nat, (u16 ((a + k : Nat) : Int)).val = (a + k) % 65536) := by
  have hdi := s.di.isLt
  have hsi := s.si.isLt
  refine ⟨fun k hk => ?_, fun x hx => ?_, fun a k => u16_val_nat _⟩
  · have hv := u16_val_nat (s.di.val + k)
    rw [rep_movsw_vga s.cx.val s rfl hn, hv]
    have e : ((s.di.val + k) % 65536 + 65536 - s.di.val) % 65536 = k := by omega
    rw [e, if_pos hk]
  · rw [rep_movsw_vga s.cx.val s rfl hn, if_neg]
    intro hlt
    apply hx _ hlt
    apply Fin.ext
    have hxl := x.isLt
    rw [u16_val_nat]
    omega

/-- Witness for C15: two words copied from DS:0xFFFD to ES:0xFFFF; the byte at offset
`k = 3` lands at ES:0x0002. -/
theorem asm_rep_movsw_copy_witness :
    (({ dos_zero with cx := 2, si := 0xFFFD, di := 0xFFFF } : dos_t).cx.val ≤ 32768
      ∧ 3 < 2 * ({ dos_zero with cx := 2, si := 0xFFFD, di := 0xFFFF } : dos_t).cx.val)
    ∧ (asm_rep_movsw { dos_zero with cx := 2, si := 0xFFFD, di := 0xFFFF }).vga
          (u16 ((({ dos_zero with cx := 2, si := 0xFFFD, di := 0xFFFF } : dos_t).di.val + 3 : Nat) : Int))
        = ({ dos_zero with cx := 2, si := 0xFFFD, di := 0xFFFF } : dos_t).mem
          (u16 ((({ dos_zero with cx := 2, si := 0xFFFD, di := 0xFFFF } : dos_t).si.val + 3 : Nat) : Int)) :=
  ⟨⟨by decide, by decide⟩,
    (asm_rep_movsw_copy { dos_zero with cx := 2, si := 0xFFFD, di := 0xFFFF } (by decide)).1 3
      (by decide)⟩

/-! ## The overflow flag -/

/-- C13: OF is left at its prior value by `asm_add`, `asm_add_i`, `asm_add_r_m`,
`asm_add_m_r`, `asm_adc`, `asm_adc_r_m`, `asm_sub`, `asm_cmp`, `asm_cmp_i`, `asm_shr`,
`asm_shl`, `asm_sar`, `asm_sar_m8`, `asm_rol`, `asm_inc` and `asm_dec`; `asm_xor` and
`asm_and_i` clear it and `asm_mul` sets it from the high half of the product (AH or DX);
the remaining integer, stack, string and port operations leave it unchanged as well. -/
theorem overflow_flag_frame (s : dos_t) (d src : reg_t) (v : uint16_t) (g : seg_t)
    (a : uint16_t) (cnt : Nat) (port : uint16_t) (val : uint8_t) :
    ((asm_add s d src).of = s.of ∧ (asm_add_i s d v).of = s.of
      ∧ (asm_add_r_m s d g a).of = s.of ∧ (asm_add_m_r s g a src).of = s.of
      ∧ (asm_adc s d src).of = s.of ∧ (asm_adc_r_m s d g a).of = s.of
      ∧ (asm_sub s d src).of = s.of ∧ (asm_cmp s d src).of = s.of
      ∧ (asm_cmp_i s d v).of = s.of
      ∧ (asm_shr s d cnt).of = s.of ∧ (asm_shl s d cnt).of = s.of
      ∧ (asm_sar s d cnt).of = s.of ∧ (asm_sar_m8 s g a cnt).of = s.of
      ∧ (asm_rol s d cnt).of = s.of
      ∧ (asm_inc s d).of = s.of ∧ (asm_dec s d).of = s.of)
    ∧ ((asm_xor s d src).of = 0 ∧ (asm_and_i s d v).of = 0
      ∧ (asm_mul s src).of =
          if (reg_get (asm_mul s src) (if reg_is8 src then AH else DX)).val = 0 then 0 else 1)
    ∧ ((asm_mov s d src).of = s.of ∧ (asm_mov_i s d v).of = s.of
      ∧ (asm_mov_r_m s d g a).of = s.of ∧ (asm_mov_m_r s g a src).of = s.of
      ∧ (asm_not s d).of = s.of ∧ (asm_lea s d v).of = s.of ∧ (asm_cbw s).of = s.of
      ∧ (asm_push s src).of = s.of ∧ (asm_push_i s v).of = s.of
      ∧ (asm_pop s d).of = s.of ∧ (asm_pop_val s).2.of = s.of
      ∧ (asm_rep_movsw s).of = s.of
      ∧ (asm_out_3c7 s val).of = s.of
      ∧ (∀ t, asm_out s port val = some t → t.of = s.of)
      ∧ (∀ x t, asm_in s port = some (x, t) → t.of = s.of)) :=
  ⟨⟨asm_add_of s d src, asm_add_i_of s d v, asm_add_r_m_of s d g a, asm_add_m_r_of s src g a,
      asm_adc_of s d src, asm_adc_r_m_of s d g a, asm_sub_of s d src, asm_cmp_of s d src,
      asm_cmp_i_of s d v, asm_shr_of s d cnt, asm_shl_of s d cnt, asm_sar_of s d cnt,
      asm_sar_m8_of s g a cnt, asm_rol_of s d cnt, asm_inc_of s d, asm_dec_of s d⟩,
    ⟨rfl, rfl, asm_mul_of s src⟩,
    ⟨asm_mov_of s d src, asm_mov_i_of s d v, asm_mov_r_m_of s d g a, asm_mov_m_r_of s g a src,
      asm_not_of s d, asm_lea_of s d v, rfl, asm_push_of s src, asm_push_i_of s v,
      asm_pop_of s d, rfl, asm_rep_movsw_of s, rfl, asm_out_of s port val,
      asm_in_of s port⟩⟩

/-- Witness for C13: selecting palette index 5 on the zero state leaves OF. -/
theorem overflow_flag_frame_witness :
    asm_out dos_zero 0x3C8 5 = some { dos_zero with pal_widx := 15 }
    ∧ ({ dos_zero with pal_widx := 15 } : dos_t).of = dos_zero.of
    ∧ asm_in dos_zero 0x3C7 = some (0, dos_zero) :=
  ⟨rfl,
    (overflow_flag_frame dos_zero AX BX 0 SEG_DS 0 0 0x3C8 5).2.2.2.2.2.2.2.2.2.2.2.2.2.2.2.1
      { dos_zero with pal_widx := 15 } rfl,
    rfl⟩

/-! ## Stack -/

/-- C16: for every register `r` other than SP, `asm_push(r)` sets SP to `(SP - 2) mod 65536`
and writes `r`'s value as a little-endian word at the new SP in the DS region, changing no
other memory byte, register or flag; `asm_pop(r)` loads `r` with the word at the current SP
in DS (an 8-bit `r` keeps its low byte, as `reg_set` does) and then sets SP to
`(SP + 2) mod 65536`; `asm_push_i` pushes an immediate the same way; `asm_pop_val` returns
the word `asm_pop` would load, with the same SP effect and no other register written. -/
theorem stack_push_pop (s : dos_t) (r : reg_t) (v : uint16_t) (hr : r ≠ SP) :
    push_post s (reg_get s r) (asm_push s r)
    ∧ push_post s v (asm_push_i s v)
    ∧ (pop_post s (asm_pop s r)
      ∧ (reg_get (asm_pop s r) r).val = (mem_r16 s SEG_DS s.sp).val % 2 ^ width r
      ∧ (∀ x, overlaps r x = false → x ≠ SP → reg_get (asm_pop s r) x = reg_get s x))
    ∧ ((asm_pop_val s).1 = mem_r16 s SEG_DS s.sp
      ∧ pop_post s (asm_pop_val s).2
      ∧ (asm_pop_val s).2.sp = (asm_pop s r).sp
      ∧ (∀ x, x ≠ SP → reg_get (asm_pop_val s).2 x = reg_get s x))
    ∧ (mem_r16 s SEG_DS s.sp).val
        = (s.mem s.sp).val + 256 * (s.mem (u16 (s.sp.val + 1))).val := by
  have hsp := s.sp.isLt
  have hv2 : (u16 ((s.sp.val : Int) + 2)).val = (s.sp.val + 2) % 65536 := by
    simp only [u16, Fin.val_mk]; omega
  have hpush : asm_push s r
      = mem_w16 { s with sp := u16 (s.sp.val - 2) } SEG_DS (u16 (s.sp.val - 2)) (reg_get s r) := by
    simp only [asm_push, reg_get_set_sp _ _ _ hr]
  have hpopsp : (asm_pop s r).sp = u16 (s.sp.val + 2) := by
    simp only [asm_pop, reg_set_sp_of_ne _ _ _ hr]
  refine ⟨?_, push_post_mem_w16 s v, ⟨⟨?_, fun g x => ?_, ?_⟩, ?_, fun x hx hx' => ?_⟩,
    ⟨rfl, ⟨hv2, fun g x => ?_, ⟨rfl, rfl, rfl, rfl⟩⟩, hpopsp.symm, fun x hx => ?_⟩,
    mem_r16_val s SEG_DS s.sp⟩
  · rw [hpush]; exact push_post_mem_w16 s _
  · rw [hpopsp]; exact hv2
  · have := seg_ptr_reg_set s r (mem_r16 s SEG_DS s.sp) g
    cases g <;> exact congrFun this x
  · have := same_flags_reg_set s r (mem_r16 s SEG_DS s.sp)
    exact this
  · simp only [asm_pop]
    rw [reg_get_set_sp _ _ _ hr]
    cases h : reg_is8 r
    · rw [reg_get_reg_set_same16 _ _ _ h]
      have := (mem_r16 s SEG_DS s.sp).isLt
      simp only [width, h, Bool.false_eq_true, if_false, Nat.reducePow]
      omega
    · rw [reg_get_reg_set_same8 _ _ _ h]
      simp only [width, h, if_true, Nat.reducePow]
  · simp only [asm_pop]
    rw [reg_get_set_sp _ _ _ hx', reg_get_reg_set_other _ _ _ _ hx]
  · cases g <;> rfl
  · exact reg_get_set_sp _ _ _ hx

/-- Witness for C16: `push ax` then the frame of `pop ax` at SP = 0 (the push wraps to
0xFFFE); BX shares no storage with AX. -/
theorem stack_push_pop_witness :
    (AX ≠ SP ∧ overlaps AX BX = false ∧ BX ≠ SP)
    ∧ push_post { dos_zero with ax := 0x1234 } (reg_get { dos_zero with ax := 0x1234 } AX)
        (asm_push { dos_zero with ax := 0x1234 } AX)
    ∧ reg_get (asm_pop { dos_zero with ax := 0x1234 } AX) BX
        = reg_get { dos_zero with ax := 0x1234 } BX :=
  ⟨⟨by decide, by decide, by decide⟩,
    (stack_push_pop { dos_zero with ax := 0x1234 } AX 0 (by decide)).1,
    (stack_push_pop { dos_zero with ax := 0x1234 } AX 0 (by decide)).2.2.1.2.2 BX (by decide)
      (by decide)⟩

/-! ## Palette ports -/

/-- C17: `asm_out(0x3C8, i)` sets the write cursor to `3 * i` and changes nothing else;
`asm_out(0x3C9, v)` with the write cursor at `c` (`0 ≤ c < 768`) stores `v AND 0x3F` in
`pal[c]`, sets the write cursor to `(c + 1) mod 768`, and leaves every other palette entry
and the read cursor unchanged.  Selecting index 5 and writing three data bytes populates
`pal[15]`, `pal[16]`, `pal[17]` and leaves the cursor at 18; selecting index 255 and writing
three bytes leaves the cursor at 0. -/
theorem asm_out_palette (s : dos_t) (i v r g b : uint8_t) :
    asm_out s 0x3C8 i = some { s with pal_widx := 3 * (i.val : Int) }
    ∧ (∀ c : Fin 768, s.pal_widx = c.val →
        asm_out s 0x3C9 v =
            some { s with
              pal := Function.update s.pal c (u8 ((v.val &&& 0x3F : Nat)))
              pal_widx := ((c.val + 1) % 768 : Nat) }
        ∧ (Function.update s.pal c (u8 ((v.val &&& 0x3F : Nat))) c).val = v.val &&& 0x3F
        ∧ ∀ k, k ≠ c → Function.update s.pal c (u8 ((v.val &&& 0x3F : Nat))) k = s.pal k)
    ∧ (∃ t, pal_write3 s 5 r g b = some t
        ∧ (t.pal 15).val = r.val &&& 0x3F ∧ (t.pal 16).val = g.val &&& 0x3F
        ∧ (t.pal 17).val = b.val &&& 0x3F ∧ t.pal_widx = 18)
    ∧ (∃ t, pal_write3 s 255 r g b = some t
        ∧ (t.pal 765).val = r.val &&& 0x3F ∧ (t.pal 766).val = g.val &&& 0x3F
        ∧ (t.pal 767).val = b.val &&& 0x3F ∧ t.pal_widx = 0) := by
  refine ⟨?_, fun c hc => ⟨asm_out_data s v c hc, ?_, fun k hk => Function.update_noteq hk _ _⟩,
    ?_, ?_⟩
  · rw [asm_out_select, mul_comm]
  · rw [Function.update_same, and_3f_val]
  · obtain ⟨t, h, h1, h2, h3, h4, _⟩ := pal_write3_entries s 5 r g b
    exact ⟨t, h, h1, h2, h3, h4⟩
  · obtain ⟨t, h, h1, h2, h3, h4, _⟩ := pal_write3_entries s 255 r g b
    exact ⟨t, h, h1, h2, h3, h4⟩

/-- Witness for C17: a data write on the zero state, whose write cursor is 0. -/
theorem asm_out_palette_witness :
    dos_zero.pal_widx = ((0 : Fin 768).val : Int)
    ∧ asm_out dos_zero 0x3C9 0xFF =
        some { dos_zero with
          pal := Function.update dos_zero.pal 0 (u8 (((0xFF : uint8_t).val &&& 0x3F : Nat)))
          pal_widx := (((0 : Fin 768).val + 1) % 768 : Nat) } :=
  ⟨rfl, ((asm_out_palette dos_zero 0 0xFF 0 0 0).2.1 0 rfl).1⟩

/-- C18: `asm_out_3c7(i)` sets the read cursor to `3 * i`; `asm_in(0x3C9)` returns the
palette byte at the read cursor and advances the read cursor by 1 modulo 768 without
changing the palette or the write cursor.  For every index `i` and bytes `r`, `g`, `b`:
after selecting write index `i` and writing `r`, `g`, `b`, selecting read index `i` and
reading three data bytes returns `r AND 0x3F`, `g AND 0x3F`, `b AND 0x3F` in that order. -/
theorem palette_read_back (s : dos_t) (i r g b : uint8_t) :
    asm_out_3c7 s i = { s with pal_ridx := 3 * (i.val : Int) }
    ∧ (∀ c : Fin 768, s.pal_ridx = c.val →
        asm_in s 0x3C9 = some (s.pal c, { s with pal_ridx := ((c.val + 1) % 768 : Nat) }))
    ∧ (∃ t u, pal_write3 s i r g b = some t
        ∧ pal_read3 t i
            = some ((u8 ((r.val &&& 0x3F : Nat)), u8 ((g.val &&& 0x3F : Nat)),
                      u8 ((b.val &&& 0x3F : Nat))), u)
        ∧ u.pal = t.pal ∧ u.pal_widx = t.pal_widx) := by
  refine ⟨?_, fun c hc => asm_in_data s c hc, ?_⟩
  · simp only [asm_out_3c7, mul_comm]
  · obtain ⟨t, h, h1, h2, h3, _, _⟩ := pal_write3_entries s i r g b
    refine ⟨t, { t with pal_ridx := ((3 * i.val + 3) % 768 : Nat) }, h, ?_, rfl, rfl⟩
    rw [pal_read3_eq]
    have e1 : t.pal ⟨3 * i.val, by omega⟩ = u8 ((r.val &&& 0x3F : Nat)) :=
      Fin.ext (by rw [h1, and_3f_val])
    have e2 : t.pal ⟨3 * i.val + 1, by omega⟩ = u8 ((g.val &&& 0x3F : Nat)) :=
      Fin.ext (by rw [h2, and_3f_val])
    have e3 : t.pal ⟨3 * i.val + 2, by omega⟩ = u8 ((b.val &&& 0x3F : Nat)) :=
      Fin.ext (by rw [h3, and_3f_val])
    rw [e1, e2, e3]

/-- Witness for C18: a data read on the zero state, whose read cursor is 0. -/
theorem palette_read_back_witness :
    dos_zero.pal_ridx = ((0 : Fin 768).val : Int)
    ∧ asm_in dos_zero 0x3C9
        = some (dos_zero.pal 0, { dos_zero with pal_ridx := (((0 : Fin 768).val + 1) % 768 : Nat) }) :=
  ⟨rfl, (palette_read_back dos_zero 0 0 0 0).2.1 0 rfl⟩

/-- C19: for every port other than 0x3C8 and 0x3C9 (0x3C7 included) and every value,
`asm_out` returns the state unchanged; for every port other than 0x3C9, `asm_in` returns 0
and the state unchanged. -/
theorem port_other_noop (s : dos_t) (port : uint16_t) (v : uint8_t) :
    (port.val ≠ 0x3C8 → port.val ≠ 0x3C9 → asm_out s port v = some s)
    ∧ (port.val ≠ 0x3C9 → asm_in s port = some (0, s))
    ∧ asm_out s 0x3C7 v = some s
    ∧ asm_in s 0x3C7 = some (0, s) :=
  ⟨asm_out_other s port v, asm_in_other s port,
    asm_out_other s 0x3C7 v (by decide) (by decide), asm_in_other s 0x3C7 (by decide)⟩

/-- Witness for C19: port 0x60 is neither palette port. -/
theorem port_other_noop_witness :
    ((0x0060 : uint16_t).val ≠ 0x3C8 ∧ (0x0060 : uint16_t).val ≠ 0x3C9)
    ∧ asm_out dos_zero 0x0060 0xFF = some dos_zero
    ∧ asm_in dos_zero 0x0060 = some (0, dos_zero) :=
  ⟨⟨by decide, by decide⟩,
    (port_other_noop dos_zero 0x0060 0xFF).1 (by decide) (by decide),
    (port_other_noop dos_zero 0x0060 0xFF).2.1 (by decide)⟩

/-- C20: the palette invariant (every `pal[k]` in 0..63, both cursors in 0..767) holds in
the zero-initialised state and is preserved by `asm_out` (any port, any value), `asm_in`
(any port) and `asm_out_3c7` (any value); under it these operations are defined, i.e. every
palette access is at an index inside 0..767, which is exactly when a data access is
defined. -/
theorem palette_invariant (s : dos_t) (port : uint16_t) (v : uint8_t) :
    pal_inv dos_zero
    ∧ (pal_inv s → ∃ t, asm_out s port v = some t ∧ pal_inv t)
    ∧ (pal_inv s → ∃ x t, asm_in s port = some (x, t) ∧ pal_inv t)
    ∧ (pal_inv s → pal_inv (asm_out_3c7 s v))
    ∧ ((asm_out s 0x3C9 v).isSome = true ↔ 0 ≤ s.pal_widx ∧ s.pal_widx < 768)
    ∧ ((asm_in s 0x3C9).isSome = true ↔ 0 ≤ s.pal_ridx ∧ s.pal_ridx < 768) := by
  refine ⟨pal_inv_zero, pal_inv_asm_out s port v, pal_inv_asm_in s port,
    pal_inv_asm_out_3c7 s v, ?_, ?_⟩
  · by_cases hw : 0 ≤ s.pal_widx ∧ s.pal_widx < 768
    · have hc : s.pal_widx = ((⟨s.pal_widx.toNat, by omega⟩ : Fin 768).val : Int) := by
        simp only [Fin.val_mk]; omega
      rw [asm_out_data s v _ hc]
      simp [hw]
    · rw [asm_out_undefined s v hw]
      simp [hw]
  · by_cases hr : 0 ≤ s.pal_ridx ∧ s.pal_ridx < 768
    · have hc : s.pal_ridx = ((⟨s.pal_ridx.toNat, by omega⟩ : Fin 768).val : Int) := by
        simp only [Fin.val_mk]; omega
      rw [asm_in_data s _ hc]
      simp [hr]
    · rw [asm_in_undefined s hr]
      simp [hr]

/-- Witness for C20: the zero state satisfies the invariant and a data write, a data read
and a read-index selection preserve it. -/
theorem palette_invariant_witness :
    pal_inv dos_zero
    ∧ (∃ t, asm_out dos_zero 0x3C9 0xFF = some t ∧ pal_inv t)
    ∧ (∃ x t, asm_in dos_zero 0x3C9 = some (x, t) ∧ pal_inv t)
    ∧ pal_inv (asm_out_3c7 dos_zero 0xFF) :=
  ⟨pal_inv_zero,
    (palette_invariant dos_zero 0x3C9 0xFF).2.1 pal_inv_zero,
    (palette_invariant dos_zero 0x3C9 0xFF).2.2.1 pal_inv_zero,
    (palette_invariant dos_zero 0x3C9 0xFF).2.2.2.1 pal_inv_zero⟩

/-! ## FPU register stack -/

/-- C21: for every state and every integer `i`, `ST(i)` is slot `(fpu_top + i) mod 8`, an
index in 0..7; `fpu_push(v)` sets `fpu_top` to `(fpu_top - 1) mod 8` and writes `v` to the new
`ST(0)`, leaving the other seven slots unchanged; `fpu_pop` returns `ST(0)` and sets `fpu_top`
to `(fpu_top + 1) mod 8`, leaving all eight slots unchanged; after either operation
`0 ≤ fpu_top < 8`, and neither touches integer registers, flags, memory or the palette. -/
theorem fpu_stack_discipline (s : dos_t) (i : Int) (v : Float) :
    (((ST_slot s i).val : Int) = (s.fpu_top + i) % 8 ∧ (ST_slot s i).val < 8
      ∧ ST s i = s.fpu (ST_slot s i))
    ∧ ((fpu_push s v).fpu_top = (s.fpu_top - 1) % 8
      ∧ ((ST_slot (fpu_push s v) 0).val : Int) = (s.fpu_top - 1) % 8
      ∧ ST (fpu_push s v) 0 = v
      ∧ (∀ k : Fin 8, k ≠ ST_slot (fpu_push s v) 0 → (fpu_push s v).fpu k = s.fpu k)
      ∧ 0 ≤ (fpu_push s v).fpu_top ∧ (fpu_push s v).fpu_top < 8
      ∧ fpu_frame s (fpu_push s v))
    ∧ ((fpu_pop s).1 = ST s 0
      ∧ (fpu_pop s).2.fpu_top = (s.fpu_top + 1) % 8
      ∧ (fpu_pop s).2.fpu = s.fpu
      ∧ 0 ≤ (fpu_pop s).2.fpu_top ∧ (fpu_pop s).2.fpu_top < 8
      ∧ fpu_frame s (fpu_pop s).2) := by
  have hs : ST_slot (fpu_push s v) 0 = ST_slot s (-1) := by
    rw [ST_slot_eq_iff, fpu_push_top]
    omega
  refine ⟨⟨ST_slot_val s i, (ST_slot s i).isLt, rfl⟩,
    ⟨fpu_push_top s v, ?_, ?_, fun k hk => ?_, ?_, ?_, fpu_frame_push s v⟩,
    ⟨rfl, ?_, ?_, ?_, ?_, fpu_frame_pop s⟩⟩
  · rw [ST_slot_val, fpu_push_top]
    omega
  · rw [ST, hs, fpu_push_fpu, Function.update_same]
  · rw [hs] at hk
    rw [fpu_push_fpu, Function.update_noteq hk]
  · rw [fpu_push_top]
    omega
  · rw [fpu_push_top]
    omega
  · rw [fpu_pop_state]
  · rw [fpu_pop_state]
  · rw [fpu_pop_state]
    show 0 ≤ (s.fpu_top + 1) % 8
    omega
  · rw [fpu_pop_state]
    show (s.fpu_top + 1) % 8 < 8
    omega

/-- C22: nine consecutive `fpu_push` calls (`v1` first) followed by nine `fpu_pop` calls
return `v9, v8, ..., v2` for the first eight pops and `v9` again for the ninth: the ninth
push writes the slot that held `v1`, so the register file then holds `v9, ..., v2` and `v1`
is lost.  The nine pops leave `fpu_top` at its pre-push value modulo 8, which is the
pre-push value itself for a top pointer in `0..7`; the same holds for `n` pushes followed by
`n` pops, for every `n`. -/
theorem fpu_push_pop_nine (s : dos_t) (v1 v2 v3 v4 v5 v6 v7 v8 v9 : Float) (vs : List Float) :
    (pop_n 9 (push_all s [v1, v2, v3, v4, v5, v6, v7, v8, v9])).1
        = [v9, v8, v7, v6, v5, v4, v3, v2, v9]
    ∧ ST (push_all s [v1]) 0 = v1
    ∧ ST_slot (push_all s [v1, v2, v3, v4, v5, v6, v7, v8, v9]) 0 = ST_slot (push_all s [v1]) 0
    ∧ (List.range 8).map (fun k => ST (push_all s [v1, v2, v3, v4, v5, v6, v7, v8, v9]) (k : Nat))
        = [v9, v8, v7, v6, v5, v4, v3, v2]
    ∧ (pop_n 9 (push_all s [v1, v2, v3, v4, v5, v6, v7, v8, v9])).2.fpu_top = s.fpu_top % 8
    ∧ (0 ≤ s.fpu_top ∧ s.fpu_top < 8 →
        (pop_n 9 (push_all s [v1, v2, v3, v4, v5, v6, v7, v8, v9])).2.fpu_top = s.fpu_top)
    ∧ (pop_n vs.length (push_all s vs)).2.fpu_top % 8 = s.fpu_top % 8
    ∧ (0 ≤ s.fpu_top ∧ s.fpu_top < 8 →
        (pop_n vs.length (push_all s vs)).2.fpu_top = s.fpu_top) := by
  have h9 := push_pop_top s [v1, v2, v3, v4, v5, v6, v7, v8, v9]
  have hr := pop_n_top 9 (push_all s [v1, v2, v3, v4, v5, v6, v7, v8, v9])
  have hp := push_all_top s [v1, v2, v3, v4, v5, v6, v7, v8, v9]
  have hin := hr.2 (hp.2 (Or.inr (by simp)))
  refine ⟨?_, ?_, ?_, ?_, ?_, h9.2, (push_pop_top s vs).1, (push_pop_top s vs).2⟩
  · rw [pop_n_vals]
    norm_num [push_all, ST_push, List.range_succ]
  · simp [push_all, ST_push]
  · simp only [push_all, List.foldl_cons, List.foldl_nil, ST_slot_push, ST_slot_eq_iff]
    omega
  · norm_num [push_all, ST_push, List.range_succ]
  · have h : (pop_n 9 (push_all s [v1, v2, v3, v4, v5, v6, v7, v8, v9])).2.fpu_top % 8
        = s.fpu_top % 8 := h9.1
    omega

/-- Witness for C22: the zero state has `fpu_top = 0`, inside `0..7`. -/
theorem fpu_push_pop_nine_witness :
    (0 ≤ dos_zero.fpu_top ∧ dos_zero.fpu_top < 8)
    ∧ (pop_n 9 (push_all dos_zero [1, 2, 3, 4, 5, 6, 7, 8, 9])).1 = [9, 8, 7, 6, 5, 4, 3, 2, 9]
    ∧ (pop_n 9 (push_all dos_zero [1, 2, 3, 4, 5, 6, 7, 8, 9])).2.fpu_top = dos_zero.fpu_top :=
  ⟨by decide, (fpu_push_pop_nine dos_zero 1 2 3 4 5 6 7 8 9 []).1,
    (fpu_push_pop_nine dos_zero 1 2 3 4 5 6 7 8 9 []).2.2.2.2.2.1 (by decide)⟩

/-- C23: for every state and indices `d`, `src`, each "...and pop" arithmetic form
(`asm_fsubp_st`, `asm_fdivp_st`, `asm_fmulp_st`, `asm_faddp_st`) replaces `ST(d)` by
`ST(d) op ST(src)`, with `ST(d)` the left operand (minuend, dividend) and `ST(src)` the right
operand, and then pops exactly once (`fpu_top` advances by 1 modulo 8); in particular after
`asm_fsubp_st(1, 0)` the new `ST(0)` is old `ST(1)` minus old `ST(0)`.  `asm_fmul_st` performs
the same combination without the pop. -/
theorem asm_arith_pop (s : dos_t) (d src : Int) :
    arith_pop_post (fun a b => a - b) s d src (asm_fsubp_st s d src)
    ∧ arith_pop_post (fun a b => a / b) s d src (asm_fdivp_st s d src)
    ∧ arith_pop_post (fun a b => a * b) s d src (asm_fmulp_st s d src)
    ∧ arith_pop_post (fun a b => a + b) s d src (asm_faddp_st s d src)
    ∧ ST (asm_fsubp_st s 1 0) 0 = ST s 1 - ST s 0
    ∧ ((asm_fmul_st s d src).fpu_top = s.fpu_top
      ∧ (asm_fmul_st s d src).fpu = Function.update s.fpu (ST_slot s d) (ST s d * ST s src)
      ∧ ST (asm_fmul_st s d src) d = ST s d * ST s src
      ∧ (∀ k : Int, k % 8 ≠ d % 8 → ST (asm_fmul_st s d src) k = ST s k)
      ∧ fpu_frame s (asm_fmul_st s d src)) := by
  refine ⟨arith_pop_post_intro _ s d src, arith_pop_post_intro _ s d src,
    arith_pop_post_intro _ s d src, arith_pop_post_intro _ s d src, ?_,
    rfl, rfl, ?_, fun k hk => ?_, fpu_frame_ST_set s d _⟩
  · exact (arith_pop_post_intro (fun a b => a - b) s 1 0).2.2.1 0 (by decide)
  · rw [asm_fmul_st, ST_ST_set, if_pos rfl]
  · rw [asm_fmul_st, ST_ST_set, if_neg hk]

/-- C24: for every state with `ST(0) = t`, after `asm_fsincos` `ST(0)` is `cos(t)` and `ST(1)`
is `sin(t)`, both computed from the original `t`; `fpu_top` has decreased by 1 modulo 8 and
each old `ST(k)` for `1 ≤ k ≤ 6` is now `ST(k + 1)`.  For `t = 0`, with a C library whose
`cos(0)` is 1.0 and `sin(0)` is 0.0, this leaves `ST(0) = 1.0` and `ST(1) = 0.0`. -/
theorem asm_fsincos_stack (m : libm_t) (s : dos_t) :
    ST (asm_fsincos m s) 0 = m.cos (ST s 0)
    ∧ ST (asm_fsincos m s) 1 = m.sin (ST s 0)
    ∧ (asm_fsincos m s).fpu_top = (s.fpu_top - 1) % 8
    ∧ (∀ k : Int, 1 ≤ k → k ≤ 6 → ST (asm_fsincos m s) (k + 1) = ST s k)
    ∧ fpu_frame s (asm_fsincos m s)
    ∧ (ST s 0 = 0.0 → m.cos 0.0 = 1.0 → m.sin 0.0 = 0.0 →
        ST (asm_fsincos m s) 0 = 1.0 ∧ ST (asm_fsincos m s) 1 = 0.0) := by
  have h0 : ST (asm_fsincos m s) 0 = m.cos (ST s 0) := by
    rw [asm_fsincos, ST_push, if_pos (by decide)]
  have h1 : ST (asm_fsincos m s) 1 = m.sin (ST s 0) := by
    rw [asm_fsincos, ST_push, if_neg (by decide), ST_ST_set, if_pos (by decide)]
  refine ⟨h0, h1, ?_, fun k hk1 hk6 => ?_,
    fpu_frame_trans (fpu_frame_ST_set s 0 _) (fpu_frame_push _ _), fun ht hc hs => ?_⟩
  · rw [asm_fsincos, fpu_push_top]
    rfl
  · rw [asm_fsincos, ST_push, if_neg (by omega), ST_ST_set, if_neg (by omega)]
    congr 1
    omega
  · rw [h0, h1, ht, hc, hs]
    exact ⟨rfl, rfl⟩

/-- Witness for C24: `fldz` on the zero state makes `ST(0) = 0.0`; the library passed has
`cos` constantly 1.0 and `sin` constantly 0.0. -/
theorem asm_fsincos_stack_witness :
    ST (asm_fldz dos_zero) 0 = 0.0
    ∧ ST (asm_fsincos ⟨fun _ => 0.0, fun _ => 1.0, Float.sqrt, Float.atan2, fun _ => 0⟩
        (asm_fldz dos_zero)) 0 = 1.0
    ∧ ST (asm_fsincos ⟨fun _ => 0.0, fun _ => 1.0, Float.sqrt, Float.atan2, fun _ => 0⟩
        (asm_fldz dos_zero)) 1 = 0.0 :=
  have h : ST (asm_fldz dos_zero) 0 = 0.0 := by rw [asm_fldz, ST_push, if_pos (by decide)]
  ⟨h, (asm_fsincos_stack ⟨fun _ => 0.0, fun _ => 1.0, Float.sqrt, Float.atan2, fun _ => 0⟩
    (asm_fldz dos_zero)).2.2.2.2.2 h rfl rfl⟩

/-- C25: for every state with `ST(0) = x` and `ST(1) = y`, `asm_fpatan` pops exactly once
(`fpu_top` advances by 1 modulo 8) and leaves `atan2(y, x)` in the new `ST(0)`, the slot that
held `y`; the operand order is `y` = old `ST(1)`, `x` = old `ST(0)`, and old `ST(k)` for
`2 ≤ k ≤ 7` becomes `ST(k - 1)` unchanged. -/
theorem asm_fpatan_stack (m : libm_t) (s : dos_t) :
    (asm_fpatan m s).fpu_top = (s.fpu_top + 1) % 8
    ∧ ST (asm_fpatan m s) 0 = m.atan2 (ST s 1) (ST s 0)
    ∧ ST_slot (asm_fpatan m s) 0 = ST_slot s 1
    ∧ (asm_fpatan m s).fpu = Function.update s.fpu (ST_slot s 1) (m.atan2 (ST s 1) (ST s 0))
    ∧ (∀ k : Int, 2 ≤ k → k ≤ 7 → ST (asm_fpatan m s) (k - 1) = ST s k)
    ∧ fpu_frame s (asm_fpatan m s) := by
  have hs : ST_slot (fpu_pop s).2 0 = ST_slot s 1 := by rw [ST_slot_pop]; rfl
  refine ⟨?_, ?_, ?_, ?_, fun k hk2 hk7 => ?_,
    fpu_frame_trans (fpu_frame_pop s) (fpu_frame_ST_set _ 0 _)⟩
  · show (fpu_pop s).2.fpu_top = _
    rw [fpu_pop_state]
  · rw [asm_fpatan, ST_ST_set, if_pos rfl]
  · rw [asm_fpatan, ST_slot_ST_set, hs]
  · show Function.update (fpu_pop s).2.fpu (ST_slot (fpu_pop s).2 0) _ = _
    rw [hs, fpu_pop_state]
  · rw [asm_fpatan, ST_ST_set, if_neg (by omega), ST_pop]
    congr 1
    omega

/-- C26: for every state and index `i`, `asm_fld_st(i)` duplicates `ST(i)` and pushes it:
afterwards `ST(0)` is old `ST(i)` (also for `i = 7`, whose slot is the one overwritten),
`ST(k + 1)` is old `ST(k)` for `0 ≤ k ≤ 6`, and `fpu_top` has decreased by 1 modulo 8;
`asm_fxch(i)` swaps `ST(0)` and `ST(i)`, leaves the other slots and `fpu_top` unchanged, and
applied twice restores the state. -/
theorem asm_fld_fxch (s : dos_t) (i : Int) :
    (ST (asm_fld_st s i) 0 = ST s i
      ∧ ST_slot (asm_fld_st s 7) 0 = ST_slot s 7
      ∧ (∀ k : Int, 0 ≤ k → k ≤ 6 → ST (asm_fld_st s i) (k + 1) = ST s k)
      ∧ (asm_fld_st s i).fpu_top = (s.fpu_top - 1) % 8
      ∧ fpu_frame s (asm_fld_st s i))
    ∧ (ST (asm_fxch s i) 0 = ST s i
      ∧ ST (asm_fxch s i) i = ST s 0
      ∧ (∀ k : Int, k % 8 ≠ 0 → k % 8 ≠ i % 8 → ST (asm_fxch s i) k = ST s k)
      ∧ (asm_fxch s i).fpu_top = s.fpu_top
      ∧ fpu_frame s (asm_fxch s i)
      ∧ asm_fxch (asm_fxch s i) i = s) := by
  refine ⟨⟨?_, ?_, fun k hk0 hk6 => ?_, fpu_push_top s _, fpu_frame_push s _⟩,
    ?_, ?_, fun k hk0 hki => ?_, rfl,
    fpu_frame_trans (fpu_frame_ST_set s 0 _) (fpu_frame_ST_set _ i _), ?_⟩
  · rw [asm_fld_st, ST_push, if_pos (by decide)]
  · rw [asm_fld_st, ST_slot_push, ST_slot_eq_iff]
    omega
  · rw [asm_fld_st, ST_push, if_neg (by omega)]
    congr 1
    omega
  · rw [asm_fxch, ST_ST_set, ST_ST_set]
    by_cases h : (0 : Int) % 8 = i % 8
    · rw [if_pos h]
      exact ST_congr s 0 i h
    · rw [if_neg h, if_pos rfl]
  · rw [asm_fxch, ST_ST_set, if_pos rfl]
  · rw [asm_fxch, ST_ST_set, if_neg hki, ST_ST_set, if_neg (by omega)]
  · have h2 : (asm_fxch (asm_fxch s i) i).fpu = s.fpu := by
      rw [asm_fxch_fpu (asm_fxch s i), ST_slot_asm_fxch, ST_slot_asm_fxch, asm_fxch_fpu s]
      funext k
      simp only [Function.update_apply]
      split_ifs <;> simp_all
    have e : ∀ t : dos_t, asm_fxch t i = { t with fpu := (asm_fxch t i).fpu } :=
      fun _ => rfl
    rw [e (asm_fxch s i), h2, e s]

/-- C28: when the output opens, the bytes emitted by `save_bmp` begin with a 14-byte file
header `B`, `M`, total file size, reserved 0, pixel-data offset, and a 40-byte info header
with header size 40, width 320, height 200, planes 1, bits per pixel 8, compression 0,
image size 64000, both resolution fields 0, colours used 256, important colours 0, every
field little-endian; the declared file size 65078 is the number of bytes emitted and the
declared pixel-data offset 1078 is `14 + 40 + 1024`, the position of the first pixel byte.
When the output does not open nothing is emitted. -/
theorem save_bmp_header (s : dos_t) :
    save_bmp s none = none
    ∧ save_bmp s (some []) = some (bmp_bytes s)
    ∧ (bmp_bytes s).take 54 =
        [u8 'B'.toNat, u8 'M'.toNat, 54, 254, 0, 0, 0, 0, 0, 0, 54, 4, 0, 0,
          40, 0, 0, 0, 64, 1, 0, 0, 200, 0, 0, 0, 1, 0, 8, 0, 0, 0, 0, 0, 0, 250, 0, 0,
          0, 0, 0, 0, 0, 0, 0, 0, 0, 1, 0, 0, 0, 0, 0, 0]
    ∧ (le32_at (bmp_bytes s) 2 = 65078 ∧ le32_at (bmp_bytes s) 6 = 0
      ∧ le32_at (bmp_bytes s) 10 = 1078)
    ∧ (le32_at (bmp_bytes s) 14 = 40 ∧ le32_at (bmp_bytes s) 18 = 320
      ∧ le32_at (bmp_bytes s) 22 = 200 ∧ le16_at (bmp_bytes s) 26 = 1
      ∧ le16_at (bmp_bytes s) 28 = 8 ∧ le32_at (bmp_bytes s) 30 = 0
      ∧ le32_at (bmp_bytes s) 34 = 64000 ∧ le32_at (bmp_bytes s) 38 = 0
      ∧ le32_at (bmp_bytes s) 42 = 0 ∧ le32_at (bmp_bytes s) 46 = 256
      ∧ le32_at (bmp_bytes s) 50 = 0)
    ∧ (bmp_bytes s).length = 65078
    ∧ le32_at (bmp_bytes s) 2 = (bmp_bytes s).length
    ∧ le32_at (bmp_bytes s) 10 = 14 + 40 + 1024
    ∧ (bmp_bytes s)[le32_at (bmp_bytes s) 10]? = some (s.vga (u16 ((199 * 320 + 0 : Nat)))) := by
  have hlen := bmp_bytes_length s
  have h2 : le32_at (bmp_bytes s) 2 = 65078 := by
    rw [bmp_bytes_eq, le32_at_append _ _ _ (by decide)]; decide
  have h10 : le32_at (bmp_bytes s) 10 = 1078 := by
    rw [bmp_bytes_eq, le32_at_append _ _ _ (by decide)]; decide
  refine ⟨rfl, ?_, bmp_bytes_header s, ⟨h2, ?_, h10⟩, ⟨?_, ?_, ?_, ?_, ?_, ?_, ?_, ?_, ?_, ?_, ?_⟩,
    hlen, by rw [h2, hlen], by rw [h10], ?_⟩
  · simp only [bmp_bytes, save_bmp, Option.getD_some]
  all_goals first
    | (rw [bmp_bytes_eq, le32_at_append _ _ _ (by decide)]; decide)
    | (rw [bmp_bytes_eq, le16_at_append _ _ _ (by decide)]; decide)
    | (rw [h10]; exact bmp_bytes_pixel s 0 199 (by decide) (by decide))

/-- C29: for every state and every palette index `i` in `0..255`, bytes `54 + 4i` to
`54 + 4i + 3` of the `save_bmp` output are `(pal[3i+2] * 4) mod 256`, `(pal[3i+1] * 4) mod 256`,
`(pal[3i] * 4) mod 256` and 0, that is blue, green, red, zero; when the palette components are
6-bit (each at most 63) every channel byte is exactly 4 times the component. -/
theorem save_bmp_palette (s : dos_t) (i : Fin 256) :
    (∃ b g r : uint8_t,
        (bmp_bytes s)[54 + 4 * i.val]? = some b ∧ (bmp_bytes s)[54 + 4 * i.val + 1]? = some g
        ∧ (bmp_bytes s)[54 + 4 * i.val + 2]? = some r ∧ (bmp_bytes s)[54 + 4 * i.val + 3]? = some 0
        ∧ b.val = ((s.pal ⟨3 * i.val + 2, by omega⟩).val * 4) % 256
        ∧ g.val = ((s.pal ⟨3 * i.val + 1, by omega⟩).val * 4) % 256
        ∧ r.val = ((s.pal ⟨3 * i.val, by omega⟩).val * 4) % 256
        ∧ ((s.pal ⟨3 * i.val + 2, by omega⟩).val ≤ 63 →
            b.val = 4 * (s.pal ⟨3 * i.val + 2, by omega⟩).val)
        ∧ ((s.pal ⟨3 * i.val + 1, by omega⟩).val ≤ 63 →
            g.val = 4 * (s.pal ⟨3 * i.val + 1, by omega⟩).val)
        ∧ ((s.pal ⟨3 * i.val, by omega⟩).val ≤ 63 →
            r.val = 4 * (s.pal ⟨3 * i.val, by omega⟩).val)) := by
  have hsh : ∀ v : uint8_t, (u8 ((v.val <<< 2 : Nat))).val = (v.val * 4) % 256 := by
    intro v
    rw [u8_val_nat, Nat.shiftLeft_eq]
  have e2 : (⟨i.val * 3 + 2, by omega⟩ : Fin 768) = ⟨3 * i.val + 2, by omega⟩ :=
    Fin.ext (by simp only [Fin.val_mk]; omega)
  have e1 : (⟨i.val * 3 + 1, by omega⟩ : Fin 768) = ⟨3 * i.val + 1, by omega⟩ :=
    Fin.ext (by simp only [Fin.val_mk]; omega)
  have e0 : (⟨i.val * 3 + 0, by omega⟩ : Fin 768) = ⟨3 * i.val, by omega⟩ :=
    Fin.ext (by simp only [Fin.val_mk]; omega)
  refine ⟨u8 (((s.pal ⟨i.val * 3 + 2, by omega⟩).val <<< 2 : Nat)),
    u8 (((s.pal ⟨i.val * 3 + 1, by omega⟩).val <<< 2 : Nat)),
    u8 (((s.pal ⟨i.val * 3 + 0, by omega⟩).val <<< 2 : Nat)),
    bmp_bytes_palette s i 0 (by decide), bmp_bytes_palette s i 1 (by decide),
    bmp_bytes_palette s i 2 (by decide), bmp_bytes_palette s i 3 (by decide), ?_, ?_, ?_,
    fun h => ?_, fun h => ?_, fun h => ?_⟩
  · rw [hsh, e2]
  · rw [hsh, e1]
  · rw [hsh, e0]
  · rw [hsh, e2]; omega
  · rw [hsh, e1]; omega
  · rw [hsh, e0]; omega

/-- Witness for C29: the zero palette is 6-bit; entry 0 of the colour table is four zero
bytes. -/
theorem save_bmp_palette_witness :
    (dos_zero.pal ⟨3 * (0 : Fin 256).val + 2, by decide⟩).val ≤ 63
    ∧ ∃ b g r : uint8_t,
        (bmp_bytes dos_zero)[54 + 4 * (0 : Fin 256).val]? = some b
        ∧ (bmp_bytes dos_zero)[54 + 4 * (0 : Fin 256).val + 1]? = some g
        ∧ (bmp_bytes dos_zero)[54 + 4 * (0 : Fin 256).val + 2]? = some r
        ∧ (bmp_bytes dos_zero)[54 + 4 * (0 : Fin 256).val + 3]? = some 0
        ∧ b.val = 4 * (dos_zero.pal ⟨3 * (0 : Fin 256).val + 2, by decide⟩).val :=
  ⟨by decide,
    match save_bmp_palette dos_zero 0 with
    | ⟨b, g, r, hb, hg, hr, hz, _, _, _, h4, _, _⟩ => ⟨b, g, r, hb, hg, hr, hz, h4 (by decide)⟩⟩

/-- C30: for every state and every pixel `(x, y)` with `0 ≤ x < 320` and `0 ≤ y < 200`, the
byte at offset `1078 + (199 - y) * 320 + x` of the `save_bmp` output is the ES-region byte
`vga[y * 320 + x]`: one byte per pixel, row-major within a row, rows stored bottom-to-top
(image row 199 first, row 0 last); the 64000 pixel bytes end the file, and the ES bytes at
offsets `64000..65535` are not emitted: the output does not depend on them. -/
theorem save_bmp_pixels (s : dos_t) (x y : Nat) (hx : x < 320) (hy : y < 200) :
    (bmp_bytes s)[1078 + (199 - y) * 320 + x]? = some (seg_ptr s SEG_ES (u16 ((y * 320 + x : Nat))))
    ∧ (u16 ((y * 320 + x : Nat))).val = y * 320 + x
    ∧ (bmp_bytes s)[1078 + x]? = some (s.vga (u16 ((199 * 320 + x : Nat))))
    ∧ (bmp_bytes s)[1078 + 199 * 320 + x]? = some (s.vga (u16 ((x : Nat))))
    ∧ (bmp_bytes s).length = 1078 + 64000
    ∧ (∀ t : dos_t, t.pal = s.pal → (∀ a : uint16_t, a.val < 64000 → t.vga a = s.vga a) →
        bmp_bytes t = bmp_bytes s) := by
  refine ⟨bmp_bytes_pixel s x y hx hy, ?_, ?_, ?_, bmp_bytes_length s,
    fun t hp hv => bmp_bytes_congr s t hp hv⟩
  · rw [u16_val_nat]
    omega
  · exact bmp_bytes_pixel s x 199 hx (by decide)
  · have h := bmp_bytes_pixel s x 0 hx (by decide)
    simpa using h

/-- Witness for C30: the pixel `(0, 0)` of the zero state is the byte at offset
`1078 + 199 * 320`. -/
theorem save_bmp_pixels_witness :
    ((0 : Nat) < 320 ∧ (0 : Nat) < 200)
    ∧ (bmp_bytes dos_zero)[1078 + (199 - 0) * 320 + 0]?
        = some (seg_ptr dos_zero SEG_ES (u16 ((0 * 320 + 0 : Nat)))) :=
  ⟨⟨by decide, by decide⟩, (save_bmp_pixels dos_zero 0 0 (by decide) (by decide)).1⟩

/-! ## Moves, complement and sign extension -/

/-- C32: for every state and operands, `asm_mov`, `asm_mov_i`, `asm_mov_r_m`, `asm_mov_m_r`,
`asm_lea`, `asm_not` and `asm_cbw` leave CF, ZF, SF and OF unchanged; `asm_lea` is exactly
`asm_mov_i`: it leaves memory as it is and its effect does not depend on what memory holds;
`asm_not` replaces the register by its bitwise complement within its width, `2^w - 1 - v`,
and leaves the registers that share no byte with it unchanged. -/
theorem mov_lea_not_cbw_flags (s : dos_t) (d src : reg_t) (v : uint16_t) (g : seg_t)
    (a : uint16_t) (m1 m2 m3 : uint16_t → uint8_t) :
    (same_flags s (asm_mov s d src) ∧ same_flags s (asm_mov_i s d v)
      ∧ same_flags s (asm_mov_r_m s d g a) ∧ same_flags s (asm_mov_m_r s g a src)
      ∧ same_flags s (asm_lea s d v) ∧ same_flags s (asm_not s d) ∧ same_flags s (asm_cbw s))
    ∧ (asm_lea s d v = asm_mov_i s d v
      ∧ (∀ g', seg_ptr (asm_lea s d v) g' = seg_ptr s g')
      ∧ asm_lea { s with mem := m1, vga := m2, fsmem := m3 } d v
          = { asm_lea s d v with mem := m1, vga := m2, fsmem := m3 })
    ∧ ((reg_get (asm_not s d) d).val = 2 ^ width d - 1 - (reg_get s d).val
      ∧ (reg_get (asm_not s d) d).val + (reg_get s d).val = 2 ^ width d - 1
      ∧ (∀ i, i < width d →
          (reg_get (asm_not s d) d).val.testBit i = !(reg_get s d).val.testBit i)
      ∧ (∀ x, overlaps d x = false → reg_get (asm_not s d) x = reg_get s x)
      ∧ (∀ g', seg_ptr (asm_not s d) g' = seg_ptr s g')) := by
  have hn := asm_not_val s d
  have hlt : (reg_get s d).val < 2 ^ width d := by
    cases h : reg_is8 d
    · simp only [width, h, Bool.false_eq_true, if_false]
      exact (reg_get s d).isLt
    · simp only [width, h, if_true]
      exact reg_get_lt_of_is8 s d h
  refine ⟨⟨same_flags_reg_set _ _ _, same_flags_reg_set _ _ _, same_flags_asm_mov_r_m s d g a,
      same_flags_asm_mov_m_r s g a src, same_flags_reg_set _ _ _, same_flags_reg_set _ _ _,
      ⟨rfl, rfl, rfl, rfl⟩⟩,
    ⟨rfl, fun g' => seg_ptr_reg_set _ _ _ _, ?_⟩,
    ⟨hn, by omega, fun i hi => ?_, fun x hx => reg_get_reg_set_other _ _ _ _ hx,
      fun g' => seg_ptr_reg_set _ _ _ _⟩⟩
  · cases d <;> rfl
  · rw [hn, Nat.sub_sub, Nat.add_comm 1, Nat.testBit_two_pow_sub_succ hlt]
    simp [hi]

/-- C33: for every state, `asm_cbw` sign-extends AL into AX: AL is unchanged, AH becomes
0xFF if bit 7 of AL is set and 0x00 otherwise (AX is AL if AL < 128, else AL + 0xFF00), no
flag is touched and nothing but AX is written. -/
theorem asm_cbw_sign_extend (s : dos_t) :
    reg_get (asm_cbw s) AL = reg_get s AL
    ∧ (reg_get (asm_cbw s) AH).val = (if (reg_get s AL).val.testBit 7 then 0xFF else 0x00)
    ∧ ((reg_get s AL).val.testBit 7 = true ↔ 128 ≤ (reg_get s AL).val)
    ∧ (reg_get (asm_cbw s) AX).val
        = (if (reg_get s AL).val < 128 then (reg_get s AL).val else (reg_get s AL).val + 0xFF00)
    ∧ ((reg_get (asm_cbw s) AX).val : Int) % 65536 = signed 8 (reg_get s AL).val % 65536
    ∧ same_flags s (asm_cbw s)
    ∧ asm_cbw s = { s with ax := (asm_cbw s).ax } := by
  have h8 : (reg_get s AL).val < 256 := reg_get_lt_of_is8 s AL rfl
  have hbit : (reg_get s AL).val.testBit 7 = decide (128 ≤ (reg_get s AL).val) := by
    rw [Nat.testBit_to_div_mod]
    simp only [Nat.reducePow, decide_eq_decide]
    omega
  have hax : (asm_cbw s).ax.val
      = (if (reg_get s AL).val < 128 then (reg_get s AL).val else (reg_get s AL).val + 0xFF00) := by
    simp only [asm_cbw, reg_get, zx, lo, u16, i16, i8, Fin.val_mk]
    split_ifs <;> omega
  refine ⟨?_, ?_, ?_, hax, ?_, ⟨rfl, rfl, rfl, rfl⟩, rfl⟩
  · apply Fin.ext
    show (asm_cbw s).ax.val % 256 = s.ax.val % 256
    rw [hax]
    simp only [reg_get, zx, lo, Fin.val_mk]
    split_ifs <;> omega
  · show (asm_cbw s).ax.val / 256 = _
    rw [hax, hbit]
    simp only [decide_eq_true_eq]
    split_ifs <;> omega
  · rw [hbit]
    simp only [decide_eq_true_eq]
  · show ((asm_cbw s).ax.val : Int) % 65536 = _
    rw [hax]
    simp only [signed, Nat.reducePow, Nat.reduceSub]
    split_ifs <;> push_cast <;> omega

/-! ## The rotate count -/

/-- Counterexample to C34 as stated: `rol ax, 15` with AX = 1 gives 0x8000, the value rotated
by 15 positions, whereas a count reduced modulo 15 would be 0 and leave AX at 1. -/
theorem asm_rol_count_mod15_fails :
    (reg_get (asm_rol { dos_zero with ax := 0x0001 } AX 15) AX).val = 0x8000
    ∧ rotl 16 0x0001 (15 % 15) = 0x0001
    ∧ (reg_get (asm_rol { dos_zero with ax := 0x0001 } AX 15) AX).val
        ≠ rotl 16 (reg_get { dos_zero with ax := 0x0001 } AX).val (15 % 15) := by
  decide

/-- C34: as amended, `asm_rol` reduces the count modulo 16 for a 16-bit register (the mask
`cnt AND 15`) and modulo 8 for an 8-bit register (`cnt AND 7`): for every state, register
and count `c` the register is left holding its old value rotated left by `c mod w`
positions within its width `w`. -/
theorem asm_rol_count_mod16 (s : dos_t) (d : reg_t) (c : Nat) :
    (reg_get (asm_rol s d c) d).val = rotl (width d) (reg_get s d).val (c % width d)
    ∧ (reg_is8 d = false →
        (reg_get (asm_rol s d c) d).val = rotl 16 (reg_get s d).val (c % 16)
        ∧ c &&& 15 = c % 16)
    ∧ (reg_is8 d = true →
        (reg_get (asm_rol s d c) d).val = rotl 8 (reg_get s d).val (c % 8)
        ∧ c &&& 7 = c % 8) := by
  have h := asm_rol_val s d c
  refine ⟨h, fun h16 => ⟨?_, Nat.and_pow_two_sub_one_eq_mod c 4⟩,
    fun h8 => ⟨?_, Nat.and_pow_two_sub_one_eq_mod c 3⟩⟩
  · simpa only [width, h16, Bool.false_eq_true, if_false] using h
  · simpa only [width, h8, if_true] using h

/-- Witness for C34: `rol ax, 15` and `rol ax, 31` both rotate AX = 1 by 15 positions. -/
theorem asm_rol_count_mod16_witness :
    reg_is8 AX = false
    ∧ (reg_get (asm_rol { dos_zero with ax := 0x0001 } AX 31) AX).val
        = rotl 16 (reg_get { dos_zero with ax := 0x0001 } AX).val (31 % 16)
    ∧ rotl 16 0x0001 (31 % 16) = 0x8000 :=
  ⟨rfl, ((asm_rol_count_mod16 { dos_zero with ax := 0x0001 } AX 31).2.1 rfl).1, by decide⟩

/-! ## Multi-precision addition -/

/-- C38: for every state, `asm_add(AL, BL)` followed by `asm_adc(AH, BH)` leaves the same AX
value, `(AX0 + BX0) mod 65536`, the same CF (1 iff `AX0 + BX0 > 65535`) and the same SF as the
single 16-bit `asm_add(AX, BX)` on the original state, and BX is unchanged. -/
theorem add_adc_multiprecision (s : dos_t) :
    (asm_adc (asm_add s AL BL) AH BH).ax = (asm_add s AX BX).ax
    ∧ (asm_add s AX BX).ax.val = (s.ax.val + s.bx.val) % 65536
    ∧ (asm_adc (asm_add s AL BL) AH BH).cf = (asm_add s AX BX).cf
    ∧ (asm_add s AX BX).cf = (if s.ax.val + s.bx.val > 65535 then 1 else 0)
    ∧ (asm_adc (asm_add s AL BL) AH BH).sf = (asm_add s AX BX).sf
    ∧ (asm_adc (asm_add s AL BL) AH BH).bx = s.bx
    ∧ (asm_add s AX BX).bx = s.bx
    ∧ (asm_add s AL BL).cf
        = (if s.ax.val % 256 + s.bx.val % 256 > 255 then 1 else 0) := by
  have ha := s.ax.isLt
  have hb := s.bx.isLt
  have hAL : reg_is8 AL = true := rfl
  have hAH : reg_is8 AH = true := rfl
  have hAX : reg_is8 AX = false := rfl
  have hsplit : ∀ t : dos_t, t.ax.val = (reg_get t AL).val + 256 * (reg_get t AH).val := by
    intro t
    rw [reg_get_AL_val, reg_get_AH_val]
    omega
  have hbl : (reg_get s BL).val = s.bx.val % 256 := rfl
  have hbh : (reg_get s BH).val = s.bx.val / 256 := rfl
  -- the 16-bit addition
  have w1 : (asm_add s AX BX).ax.val = (s.ax.val + s.bx.val) % 65536 := by
    show (reg_get (asm_add s AX BX) AX).val = _
    simp only [asm_add, hAX, Bool.false_eq_true, if_false, reg_get_flags16,
      reg_get_reg_set_same16 _ _ _ hAX]
    rw [reg_get_AX, show reg_get s BX = s.bx from rfl]
    simp only [u16, u32, Fin.val_mk]
    omega
  have w2 : (asm_add s AX BX).cf = (if s.ax.val + s.bx.val > 65535 then 1 else 0) := by
    simp only [asm_add, hAX, Bool.false_eq_true, if_false, flags16_cf]
    rw [reg_get_AX, show reg_get s BX = s.bx from rfl]
    simp only [b2i, u32, Fin.val_mk, decide_eq_true_eq]
    clear * - ha hb
    split_ifs <;> omega
  have w3 : (asm_add s AX BX).sf = (((asm_add s AX BX).ax.val / 32768 % 2 : Nat) : Int) := by
    show _ = ((((reg_get (asm_add s AX BX) AX).val / 32768 % 2 : Nat)) : Int)
    simp only [asm_add, hAX, Bool.false_eq_true, if_false, flags16_sf, reg_get_flags16,
      reg_get_reg_set_same16 _ _ _ hAX]
  -- the low half
  have l1 : (reg_get (asm_add s AL BL) AL).val = (s.ax.val % 256 + s.bx.val % 256) % 256 := by
    simp only [asm_add, hAL, if_true, reg_get_flags8, reg_get_reg_set_same8 _ _ _ hAL, u8, u16,
      zx, Fin.val_mk, reg_get_AL_val, hbl]
    clear * - ha hb
    omega
  have l2 : reg_get (asm_add s AL BL) AH = reg_get s AH := by
    simp only [asm_add, hAL, if_true, reg_get_flags8]
    exact reg_get_reg_set_other _ AL AH _ rfl
  have l3 : reg_get (asm_add s AL BL) BH = reg_get s BH := by
    simp only [asm_add, hAL, if_true, reg_get_flags8]
    exact reg_get_reg_set_other _ AL BH _ rfl
  have l4 : (asm_add s AL BL).cf = (if s.ax.val % 256 + s.bx.val % 256 > 255 then 1 else 0) := by
    simp only [asm_add, hAL, if_true, flags8_cf, b2i, u8, u16, zx, Fin.val_mk, reg_get_AL_val,
      hbl, decide_eq_true_eq]
    clear * - ha hb
    split_ifs <;> omega
  -- the high half
  have m1 : (reg_get (asm_adc (asm_add s AL BL) AH BH) AH).val
      = ((s.ax.val / 256 + s.bx.val / 256 + (asm_add s AL BL).cf) % 256).toNat := by
    simp only [asm_adc, hAH, if_true, reg_get_flags8, reg_get_reg_set_same8 _ _ _ hAH, u8, u16,
      zx, Fin.val_mk, l2, l3, reg_get_AH_val, hbh]
    generalize (asm_add s AL BL).cf = c
    clear * - ha hb
    omega
  have m2 : (reg_get (asm_adc (asm_add s AL BL) AH BH) AL).val
      = (s.ax.val % 256 + s.bx.val % 256) % 256 := by
    rw [← l1]
    simp only [asm_adc, hAH, if_true, reg_get_flags8]
    rw [reg_get_reg_set_other _ AH AL _ rfl]
  have m3 : (asm_adc (asm_add s AL BL) AH BH).cf
      = (if s.ax.val / 256 + s.bx.val / 256 + (asm_add s AL BL).cf > 255 then 1 else 0) := by
    simp only [asm_adc, hAH, if_true, flags8_cf, b2i, u8, u16, zx, Fin.val_mk, l2, l3,
      reg_get_AH_val, hbh, decide_eq_true_eq]
    generalize hc : (asm_add s AL BL).cf = c
    have hc' : c = 0 ∨ c = 1 := by
      rw [← hc, l4]; split_ifs <;> simp
    clear * - ha hb hc'
    split_ifs <;> omega
  have m4 : (asm_adc (asm_add s AL BL) AH BH).sf
      = (((reg_get (asm_adc (asm_add s AL BL) AH BH) AH).val / 128 % 2 : Nat) : Int) := by
    simp only [asm_adc, hAH, if_true, flags8_sf, reg_get_flags8, reg_get_reg_set_same8 _ _ _ hAH,
      u8, u16, zx, Fin.val_mk]
    congr 2
    generalize (asm_add s AL BL).cf = c
    generalize (reg_get (asm_add s AL BL) AH).val = x
    generalize (reg_get (asm_add s AL BL) BH).val = y
    clear * -
    omega
  have hax : (asm_adc (asm_add s AL BL) AH BH).ax.val = (s.ax.val + s.bx.val) % 65536 := by
    rw [hsplit, m1, m2, l4]
    clear * - ha hb
    split_ifs <;> omega
  refine ⟨Fin.ext (by rw [hax, w1]), w1, ?_, w2, ?_, rfl, rfl, l4⟩
  · rw [m3, w2, l4]
    clear * - ha hb
    split_ifs <;> omega
  · rw [m4, w3, w1, m1, l4]
    clear * - ha hb
    split_ifs <;> omega

/-! ## Stack round trip -/

/-- C40: for every state (any SP, so also SP = 0 and SP = 1, where the word wraps around the
64KB region), every register `r` other than SP and every 16-bit register `r2` other than SP,
`asm_push(r)` followed by `asm_pop(r2)` leaves `r2` equal to the zero-extended value `r` had,
restores SP, changes no memory byte other than the two DS bytes at `(SP - 2) mod 65536` and
`(SP - 1) mod 65536`, and leaves the flags and the registers outside `r2` as they were. -/
theorem push_pop_round_trip (s : dos_t) (r r2 : reg_t) (hr : r ≠ SP)
    (h16 : reg_is8 r2 = false) (h2 : r2 ≠ SP) :
    reg_get (asm_pop (asm_push s r) r2) r2 = reg_get s r
    ∧ (reg_get (asm_pop (asm_push s r) r2) r2).val = (reg_get s r).val % 2 ^ width r
    ∧ (asm_pop (asm_push s r) r2).sp = s.sp
    ∧ (∀ g x, ¬ (g = SEG_DS ∧ (x.val = (s.sp.val + 65534) % 65536
                              ∨ x.val = (s.sp.val + 65535) % 65536)) →
        seg_ptr (asm_pop (asm_push s r) r2) g x = seg_ptr s g x)
    ∧ same_flags s (asm_pop (asm_push s r) r2)
    ∧ (∀ x, overlaps r2 x = false → x ≠ SP →
        reg_get (asm_pop (asm_push s r) r2) x = reg_get s x) := by
  have hsp := s.sp.isLt
  have hp : push_post s (reg_get s r) (asm_push s r) := by
    rw [asm_push_eq s r hr]
    exact push_post_mem_w16 s _
  have hrd := mem_r16_push_post s _ _ hp
  have hpop : asm_pop (asm_push s r) r2
      = { reg_set (asm_push s r) r2 (reg_get s r) with
          sp := u16 ((reg_set (asm_push s r) r2 (reg_get s r)).sp.val + 2) } := by
    simp only [asm_pop, hrd]
  have hsp2 : (reg_set (asm_push s r) r2 (reg_get s r)).sp = (asm_push s r).sp :=
    reg_set_sp_of_ne _ _ _ h2
  have hval : (reg_get s r).val % 2 ^ width r = (reg_get s r).val := by
    cases h : reg_is8 r
    · simp only [width, h, Bool.false_eq_true, if_false]
      exact Nat.mod_eq_of_lt (reg_get s r).isLt
    · simp only [width, h, if_true]
      exact Nat.mod_eq_of_lt (reg_get_lt_of_is8 s r h)
  have hget : reg_get (asm_pop (asm_push s r) r2) r2 = reg_get s r := by
    rw [hpop, reg_get_set_sp _ _ _ h2, reg_get_reg_set_same16 _ _ _ h16]
  refine ⟨hget, by rw [hget, hval], ?_, fun g x hx => ?_, ?_, fun x hx hx' => ?_⟩
  · rw [hpop]
    apply Fin.ext
    show (u16 ((reg_set (asm_push s r) r2 (reg_get s r)).sp.val + 2)).val = s.sp.val
    rw [hsp2]
    have := hp.1
    simp only [u16, Fin.val_mk]
    omega
  · rw [hpop]
    show seg_ptr (reg_set (asm_push s r) r2 (reg_get s r)) g x = _
    rw [seg_ptr_reg_set]
    apply Fin.ext
    rw [hp.2.1 g x, hp.1]
    have e : ((s.sp.val + 65534) % 65536 + 1) % 65536 = (s.sp.val + 65535) % 65536 := by omega
    rw [e, if_neg (fun c => hx ⟨c.1, Or.inr c.2⟩), if_neg (fun c => hx ⟨c.1, Or.inl c.2⟩)]
  · rw [hpop]
    have h1 := hp.2.2.2
    have h3 := same_flags_reg_set (asm_push s r) r2 (reg_get s r)
    exact ⟨h3.1.trans h1.1, h3.2.1.trans h1.2.1, h3.2.2.1.trans h1.2.2.1,
      h3.2.2.2.trans h1.2.2.2⟩
  · rw [hpop, reg_get_set_sp _ _ _ hx', reg_get_reg_set_other _ _ _ _ hx]
    exact hp.2.2.1 x hx'

/-- Witness for C40: with SP = 1 the pushed word lies at 0xFFFF and 0x0000; pushing AL and
popping into BX leaves BX = AL and SP = 1. -/
theorem push_pop_round_trip_witness :
    (AL ≠ SP ∧ reg_is8 BX = false ∧ BX ≠ SP)
    ∧ reg_get (asm_pop (asm_push { dos_zero with ax := 0x1234, sp := 0x0001 } AL) BX) BX
        = reg_get { dos_zero with ax := 0x1234, sp := 0x0001 } AL
    ∧ (asm_pop (asm_push { dos_zero with ax := 0x1234, sp := 0x0001 } AL) BX).sp = 0x0001
    ∧ (asm_pop (asm_push { dos_zero with ax := 0x1234, sp := 0x0000 } AX) BX).sp = 0x0000 :=
  ⟨⟨by decide, rfl, by decide⟩,
    (push_pop_round_trip { dos_zero with ax := 0x1234, sp := 0x0001 } AL BX
      (by decide) rfl (by decide)).1,
    (push_pop_round_trip { dos_zero with ax := 0x1234, sp := 0x0001 } AL BX
      (by decide) rfl (by decide)).2.2.1,
    (push_pop_round_trip { dos_zero with ax := 0x1234, sp := 0x0000 } AX BX
      (by decide) rfl (by decide)).2.2.1⟩

/-! ## The flag invariant -/

/-- C39: the predicate "CF, ZF, SF and OF each hold 0 or 1" holds in the zero-initialised
state and is preserved by every integer, stack, string and port operation of `dosemu.h`
(`asm_mov` through `asm_cbw`, the pushes and pops, `asm_rep_movsw`, `asm_out`, `asm_in`,
`asm_out_3c7`) for all operands and every shift count, those from 0 up to the operand width
included; so the carry-in that `asm_adc` and `asm_adc_r_m` read is always 0 or 1. -/
theorem flags_invariant (s : dos_t) (d src : reg_t) (v : uint16_t) (g : seg_t) (a : uint16_t)
    (cnt : Nat) (port : uint16_t) (val : uint8_t) (h : flags_inv s) :
    flags_inv dos_zero
    ∧ (flags_inv (asm_mov s d src) ∧ flags_inv (asm_mov_i s d v)
      ∧ flags_inv (asm_mov_r_m s d g a) ∧ flags_inv (asm_mov_m_r s g a src)
      ∧ flags_inv (asm_xor s d src)
      ∧ flags_inv (asm_add s d src) ∧ flags_inv (asm_add_i s d v)
      ∧ flags_inv (asm_add_r_m s d g a) ∧ flags_inv (asm_add_m_r s g a src)
      ∧ flags_inv (asm_sub s d src) ∧ flags_inv (asm_cmp s d src) ∧ flags_inv (asm_cmp_i s d v)
      ∧ flags_inv (asm_and_i s d v)
      ∧ flags_inv (asm_adc s d src) ∧ flags_inv (asm_adc_r_m s d g a))
    ∧ (flags_inv (asm_shr s d cnt) ∧ flags_inv (asm_shl s d cnt) ∧ flags_inv (asm_sar s d cnt)
      ∧ flags_inv (asm_sar_m8 s g a cnt) ∧ flags_inv (asm_rol s d cnt))
    ∧ (flags_inv (asm_inc s d) ∧ flags_inv (asm_dec s d) ∧ flags_inv (asm_not s d)
      ∧ flags_inv (asm_mul s src) ∧ flags_inv (asm_lea s d v) ∧ flags_inv (asm_cbw s))
    ∧ (flags_inv (asm_push s src) ∧ flags_inv (asm_push_i s v) ∧ flags_inv (asm_pop s d)
      ∧ flags_inv (asm_pop_val s).2 ∧ flags_inv (asm_rep_movsw s)
      ∧ flags_inv (asm_out_3c7 s val)
      ∧ (∀ t, asm_out s port val = some t → flags_inv t)
      ∧ (∀ x t, asm_in s port = some (x, t) → flags_inv t))
    ∧ ((s.cf = 0 ∨ s.cf = 1)
      ∧ ((asm_adc s d src).cf = 0 ∨ (asm_adc s d src).cf = 1)) :=
  ⟨⟨Or.inl rfl, Or.inl rfl, Or.inl rfl, Or.inl rfl⟩,
    ⟨flags_inv_of_same _ _ h (same_flags_reg_set _ _ _),
      flags_inv_of_same _ _ h (same_flags_reg_set _ _ _),
      flags_inv_of_same _ _ h (same_flags_asm_mov_r_m s d g a),
      flags_inv_of_same _ _ h (same_flags_asm_mov_m_r s g a src),
      flags_inv_asm_xor s d src h,
      flags_inv_asm_add s d src h, flags_inv_asm_add_i s d v h,
      flags_inv_asm_add_r_m s d g a h, flags_inv_asm_add_m_r s g a src h,
      flags_inv_asm_sub s d src h, flags_inv_asm_cmp s d src h, flags_inv_asm_cmp_i s d v h,
      flags_inv_asm_and_i s d v h,
      flags_inv_asm_adc s d src h, flags_inv_asm_adc_r_m s d g a h⟩,
    ⟨flags_inv_asm_shr s d cnt h, flags_inv_asm_shl s d cnt h, flags_inv_asm_sar s d cnt h,
      flags_inv_asm_sar_m8 s g a cnt h, flags_inv_asm_rol s d cnt h⟩,
    ⟨flags_inv_asm_inc s d h, flags_inv_asm_dec s d h,
      flags_inv_of_same _ _ h (same_flags_reg_set _ _ _),
      flags_inv_asm_mul s src h,
      flags_inv_of_same _ _ h (same_flags_reg_set _ _ _),
      flags_inv_of_same _ _ h ⟨rfl, rfl, rfl, rfl⟩⟩,
    ⟨flags_inv_of_same _ _ h (same_flags_asm_push s src),
      flags_inv_of_same _ _ h (same_flags_asm_push_i s v),
      flags_inv_of_same _ _ h (same_flags_asm_pop s d),
      flags_inv_of_same _ _ h ⟨rfl, rfl, rfl, rfl⟩,
      flags_inv_of_same _ _ h (same_flags_asm_rep_movsw s),
      flags_inv_of_same _ _ h ⟨rfl, rfl, rfl, rfl⟩,
      fun t ht => flags_inv_of_same _ _ h (same_flags_asm_out s port val t ht),
      fun x t ht => flags_inv_of_same _ _ h (same_flags_asm_in s port x t ht)⟩,
    ⟨h.1, (flags_inv_asm_adc s d src h).1⟩⟩

/-- Witness for C39: the zero state satisfies the invariant, and so do the states after
`adc al, bl` and after `shr ax, 16` on it. -/
theorem flags_invariant_witness :
    flags_inv dos_zero
    ∧ flags_inv (asm_adc dos_zero AL BL)
    ∧ flags_inv (asm_shr dos_zero AX 16) :=
  ⟨⟨Or.inl rfl, Or.inl rfl, Or.inl rfl, Or.inl rfl⟩,
    (flags_invariant dos_zero AL BL 0 SEG_DS 0 16 0 0
      ⟨Or.inl rfl, Or.inl rfl, Or.inl rfl, Or.inl rfl⟩).2.1.2.2.2.2.2.2.2.2.2.2.2.2.2.1,
    (flags_invariant dos_zero AX BL 0 SEG_DS 0 16 0 0
      ⟨Or.inl rfl, Or.inl rfl, Or.inl rfl, Or.inl rfl⟩).2.2.1.1⟩

/-! ## The BMP writers of the rewrites -/

/-- C31: the outputs of `save_bmp` in `dosemu.h` (W = 320, H = 200), of `save_bmp` in
`tube_rewrite.c` (W = 320, H = 200) and of `save_bmp` in `texgen.c` (W = H = 256) all equal
the one template `bmp_template W H palette pixels`, which is the header for `W` and `H`, the
256 entries blue, green, red, zero, and the rows `H - 1` down to 0, and has
`14 + 40 + 1024 + W * H` bytes; given equal palettes and equal 64000 pixel bytes, the
`dosemu.h` and `tube_rewrite.c` writers emit the same bytes.  None of the three emits
anything when the output does not open. -/
theorem save_bmp_variants (s : dos_t) (palette : Fin 768 → uint8_t) (vga : Fin 64000 → uint8_t)
    (texture : uint16_t → uint8_t) (W H : Nat) (pixels : Nat → uint8_t) :
    save_bmp s (some []) = some (bmp_template 320 200 s.pal (fun k => s.vga (u16 (k : Nat))))
    ∧ tube_rewrite.save_bmp palette vga (some [])
        = some (bmp_template 320 200 palette (fun k => if h : k < 64000 then vga ⟨k, h⟩ else 0))
    ∧ texgen.save_bmp palette texture (some [])
        = some (bmp_template 256 256 palette (fun k => texture (u16 (k : Nat))))
    ∧ (save_bmp s none = none ∧ tube_rewrite.save_bmp palette vga none = none
        ∧ texgen.save_bmp palette texture none = none)
    ∧ (bmp_template W H palette pixels).length = 14 + 40 + 1024 + W * H
    ∧ (bmp_template W H palette pixels).take 54 = bmp_header W H
    ∧ (s.pal = palette → (∀ k : Fin 64000, s.vga (u16 (k.val : Nat)) = vga k) →
        save_bmp s (some []) = tube_rewrite.save_bmp palette vga (some [])) := by
  refine ⟨save_bmp_eq_template s, tube_rewrite_save_bmp_eq palette vga,
    texgen_save_bmp_eq palette texture, ⟨rfl, rfl, rfl⟩,
    bmp_template_length W H palette pixels, ?_, fun hp hv => ?_⟩
  · rw [bmp_template]
    apply List.take_left'
    simp only [bmp_header, bmp_le32, bmp_le16, List.length_append, List.length_cons,
      List.length_nil]
  · rw [save_bmp_eq_template, tube_rewrite_save_bmp_eq, hp]
    refine congrArg some ?_
    apply bmp_template_congr
    intro k hk
    have hk2 : k < 64000 := by omega
    show s.vga (u16 (k : Nat)) = if h : k < 64000 then vga ⟨k, h⟩ else 0
    rw [dif_pos hk2]
    exact hv ⟨k, hk2⟩

/-- Witness for C31: the zero state, the zero palette and the zero frame buffer hold equal
palettes and equal pixel bytes. -/
theorem save_bmp_variants_witness :
    (dos_zero.pal = (fun _ => 0)
      ∧ ∀ k : Fin 64000, dos_zero.vga (u16 (k.val : Nat)) = (fun _ => (0 : uint8_t)) k)
    ∧ save_bmp dos_zero (some [])
        = tube_rewrite.save_bmp (fun _ => 0) (fun _ => 0) (some []) :=
  ⟨⟨rfl, fun _ => rfl⟩,
    (save_bmp_variants dos_zero (fun _ => 0) (fun _ => 0) (fun _ => 0) 320 200
      (fun _ => 0)).2.2.2.2.2.2 rfl (fun _ => rfl)⟩

/-! ## The texture generator -/

/-- C37: after `generate_texture` the texture has vertical symmetry: for every index `k` in
0..65535, `texture[k] = texture[k XOR 0xFF00]`, where `k XOR 0xFF00` is the same column of row
`255 - v`.  Each pass of the loop writes one value to `idx` and to `idx XOR 0xFF00` and
nothing else; the `do ... while (--idx)` loop started at `idx = 0` makes exactly 65536
passes (after `j` passes `idx` is `(65536 - j) mod 65536`, which is 0 first at `j = 65536`),
and every index is the `idx` of one of them. -/
theorem generate_texture_symmetry (t0 : uint16_t → uint8_t) (k : uint16_t)
    (hash : uint16_t) (accum : uint8_t) (idx : uint16_t) (texture : uint16_t → uint8_t) :
    generate_texture t0 k = generate_texture t0 (mirror k)
    ∧ ((mirror k).val = k.val ^^^ 0xFF00
      ∧ (mirror k).val = (255 - k.val / 256) * 256 + k.val % 256)
    ∧ ((generate_texture_body hash accum idx texture).2.2 idx
          = (generate_texture_body hash accum idx texture).2.1
      ∧ (generate_texture_body hash accum idx texture).2.2 (mirror idx)
          = (generate_texture_body hash accum idx texture).2.1
      ∧ (∀ x, x ≠ idx → x ≠ mirror idx →
          (generate_texture_body hash accum idx texture).2.2 x = texture x))
    ∧ generate_texture t0
        = (generate_texture_pass^[65536] (0, 0xC9, 0, fun k => u8 ((k.val % 256 : Nat)))).2.2.2
    ∧ (∀ j, j ≤ 65536 →
        (generate_texture_pass^[j] (0, 0xC9, 0, fun k => u8 ((k.val % 256 : Nat)))).2.2.1.val
          = (65536 - j) % 65536)
    ∧ (∀ j, 0 < j → j < 65536 →
        (generate_texture_pass^[j] (0, 0xC9, 0, fun k => u8 ((k.val % 256 : Nat)))).2.2.1.val ≠ 0)
    ∧ (generate_texture_pass^[65536] (0, 0xC9, 0, fun k => u8 ((k.val % 256 : Nat)))).2.2.1.val = 0
    ∧ (∃ j, j < 65536 ∧
        (generate_texture_pass^[j] (0, 0xC9, 0, fun k => u8 ((k.val % 256 : Nat)))).2.2.1 = k) := by
  have hiter : generate_texture t0
      = (generate_texture_pass^[65536] (0, 0xC9, 0, fun k => u8 ((k.val % 256 : Nat)))).2.2.2 := by
    rw [generate_texture_eq]
    have h0 : ((0 : uint16_t).val + 65535) % 65536 = 65535 := by
      rw [show (0 : uint16_t).val = 0 from rfl]
    have h := generate_texture_loop_iterate 65535 0 0xC9 0
      (fun k => u8 ((k.val % 256 : Nat))) h0
    rw [show (65535 + 1 : Nat) = 65536 from rfl] at h
    exact h
  have hidx : ∀ j, j ≤ 65536 →
      (generate_texture_pass^[j] (0, 0xC9, 0, fun k => u8 ((k.val % 256 : Nat)))).2.2.1.val
        = (65536 - j) % 65536 := by
    intro j hj
    have h := generate_texture_pass_idx j (0, 0xC9, 0, fun k => u8 ((k.val % 256 : Nat)))
    have h0 : ((0 : uint16_t).val : Int) = 0 := rfl
    rw [h0] at h
    omega
  refine ⟨?_, ⟨mirror_val_xor k, mirror_val k⟩, ⟨?_, ?_, fun x h1 h2 => ?_⟩, hiter, hidx,
    fun j h1 h2 => ?_, ?_, ⟨(65536 - k.val) % 65536, ?_, ?_⟩⟩
  · rw [hiter]
    exact generate_texture_pass_sym 65536 _ tex_sym_fill k
  · rw [generate_texture_body_tex, Function.update_noteq (mirror_ne idx).symm,
      Function.update_same]
  · rw [generate_texture_body_tex, Function.update_same]
  · rw [generate_texture_body_tex, Function.update_noteq h2, Function.update_noteq h1]
  · rw [hidx j (by omega)]
    omega
  · rw [hidx 65536 (Nat.le_refl _)]
  · have := k.isLt
    omega
  · have hk := k.isLt
    apply Fin.ext
    rw [hidx _ (by omega)]
    omega

/-- Witness for C37: after one pass `idx` is 65535, not 0. -/
theorem generate_texture_symmetry_witness :
    ((0 : Nat) < 1 ∧ (1 : Nat) < 65536)
    ∧ (generate_texture_pass^[1] (0, 0xC9, 0, fun k => u8 ((k.val % 256 : Nat)))).2.2.1.val ≠ 0
    ∧ generate_texture (fun _ => 0) 0x0012 = generate_texture (fun _ => 0) (mirror 0x0012) :=
  ⟨⟨by decide, by decide⟩,
    (generate_texture_symmetry (fun _ => 0) 0x0012 0 0 0 (fun _ => 0)).2.2.2.2.2.1 1
      (by decide) (by decide),
    (generate_texture_symmetry (fun _ => 0) 0x0012 0 0 0 (fun _ => 0)).1⟩

/-! ## The texture loop of tube.c against generate_texture -/

/-- C36: from a state with AX = 0, DL = 0xC9, CX = 0 and `fsmem[k] = k mod 256`, the `TEX`
loop of tube.c runs exactly 65536 passes (it returns with that much fuel or more and not
with less), ends with CX = 0, and leaves the FS region equal to the array `texture[]` that
`generate_texture` computes.  After every number `j` of passes AX, DL, CX and the FS region
are `hash`, `accum`, `idx` and `texture` after `j` passes of the C loop; inside a pass the
carry flag after `sar dh, 5` and after `adc dl, dh` is the value of `carry` at the matching
point of the C loop body. -/
theorem TEX_loop_generate_texture (s : dos_t) (t0 : uint16_t → uint8_t)
    (hax : s.ax = 0) (hdl : lo s.dx = 0xC9) (hcx : s.cx = 0)
    (hfs : ∀ k, s.fsmem k = u8 ((k.val % 256 : Nat))) :
    (∀ fuel, 65536 ≤ fuel → TEX_loop fuel s = some (TEX_pass^[65536] s))
    ∧ (∀ fuel, fuel < 65536 → TEX_loop fuel s = none)
    ∧ (TEX_pass^[65536] s).cx = 0
    ∧ (TEX_pass^[65536] s).fsmem = generate_texture t0
    ∧ (∀ j, tex_regs (TEX_pass^[j] s)
        = generate_texture_pass^[j] (0, 0xC9, 0, fun k => u8 ((k.val % 256 : Nat))))
    ∧ (∀ u : dos_t, TEX_body u = TEX_from_adc (TEX_to_adc u)
        ∧ (TEX_to_sar u).cf = (generate_texture_carry u.ax (lo u.dx) u.cx).1
        ∧ (TEX_to_adc u).cf = (generate_texture_carry u.ax (lo u.dx) u.cx).2) := by
  have hn : (s.cx.val + 65535) % 65536 = 65535 := by
    rw [hcx]
    rfl
  have hregs : tex_regs s = (0, 0xC9, 0, fun k => u8 ((k.val % 256 : Nat))) := by
    have hf : s.fsmem = fun k => u8 ((k.val % 256 : Nat)) := funext hfs
    simp only [tex_regs, hax, hdl, hcx, hf]
  have hiter : ∀ j, tex_regs (TEX_pass^[j] s)
      = generate_texture_pass^[j] (0, 0xC9, 0, fun k => u8 ((k.val % 256 : Nat))) := by
    intro j
    rw [tex_regs_iterate, hregs]
  have h65 := hiter 65536
  refine ⟨fun fuel hf => ?_, fun fuel hf => TEX_loop_none fuel s (by omega), ?_, ?_, hiter,
    fun u => ⟨TEX_body_split u, TEX_to_sar_cf u, TEX_to_adc_cf u⟩⟩
  · have h := TEX_loop_some fuel s (by omega)
    rw [hn, show (65535 + 1 : Nat) = 65536 from rfl] at h
    exact h
  · rw [← tex_regs_cx, h65]
    apply Fin.ext
    have h := generate_texture_pass_idx 65536 (0, 0xC9, 0, fun k => u8 ((k.val % 256 : Nat)))
    have h0 : ((0 : uint16_t).val : Int) = 0 := rfl
    rw [h0] at h
    have hz : ((0 : uint16_t).val : Nat) = 0 := rfl
    rw [hz]
    omega
  · rw [← tex_regs_fsmem, h65, generate_texture_iterate]

/-- Witness for C36: the zero state with DX = 0x3C9 and the identity fill in the FS region. -/
theorem TEX_loop_generate_texture_witness :
    TEX_loop 65536 { dos_zero with dx := 0x3C9, fsmem := fun k => u8 ((k.val % 256 : Nat)) }
        = some (TEX_pass^[65536]
            { dos_zero with dx := 0x3C9, fsmem := fun k => u8 ((k.val % 256 : Nat)) })
    ∧ (TEX_pass^[65536]
        { dos_zero with dx := 0x3C9, fsmem := fun k => u8 ((k.val % 256 : Nat)) }).fsmem
      = generate_texture (fun _ => 0) :=
  ⟨(TEX_loop_generate_texture
      { dos_zero with dx := 0x3C9, fsmem := fun k => u8 ((k.val % 256 : Nat)) } (fun _ => 0)
      rfl (by decide) rfl (fun _ => by rfl)).1 65536 (Nat.le_refl _),
    (TEX_loop_generate_texture
      { dos_zero with dx := 0x3C9, fsmem := fun k => u8 ((k.val % 256 : Nat)) } (fun _ => 0)
      rfl (by decide) rfl (fun _ => by rfl)).2.2.2.1⟩

/-! ## The palette loop of tube.c against generate_palette -/

/-- C35: from any state with CX = 0 (the zero-initialised state of tube.c after
`xor cx, cx` is one), the palette loop PAL1..PAL3 makes exactly 65536 passes: it returns
with that much fuel or more, and not with less.  The state it returns has `pal[0..767]`
equal to the table `generate_palette` computes, whose entry `i` is the specified one
(`palette_spec`), has `fsmem[k] = k mod 256` for every `k`, so that `generate_texture` is
the texture loop run on that FS region, and has AX = 0, DL = 0xC9 and CX = 0. -/
theorem PAL1_loop_generate_palette (s : dos_t) (p0 : Fin 768 → uint8_t)
    (t0 : uint16_t → uint8_t) (hcx : s.cx = 0) :
    ∃ t, (∀ fuel, 65536 ≤ fuel → PAL1_loop fuel s = some t)
      ∧ (∀ fuel, fuel < 65536 → PAL1_loop fuel s = none)
      ∧ t.pal = generate_palette p0
      ∧ (∀ i c, ∀ hi : i < 256, ∀ hc : c < 3,
          (generate_palette p0 ⟨i * 3 + c, by omega⟩).val = palette_spec i c)
      ∧ (∀ k : uint16_t, t.fsmem k = u8 ((k.val % 256 : Nat)))
      ∧ generate_texture t0 = generate_texture_loop 0 0xC9 0 t.fsmem
      ∧ t.ax = 0 ∧ lo t.dx = 0xC9 ∧ t.cx = 0 := by
  have hc : s.cx.val = 0 := by rw [hcx]; rfl
  obtain ⟨t, e, h1, h2, h3, h4, h5⟩ := PAL1_loop_inv 65536 s (by omega)
  have hfs : ∀ k : uint16_t, t.fsmem k = u8 ((k.val % 256 : Nat)) := by
    intro k
    rw [h4 k, if_pos (Or.inl hc)]
    apply Fin.ext
    rw [u8_val_nat]
    show k.val % 256 = _
    omega
  refine ⟨t, fun fuel hf => PAL1_loop_mono_le 65536 fuel s t e hf,
    fun fuel hf => PAL1_loop_none fuel s (by omega), ?_, fun i c hi hc => ?_, hfs, ?_, h3, ?_, h1⟩
  · funext j
    rw [h5 j, if_pos (Or.inl hc), generate_palette_eq]
  · rw [generate_palette_eq]
    exact palette_byte_val i c hi hc
  · rw [generate_texture_eq, show t.fsmem = fun k => u8 ((k.val % 256 : Nat)) from funext hfs]
  · rw [h2]
    decide

/-- Witness for C35: the zero-initialised state of tube.c. -/
theorem PAL1_loop_generate_palette_witness :
    ∃ t, PAL1_loop 65536 dos_zero = some t ∧ t.pal = generate_palette (fun _ => 0)
      ∧ (generate_palette (fun _ => 0) ⟨5 * 3 + 1, by decide⟩).val = palette_spec 5 1
      ∧ t.ax = 0 ∧ lo t.dx = 0xC9 ∧ t.cx = 0 :=
  (PAL1_loop_generate_palette dos_zero (fun _ => 0) (fun _ => 0) rfl).elim
    fun t h => ⟨t, h.1 65536 (Nat.le_refl _), h.2.2.1,
      h.2.2.2.1 5 1 (by decide) (by decide), h.2.2.2.2.2.2.1, h.2.2.2.2.2.2.2.1,
      h.2.2.2.2.2.2.2.2⟩

end Dosemu
